import Mathlib

/-!
# Binding resolution and state tracking of `StarInput.cpp`

A shallow embedding of `source/game/StarInput.cpp` (namespace `Star`): the
modifier matchers, the bind codec, the priority-tier selection, the mapping
index and the per-frame state machine, followed by theorems about them.

`KeyMod` is a 16-bit flag word in the source; it is embedded as a natural
number and every operation that could leave the 16-bit range (only `~`) is
reduced modulo `2 ^ 16` explicitly.
-/

namespace Star

/-! ## Modifier sets -/

/-- A modifier bitset, the `uint16_t`-backed `KeyMod` flag enumeration. -/
abbrev KeyMod := Nat

namespace KeyMod

/-- Modelled from the spec: the `KeyMod` enumerators are declared in
`StarInputEvent.hpp`, which is not part of the sources at hand.  The spec
lists twelve modifiers forming a bitset; each is a distinct single bit of a
16-bit word. -/
def NoMod : KeyMod := 0x0000
/-- Modelled from the spec: left shift, bit 0. -/
def LShift : KeyMod := 0x0001
/-- Modelled from the spec: right shift, bit 1. -/
def RShift : KeyMod := 0x0002
/-- Modelled from the spec: left control, bit 6. -/
def LCtrl : KeyMod := 0x0040
/-- Modelled from the spec: right control, bit 7. -/
def RCtrl : KeyMod := 0x0080
/-- Modelled from the spec: left alt, bit 8. -/
def LAlt : KeyMod := 0x0100
/-- Modelled from the spec: right alt, bit 9. -/
def RAlt : KeyMod := 0x0200
/-- Modelled from the spec: left gui, bit 10. -/
def LGui : KeyMod := 0x0400
/-- Modelled from the spec: right gui, bit 11. -/
def RGui : KeyMod := 0x0800
/-- Modelled from the spec: num lock, bit 12 (optional). -/
def Num : KeyMod := 0x1000
/-- Modelled from the spec: caps lock, bit 13 (optional). -/
def Caps : KeyMod := 0x2000
/-- Modelled from the spec: alt-gr, bit 14. -/
def AltGr : KeyMod := 0x4000
/-- Modelled from the spec: scroll lock, bit 15 (optional). -/
def Scroll : KeyMod := 0x8000

end KeyMod

/-- Modelled from the spec: `operator~` of the flag enumeration is declared
with it, outside the sources at hand; it is the complement inside the 16 bits
of the underlying word. -/
def keyModNot (a : KeyMod) : KeyMod := 0xFFFF ^^^ (a % 0x10000)

/-- Source line 23: `KeyModOptional = Num | Caps | Scroll`. -/
def KeyModOptional : KeyMod := KeyMod.Num ||| KeyMod.Caps ||| KeyMod.Scroll

/-- Source lines 25-29. -/
def compareKeyModLenient (input test : KeyMod) : Bool :=
  let input := input ||| KeyModOptional
  let test := test ||| KeyModOptional
  decide ((test &&& input) = test)

/-- Source lines 31-33. -/
def compareKeyMod (input test : KeyMod) : Bool :=
  decide ((input ||| (KeyModOptional &&& keyModNot test)) = (test ||| KeyModOptional))

/-- Bit index `i` is one of the optional bits (Num, Caps, Scroll). -/
def optionalBit (i : Nat) : Prop := i = 12 ∨ i = 13 ∨ i = 15

instance (i : Nat) : Decidable (optionalBit i) := by
  unfold optionalBit; infer_instance

/-! ## Error conditions and the structural (JSON) representation -/

/-- The exception classes that the embedded code can raise. -/
inductive StarError where
  /-- A `JsonException`: wrong JSON type, missing key, or a name that does
  not resolve while decoding (the decode errors of the spec). -/
  | json
  /-- A `MapException`: an enumerator without a name in a `BiMap`. -/
  | map
  /-- An `InputException`: the NotFound condition of the registry. -/
  | input
  deriving DecidableEq, Repr

/-- Modelled from the spec: the `Json` value type comes from the JSON library,
which is not part of the sources at hand; only the wire shape is used.
Floating-point numbers are left out. Objects are association lists read at
the first occurrence of a key. -/
inductive Json where
  | null
  | bool (b : Bool)
  | int (n : Int)
  | str (s : String)
  | arr (xs : List Json)
  | obj (kvs : List (String × Json))

namespace Json

/-- Embeds `Json::isNull`. -/
def isNull : Json → Bool
  | null => true
  | _ => false

/-- Embeds `Json::isType(Json::Type::Array)`. -/
def isArray : Json → Bool
  | arr _ => true
  | _ => false

/-- Embeds `Json::isType(Json::Type::Object)`. -/
def isObject : Json → Bool
  | obj _ => true
  | _ => false

/-- Embeds `Json::toString`: fails unless the value is a string. -/
def toString : Json → Except StarError String
  | str s => .ok s
  | _ => .error .json

/-- Embeds `Json::toArray`: fails unless the value is an array. -/
def toArray : Json → Except StarError (List Json)
  | arr xs => .ok xs
  | _ => .error .json

/-- Embeds `Json::toUInt`: fails unless the value is a non-negative integer. -/
def toUInt : Json → Except StarError Nat
  | int n => if 0 ≤ n then .ok n.toNat else .error .json
  | _ => .error .json

/-- First value stored under `key` in an association list. -/
def lookup (key : String) : List (String × Json) → Option Json
  | [] => none
  | (k, v) :: rest => if k = key then some v else lookup key rest

/-- Embeds `Json::ptr(key)`: fails unless the value is an object. -/
def ptr (j : Json) (key : String) : Except StarError (Option Json) :=
  match j with
  | obj kvs => .ok (lookup key kvs)
  | _ => .error .json

/-- Embeds `Json::get(key, default)`. -/
def get (j : Json) (key : String) (dflt : Json) : Except StarError Json := do
  let p ← j.ptr key
  pure (p.getD dflt)

/-- Embeds `Json::getString(key)`: the key must be present and hold a string. -/
def getString (j : Json) (key : String) : Except StarError String := do
  let p ← j.ptr key
  match p with
  | some v => v.toString
  | none => .error .json

/-- Embeds `Json::getArray(key, default)`. -/
def getArray (j : Json) (key : String) (dflt : List Json) : Except StarError (List Json) := do
  let p ← j.ptr key
  match p with
  | some v => v.toArray
  | none => pure dflt

/-- Embeds `Json::getUInt(key, default)`. -/
def getUInt (j : Json) (key : String) (dflt : Nat) : Except StarError Nat := do
  let p ← j.ptr key
  match p with
  | some v => v.toUInt
  | none => pure dflt

/-- Replace or add the value stored under `key` in an association list. -/
def assocSet (key : String) (v : Json) : List (String × Json) → List (String × Json)
  | [] => [(key, v)]
  | (k, w) :: rest => if k = key then (k, v) :: rest else (k, w) :: assocSet key v rest

end Json

/-! ## Enumerations and name tables -/

/-- Modelled from the spec: the `Key` enumeration is declared in
`StarInputEvent.hpp`, which is not part of the sources at hand.  The ten keys
named by `KeysToMods` are kept by name; every other key is `other n`. -/
inductive Key where
  | LShift | RShift | LCtrl | RCtrl | LAlt | RAlt | LGui | RGui | AltGr | ScrollLock
  | other (n : Nat)
  deriving DecidableEq, Repr

/-- Modelled from the spec: the `MouseButton` enumeration (declared outside
the sources at hand), identified by its numeric code. -/
structure MouseButton where
  code : Nat
  deriving DecidableEq, Repr

/-- Modelled from the spec: the `ControllerButton` enumeration (declared
outside the sources at hand), identified by its numeric code. -/
structure ControllerButton where
  code : Nat
  deriving DecidableEq, Repr

/-- A `BiMap<Left, Right>` given, as in the source, by its list of pairs. -/
abbrev BiMap (L R : Type) := List (L × R)

namespace BiMap

/-- Embeds `BiMap::rightPtr(left)`: the right value paired with `left`, if any. -/
def rightPtr {L R : Type} [DecidableEq L] (m : BiMap L R) (l : L) : Option R :=
  (m.find? (fun p => decide (p.1 = l))).map Prod.snd

/-- Embeds `BiMap::leftPtr(right)`: the left value paired with `right`, if any. -/
def leftPtr {L R : Type} [DecidableEq R] (m : BiMap L R) (r : R) : Option L :=
  (m.find? (fun p => decide (p.2 = r))).map Prod.fst

/-- Modelled from the spec: `BiMap` is defined outside the sources at hand; an
unresolvable value is an error.  `getRight(left)` raises the exception of the
container (`MapException`, which is not a `JsonException`) when `left` is
absent. -/
def getRight {L R : Type} [DecidableEq L] (m : BiMap L R) (l : L) : Except StarError R :=
  match m.rightPtr l with
  | some r => .ok r
  | none => .error .map

/-- Modelled from the spec: `BiMap` is defined outside the sources at hand.
The spec makes an unresolvable name a decode error of that one record,
recovered like a malformed record, so `getLeft(right)` raises in the class
that the loading loops catch when `right` is absent. -/
def getLeft {L R : Type} [DecidableEq R] (m : BiMap L R) (r : R) : Except StarError L :=
  match m.leftPtr r with
  | some l => .ok l
  | none => .error .json

end BiMap

/-- Source lines 10-21. -/
def KeysToMods : BiMap Key KeyMod :=
  [ (Key.LShift, KeyMod.LShift),
    (Key.RShift, KeyMod.RShift),
    (Key.LCtrl, KeyMod.LCtrl),
    (Key.RCtrl, KeyMod.RCtrl),
    (Key.LAlt, KeyMod.LAlt),
    (Key.RAlt, KeyMod.RAlt),
    (Key.LGui, KeyMod.LGui),
    (Key.RGui, KeyMod.RGui),
    (Key.AltGr, KeyMod.AltGr),
    (Key.ScrollLock, KeyMod.Scroll) ]

/-- Modelled from the spec: the `KeyModNames` table is defined outside the
sources at hand; its twelve names are those `keyModsToJson` emits. -/
def KeyModNames : BiMap KeyMod String :=
  [ (KeyMod.LShift, "LShift"),
    (KeyMod.RShift, "RShift"),
    (KeyMod.LCtrl, "LCtrl"),
    (KeyMod.RCtrl, "RCtrl"),
    (KeyMod.LAlt, "LAlt"),
    (KeyMod.RAlt, "RAlt"),
    (KeyMod.LGui, "LGui"),
    (KeyMod.RGui, "RGui"),
    (KeyMod.Num, "Num"),
    (KeyMod.Caps, "Caps"),
    (KeyMod.AltGr, "AltGr"),
    (KeyMod.Scroll, "Scroll") ]

/-- The name tables `KeyNames`, `MouseButtonNames` and `ControllerButtonNames`
that the source uses and that are defined elsewhere: taken as a parameter. -/
structure NameTables where
  keyNames : BiMap Key String
  mouseButtonNames : BiMap MouseButton String
  controllerButtonNames : BiMap ControllerButton String

/-! ## Bind codec -/

/-- Source lines 36-49: the twelve tests, each appending its name. -/
def keyModsToJsonNames (mod : KeyMod) : List String :=
  let array : List String := []
  let array := if mod &&& KeyMod.LShift ≠ 0 then array ++ ["LShift"] else array
  let array := if mod &&& KeyMod.RShift ≠ 0 then array ++ ["RShift"] else array
  let array := if mod &&& KeyMod.LCtrl ≠ 0 then array ++ ["LCtrl"] else array
  let array := if mod &&& KeyMod.RCtrl ≠ 0 then array ++ ["RCtrl"] else array
  let array := if mod &&& KeyMod.LAlt ≠ 0 then array ++ ["LAlt"] else array
  let array := if mod &&& KeyMod.RAlt ≠ 0 then array ++ ["RAlt"] else array
  let array := if mod &&& KeyMod.LGui ≠ 0 then array ++ ["LGui"] else array
  let array := if mod &&& KeyMod.RGui ≠ 0 then array ++ ["RGui"] else array
  let array := if mod &&& KeyMod.Num ≠ 0 then array ++ ["Num"] else array
  let array := if mod &&& KeyMod.Caps ≠ 0 then array ++ ["Caps"] else array
  let array := if mod &&& KeyMod.AltGr ≠ 0 then array ++ ["AltGr"] else array
  let array := if mod &&& KeyMod.Scroll ≠ 0 then array ++ ["Scroll"] else array
  array

/-- Source lines 35-52: null for the empty set, else the array of names. -/
def keyModsToJson (mod : KeyMod) : Json :=
  match keyModsToJsonNames mod with
  | [] => Json.null
  | names => Json.arr (names.map Json.str)

/-- The loop of source lines 61-67; `modPriority` is a `uint8_t`. -/
def keyModsFromJsonLoop : List Json → KeyMod → Nat → Except StarError (KeyMod × Nat)
  | [], mod, modPriority => .ok (mod, modPriority)
  | jMod :: rest, mod, modPriority => do
    let name ← jMod.toString
    let named ← KeyModNames.getLeft name
    let changedMod := mod ||| named
    if mod ≠ changedMod then
      keyModsFromJsonLoop rest changedMod ((modPriority + 1) % 256)
    else
      keyModsFromJsonLoop rest mod modPriority

/-- Source lines 55-72.  `priority` is the content of the out-parameter on
entry; the second component of the result is its content on return. -/
def keyModsFromJson (json : Json) (priority : Nat) : Except StarError (KeyMod × Nat) :=
  match json with
  | Json.arr xs => keyModsFromJsonLoop xs KeyMod.NoMod 0
  | _ => .ok (KeyMod.NoMod, priority)

/-- A `KeyBind`; `priority` is a `uint8_t`. -/
structure KeyBind where
  key : Key
  mods : KeyMod
  priority : Nat
  deriving DecidableEq, Repr

/-- A `MouseBind`; `priority` is a `uint8_t`. -/
structure MouseBind where
  button : MouseButton
  mods : KeyMod
  priority : Nat
  deriving DecidableEq, Repr

/-- A `ControllerBind`. -/
structure ControllerBind where
  controller : Nat
  button : ControllerButton
  deriving DecidableEq, Repr

/-- The `Bind` variant; `empty` is the default-constructed (no-op) bind. -/
inductive Bind where
  | empty
  | key (b : KeyBind)
  | mouse (b : MouseBind)
  | controller (b : ControllerBind)
  deriving DecidableEq, Repr

/-- Source lines 137-165. -/
def bindFromJson (T : NameTables) (json : Json) : Except StarError Bind :=
  if json.isNull then .ok Bind.empty
  else do
    let type ← json.getString "type"
    let value ← json.get "value" Json.null
    if type = "key" then do
      let name ← value.toString
      let key ← T.keyNames.getLeft name
      let jMods ← json.getArray "mods" []
      let (mods, priority) ← keyModsFromJson (Json.arr jMods) 0
      pure (Bind.key { key := key, mods := mods, priority := priority })
    else if type = "mouse" then do
      let name ← value.toString
      let button ← T.mouseButtonNames.getLeft name
      let jMods ← json.getArray "mods" []
      let (mods, priority) ← keyModsFromJson (Json.arr jMods) 0
      pure (Bind.mouse { button := button, mods := mods, priority := priority })
    else if type = "controller" then do
      let name ← value.toString
      let button ← T.controllerButtonNames.getLeft name
      let controller ← json.getUInt "controller" 0
      pure (Bind.controller { controller := controller, button := button })
    else
      pure Bind.empty

/-- Source lines 167-194. -/
def bindToJson (T : NameTables) (bind : Bind) : Except StarError Json :=
  match bind with
  | Bind.key keyBind => do
    let name ← T.keyNames.getRight keyBind.key
    let obj := [("type", Json.str "key"), ("value", Json.str name)]
    match keyModsToJson keyBind.mods with
    | Json.null => pure (Json.obj obj)
    | mods => pure (Json.obj (obj ++ [("mods", mods)]))
  | Bind.mouse mouseBind => do
    let name ← T.mouseButtonNames.getRight mouseBind.button
    let obj := [("type", Json.str "mouse"), ("value", Json.str name)]
    match keyModsToJson mouseBind.mods with
    | Json.null => pure (Json.obj obj)
    | mods => pure (Json.obj (obj ++ [("mods", mods)]))
  | Bind.controller controllerBind => do
    let name ← T.controllerButtonNames.getRight controllerBind.button
    pure (Json.obj [("type", Json.str "controller"), ("value", Json.str name)])
  | Bind.empty => pure Json.null

/-! ## Registry -/

/-- Identity of a `BindEntry` object (the target of a `BindEntry*`): the key
of its category in `m_bindCategories` and its own key in `entries`. -/
abbrev EntryId := String × String

/-- The fields of `Input::BindEntry`; `category` holds the parent's id. -/
structure BindEntry where
  category : String
  id : String
  name : String
  defaultBinds : List Bind
  customBinds : List Bind

/-- The fields of `Input::BindCategory`; `entries` is a `StringMap`, kept as
the list of its pairs in iteration order. -/
structure BindCategory where
  id : String
  name : String
  config : Json
  entries : List (String × BindEntry)

/-- The `ptr(key)` lookup of a `StringMap` kept as a list of pairs. -/
def mapPtr {σ : Type} (key : String) : List (String × σ) → Option σ
  | [] => none
  | (k, v) :: rest => if k = key then some v else mapPtr key rest

/-- In-place modification of the value stored under `key`. -/
def mapModify {σ : Type} (key : String) (f : σ → σ) : List (String × σ) → List (String × σ)
  | [] => []
  | (k, v) :: rest => if k = key then (k, f v) :: rest else (k, v) :: mapModify key f rest

/-- Source lines 295-303. -/
def bindEntryPtr (cats : List (String × BindCategory)) (categoryId bindId : String) :
    Option BindEntry :=
  match mapPtr categoryId cats with
  | some category => mapPtr bindId category.entries
  | none => none

/-- Source lines 305-310. -/
def bindEntry (cats : List (String × BindCategory)) (categoryId bindId : String) :
    Except StarError BindEntry :=
  match bindEntryPtr cats categoryId bindId with
  | some entry => .ok entry
  | none => .error .input

/-! ## Mapping index -/

/-- The `InputVariant` tagged union. -/
inductive InputVariant where
  | key (k : Key)
  | mouse (b : MouseButton)
  | controller (b : ControllerButton)
  deriving DecidableEq, Repr

/-- The fields of `Input::BindRef`; `priority` is a `uint8_t`. -/
structure BindRef where
  entry : EntryId
  priority : Nat
  mods : KeyMod
  deriving DecidableEq, Repr

/-- A `HashMap<K, V>` read through `ptr`: the value stored under a key, if any. -/
abbrev HashMap (κ σ : Type) := κ → Option σ

/-- The empty `HashMap`. -/
def HashMap.empty {κ σ : Type} : HashMap κ σ := fun _ => none

/-- Store `v` under `k`. -/
def HashMap.set {κ σ : Type} [DecidableEq κ] (m : HashMap κ σ) (k : κ) (v : σ) : HashMap κ σ :=
  fun k2 => if k2 = k then some v else m k2

/-- The index type of `m_bindMappings`. -/
abbrev BindMappings := HashMap InputVariant (List BindRef)

/-- Embeds `m_bindMappings[input].emplace_back(ref)`. -/
def BindMappings.emplaceBack (m : BindMappings) (input : InputVariant) (ref : BindRef) :
    BindMappings :=
  m.set input (((m input).getD []) ++ [ref])

/-- Source lines 233-249 and 449-454: the index key and `BindRef` that one
custom bind of `entry` contributes, if any. -/
def bindRefOf (entry : EntryId) : Bind → Option (InputVariant × BindRef)
  | Bind.key keyBind =>
    some (InputVariant.key keyBind.key,
      { entry := entry, priority := keyBind.priority, mods := keyBind.mods })
  | Bind.mouse mouseBind =>
    some (InputVariant.mouse mouseBind.button,
      { entry := entry, priority := mouseBind.priority, mods := mouseBind.mods })
  | Bind.controller controllerBind =>
    some (InputVariant.controller controllerBind.button,
      { entry := entry, priority := 0, mods := KeyMod.NoMod })
  | Bind.empty => none

/-- Source lines 448-455: the loop over the custom binds of one entry. -/
def insertBinds (entry : EntryId) (binds : List Bind) (m : BindMappings) : BindMappings :=
  binds.foldl (fun acc bind =>
    match bindRefOf entry bind with
    | some (input, ref) => acc.emplaceBack input ref
    | none => acc) m

/-- Source lines 446-456: the loop over the entries of one category. -/
def insertEntries (categoryId : String) (entries : List (String × BindEntry))
    (m : BindMappings) : BindMappings :=
  entries.foldl (fun acc pair => insertBinds (categoryId, pair.1) pair.2.customBinds acc) m

/-- Source lines 445-457: the loop over all categories. -/
def insertCategories (cats : List (String × BindCategory)) (m : BindMappings) : BindMappings :=
  cats.foldl (fun acc category => insertEntries category.1 category.2.entries acc) m

/-- Modelled from the spec: `List::sort` is defined outside the sources at
hand; the spec describes it as a stable sort.  With the comparator of source
lines 460-461 (`a.priority > b.priority`) this is a stable insertion sort by
priority, greatest first. -/
def sortByPriority (refs : List BindRef) : List BindRef :=
  refs.insertionSort (fun a b => a.priority ≥ b.priority)

/-- Source lines 443-462: the index built from the registry. -/
def buildIndex (cats : List (String × BindCategory)) : BindMappings :=
  fun input => (insertCategories cats HashMap.empty input).map sortByPriority

/-- The loop of source lines 284-291; `maxPriority` is a `uint8_t`. -/
def filterBindEntriesLoop (mods : KeyMod) :
    List BindRef → Nat → List EntryId → List EntryId
  | [], _, result => result
  | bind :: rest, maxPriority, result =>
    if bind.priority < maxPriority then
      result
    else if compareKeyModLenient mods bind.mods then
      filterBindEntriesLoop mods rest bind.priority (result ++ [bind.entry])
    else
      filterBindEntriesLoop mods rest maxPriority result

/-- Source lines 281-293. -/
def filterBindEntries (binds : List BindRef) (mods : KeyMod) : List EntryId :=
  filterBindEntriesLoop mods binds 0 []

/-! ## Tracked states -/

/-- Modelled from the spec: `InputState` is declared in `StarInput.hpp`, which
is not part of the sources at hand.  The spec gives it a press count, a
release count and a held flag; the width of the counters is not visible, so
they are natural numbers and an increment never wraps. -/
structure InputState where
  presses : Nat := 0
  releases : Nat := 0
  held : Bool := false
  deriving DecidableEq, Repr

/-- Modelled from the spec: pressing increments `presses` and sets `held`. -/
def InputState.press (s : InputState) : InputState :=
  { s with presses := s.presses + 1, held := true }

/-- Modelled from the spec: releasing increments `releases` and clears `held`. -/
def InputState.release (s : InputState) : InputState :=
  { s with releases := s.releases + 1, held := false }

/-- Modelled from the spec: the per-frame reset zeroes both edge counters. -/
def InputState.reset (s : InputState) : InputState :=
  { s with presses := 0, releases := 0 }

/-- Modelled from the spec: the state of a key adds the recorded modifiers. -/
structure KeyInputState extends InputState where
  mods : KeyMod := KeyMod.NoMod
  deriving DecidableEq, Repr

/-- Modelled from the spec: the state of a mouse button adds the positions of
its presses and releases. -/
structure MouseInputState extends InputState where
  pressPositions : List (Int × Int) := []
  releasePositions : List (Int × Int) := []
  deriving DecidableEq, Repr

/-- Embeds `press()` on a key state. -/
def KeyInputState.press (s : KeyInputState) : KeyInputState :=
  { s with toInputState := s.toInputState.press }

/-- Embeds `release()` on a key state. -/
def KeyInputState.release (s : KeyInputState) : KeyInputState :=
  { s with toInputState := s.toInputState.release }

/-- Embeds `reset()` on a key state. -/
def KeyInputState.reset (s : KeyInputState) : KeyInputState :=
  { s with toInputState := s.toInputState.reset }

/-- Embeds `press()` on a mouse state. -/
def MouseInputState.press (s : MouseInputState) : MouseInputState :=
  { s with toInputState := s.toInputState.press }

/-- Embeds `release()` on a mouse state. -/
def MouseInputState.release (s : MouseInputState) : MouseInputState :=
  { s with toInputState := s.toInputState.release }

/-- Embeds `reset()` on a mouse state. -/
def MouseInputState.reset (s : MouseInputState) : MouseInputState :=
  { s with toInputState := s.toInputState.reset }

/-- The `InputEvent` variant.  Key and mouse events carry the fields the
source reads; the controller button events are modelled from the spec. -/
inductive InputEvent where
  | keyDown (key : Key) (mods : KeyMod)
  | keyUp (key : Key)
  | mouseButtonDown (mouseButton : MouseButton) (mousePosition : Int × Int)
  | mouseButtonUp (mouseButton : MouseButton) (mousePosition : Int × Int)
  | mouseWheel (mouseWheel : Nat) (mousePosition : Int × Int)
  | mouseMove (mouseMove : Int × Int) (mousePosition : Int × Int)
  | controllerButtonDown (controller : Nat) (controllerButton : ControllerButton)
  | controllerButtonUp (controller : Nat) (controllerButton : ControllerButton)
  deriving DecidableEq, Repr

/-- The data members of `Input` together with the user override store
(`userBindings` is the value at the configuration key `modBindings`). -/
structure Input where
  bindCategories : List (String × BindCategory) := []
  bindMappings : BindMappings := HashMap.empty
  keyStates : HashMap Key KeyInputState := HashMap.empty
  mouseStates : HashMap MouseButton MouseInputState := HashMap.empty
  controllerStates : HashMap ControllerButton InputState := HashMap.empty
  bindStates : HashMap EntryId InputState := HashMap.empty
  inputEvents : List (InputEvent × Bool) := []
  pressedMods : KeyMod := KeyMod.NoMod
  textInputActive : Bool := false
  userBindings : Json := Json.null

/-- Source lines 361-365 applied through `eraseWhere`: a held state is reset
and kept, any other state is erased. -/
def eraseCond {κ σ : Type} (held : σ → Bool) (reset : σ → σ) (m : HashMap κ σ) : HashMap κ σ :=
  fun k =>
    match m k with
    | some st => if held st then some (reset st) else none
    | none => none

/-- Source lines 359-371. -/
def Input.reset (s : Input) : Input :=
  { s with
    inputEvents := []
    keyStates := eraseCond (fun st => st.held) KeyInputState.reset s.keyStates
    mouseStates := eraseCond (fun st => st.held) MouseInputState.reset s.mouseStates
    controllerStates := eraseCond (fun st => st.held) InputState.reset s.controllerStates
    bindStates := eraseCond (fun st => st.held) InputState.reset s.bindStates }

/-- Embeds `m_bindStates[bind].press()`: the state is created when untracked. -/
def pressBind (m : HashMap EntryId InputState) (bind : EntryId) : HashMap EntryId InputState :=
  m.set bind (((m bind).getD {}).press)

/-- Source lines 409-410 and 432-433: release the bind state if tracked. -/
def releaseBind (m : HashMap EntryId InputState) (bind : BindRef) : HashMap EntryId InputState :=
  match m bind.entry with
  | some state => m.set bind.entry state.release
  | none => m

/-- Source lines 377-439. -/
def Input.handleInput (s : Input) (input : InputEvent) (gameProcessed : Bool) : Input × Bool :=
  let s := { s with inputEvents := s.inputEvents ++ [(input, gameProcessed)] }
  match input with
  | InputEvent.keyDown key mods =>
    let keyToMod := KeysToMods.rightPtr key
    let s := match keyToMod with
      | some m => { s with pressedMods := s.pressedMods ||| m }
      | none => s
    if !gameProcessed && !s.textInputActive then
      let state := (s.keyStates key).getD {}
      let state := match keyToMod with
        | some m => { state with mods := state.mods ||| m }
        | none => state
      let s := { s with keyStates := s.keyStates.set key state.press }
      match s.bindMappings (InputVariant.key key) with
      | some binds =>
        ({ s with bindStates := (filterBindEntries binds mods).foldl pressBind s.bindStates },
          false)
      | none => (s, false)
    else (s, false)
  | InputEvent.keyUp key =>
    let keyToMod := KeysToMods.rightPtr key
    let s := match keyToMod with
      | some m => { s with pressedMods := s.pressedMods &&& keyModNot m }
      | none => s
    let s := match s.keyStates key with
      | some state =>
        let state := match keyToMod with
          | some m => { state with mods := state.mods &&& keyModNot m }
          | none => state
        { s with keyStates := s.keyStates.set key state.release }
      | none => s
    match s.bindMappings (InputVariant.key key) with
    | some binds => ({ s with bindStates := binds.foldl releaseBind s.bindStates }, false)
    | none => (s, false)
  | InputEvent.mouseButtonDown mouseButton mousePosition =>
    if !gameProcessed then
      let state := (s.mouseStates mouseButton).getD {}
      let state := { state with pressPositions := state.pressPositions ++ [mousePosition] }
      let s := { s with mouseStates := s.mouseStates.set mouseButton state.press }
      match s.bindMappings (InputVariant.mouse mouseButton) with
      | some binds =>
        ({ s with bindStates :=
            (filterBindEntries binds s.pressedMods).foldl pressBind s.bindStates }, false)
      | none => (s, false)
    else (s, false)
  | InputEvent.mouseButtonUp mouseButton mousePosition =>
    let s := match s.mouseStates mouseButton with
      | some state =>
        let state := { state with releasePositions := state.releasePositions ++ [mousePosition] }
        { s with mouseStates := s.mouseStates.set mouseButton state.release }
      | none => s
    match s.bindMappings (InputVariant.mouse mouseButton) with
    | some binds => ({ s with bindStates := binds.foldl releaseBind s.bindStates }, false)
    | none => (s, false)
  | _ => (s, false)

/-- Source lines 441-463. -/
def Input.rebuildMappings (s : Input) : Input :=
  let r := s.reset
  { r with bindMappings := buildIndex s.bindCategories }

/-- Source lines 490-492. -/
def Input.setTextInputActive (s : Input) (active : Bool) : Input :=
  { s with textInputActive := active }

/-- Encode a list of binds, as the loop of source lines 213-214 does. -/
def bindsToJson (T : NameTables) : List Bind → Except StarError (List Json)
  | [] => .ok []
  | bind :: rest => do
    let j ← bindToJson T bind
    let js ← bindsToJson T rest
    pure (j :: js)

/-- Source lines 216-228: the write of the encoded custom binds into the
override store, creating the intermediate objects as needed. -/
def storeBinds (userBindings : Json) (categoryId bindId : String) (array : List Json) : Json :=
  let root : List (String × Json) :=
    match userBindings with
    | Json.obj kvs => kvs
    | _ => []
  match Json.lookup categoryId root with
  | some (Json.obj catKvs) =>
    Json.obj (Json.assocSet categoryId (Json.obj (Json.assocSet bindId (Json.arr array) catKvs)) root)
  | _ =>
    Json.obj (Json.assocSet categoryId (Json.obj [(bindId, Json.arr array)]) root)

/-- Source lines 209-231, for the entry stored under `(categoryId, bindId)`
whose custom binds are `customBinds`. -/
def Input.updated (T : NameTables) (s : Input) (categoryId bindId : String)
    (customBinds : List Bind) : Except StarError Input := do
  let array ← bindsToJson T customBinds
  let s := { s with userBindings := storeBinds s.userBindings categoryId bindId array }
  pure s.rebuildMappings

/-- Replace the custom binds of the entry stored under `(categoryId, bindId)`. -/
def setCustomBinds (cats : List (String × BindCategory)) (categoryId bindId : String)
    (binds : List Bind) : List (String × BindCategory) :=
  mapModify categoryId (fun category =>
    { category with
      entries := (mapModify bindId (fun e => { e with customBinds := binds }) category.entries) })
    cats

/-- Decode a list of records, as the loop of source lines 586-587 does. -/
def bindsFromJson (T : NameTables) : List Json → Except StarError (List Bind)
  | [] => .ok []
  | jBind :: rest => do
    let bind ← bindFromJson T jBind
    let binds ← bindsFromJson T rest
    pure (bind :: binds)

/-- Source lines 582-591. -/
def Input.setBinds (T : NameTables) (s : Input) (categoryId bindId : String) (jBinds : Json) :
    Except StarError Input := do
  let _entry ← bindEntry s.bindCategories categoryId bindId
  let records ← jBinds.toArray
  let binds ← bindsFromJson T records
  let s := { s with bindCategories := setCustomBinds s.bindCategories categoryId bindId binds }
  s.updated T categoryId bindId binds

/-- Source lines 559-564. -/
def Input.resetBinds (T : NameTables) (s : Input) (categoryId bindId : String) :
    Except StarError Input := do
  let entry ← bindEntry s.bindCategories categoryId bindId
  let s := { s with
    bindCategories := setCustomBinds s.bindCategories categoryId bindId entry.defaultBinds }
  s.updated T categoryId bindId entry.defaultBinds

/-- Source lines 517-523. -/
def Input.keyDown (s : Input) (key : Key) (keyMod : Option KeyMod) : Option Nat :=
  match s.keyStates key with
  | some state =>
    if decide (state.presses ≠ 0) &&
        (match keyMod with
          | none => true
          | some m => compareKeyMod m state.mods) then
      some state.presses
    else none
  | none => none

/-- Candidate `c` matches `m` leniently and no matching candidate of `binds`
has a greater priority. -/
def topTier (m : KeyMod) (binds : List BindRef) (c : BindRef) : Bool :=
  compareKeyModLenient m c.mods &&
    decide (∀ d ∈ binds, compareKeyModLenient m d.mods = true → d.priority ≤ c.priority)

/-- The bits of `mod` are exactly the bits named by the names of `seen`. -/
def NamedBits (mod : KeyMod) (seen : Finset String) : Prop :=
  ∀ i, mod.testBit i = true ↔
    ∃ n ∈ seen, ∃ k, KeyModNames.leftPtr n = some k ∧ k.testBit i = true

/-- The class invariant of `BiMap`: no left value and no right value occurs
in two pairs. -/
def BiMap.Valid {L R : Type} (m : BiMap L R) : Prop :=
  (m.map Prod.fst).Nodup ∧ (m.map Prod.snd).Nodup

/-- All three name tables satisfy the `BiMap` invariant. -/
def NameTables.Valid (T : NameTables) : Prop :=
  T.keyNames.Valid ∧ T.mouseButtonNames.Valid ∧ T.controllerButtonNames.Valid

/-- The `mods` list of a bind record; an absent field is the empty list. -/
def recordMods (kvs : List (String × Json)) : List Json :=
  match Json.lookup "mods" kvs with
  | some (Json.arr xs) => xs
  | _ => []

/-- The names of the modifiers set in `mods`, each once, in the canonical
order of the table. -/
def canonicalMods (mods : KeyMod) : List Json :=
  (KeyModNames.filter (fun p => decide (mods &&& p.1 ≠ 0))).map (fun p => Json.str p.2)

/-- A small instance of the name tables, used to evaluate the codec. -/
def sampleTables : NameTables :=
  { keyNames := [(Key.other 0, "K"), (Key.LShift, "LShift"), (Key.LCtrl, "LCtrl")]
    mouseButtonNames := [(⟨0⟩, "MouseLeft"), (⟨1⟩, "MouseRight")]
    controllerButtonNames := [(⟨0⟩, "A"), (⟨1⟩, "B")] }

/-- Encoding the decoding of the record `kvs` (type `ty`, value `value`,
modifier names `names`) succeeds and gives a record `out` with the same type
and value, whose `mods` list holds each set modifier once in canonical order,
decodes to the same modifier set as `names`, and is absent exactly when that
set is empty. -/
def RoundTrip (T : NameTables) (kvs : List (String × Json)) (ty value : String)
    (names : List String) : Prop :=
  ∃ b out mods, bindFromJson T (Json.obj kvs) = .ok b ∧
    bindToJson T b = .ok (Json.obj out) ∧
    Json.lookup "type" out = some (Json.str ty) ∧
    Json.lookup "value" out = some (Json.str value) ∧
    (∃ p, keyModsFromJson (Json.arr (names.map Json.str)) 0 = .ok (mods, p)) ∧
    (∃ p, keyModsFromJson (Json.arr (recordMods out)) 0 = .ok (mods, p)) ∧
    recordMods out = canonicalMods mods ∧
    (Json.lookup "mods" out = none ↔ mods = KeyMod.NoMod)

/-- A key record of the sample tables whose modifier list has a repeat and is
not in canonical order. -/
def sampleKeyRecord : List (String × Json) :=
  [("type", Json.str "key"), ("value", Json.str "K"),
    ("mods", Json.arr [Json.str "LCtrl", Json.str "LShift", Json.str "LCtrl"])]

/-- A controller record of the sample tables that carries a modifier list. -/
def sampleControllerRecord : List (String × Json) :=
  [("type", Json.str "controller"), ("value", Json.str "A"),
    ("mods", Json.arr [Json.str "LShift"])]

/-- The priority-tier selection over the index list of `input` (no list in
the index selects nothing), as source lines 390-391 and 419-420 compute it. -/
def Input.selected (s : Input) (input : InputVariant) (mods : KeyMod) : List EntryId :=
  filterBindEntries ((s.bindMappings input).getD []) mods

/-- The class invariant of the two `StringMap`s of the registry: category ids
are pairwise distinct, and so are the entry ids inside each category. -/
def RegistryValid (cats : List (String × BindCategory)) : Prop :=
  (cats.map Prod.fst).Nodup ∧ ∀ p ∈ cats, (p.2.entries.map Prod.fst).Nodup

/-- Every enumerator of the bind has a name in its table, so that
`bindToJson` does not raise. -/
def BindKnown (T : NameTables) : Bind → Prop
  | Bind.empty => True
  | Bind.key b => (T.keyNames.rightPtr b.key).isSome = true
  | Bind.mouse b => (T.mouseButtonNames.rightPtr b.button).isSome = true
  | Bind.controller b => (T.controllerButtonNames.rightPtr b.button).isSome = true

/-- A registry with one category `"cat"` holding one entry `"jump"`. -/
def sampleRegistry : List (String × BindCategory) :=
  [("cat",
    { id := "cat", name := "cat", config := Json.null,
      entries :=
        [("jump",
          { category := "cat", id := "jump", name := "jump",
            defaultBinds := [], customBinds := [] })] })]

/-! ## Loading the registry -/

/-- Embeds `Json::toObject`: fails unless the value is an object. -/
def Json.toObject : Json → Except StarError (List (String × Json))
  | Json.obj kvs => .ok kvs
  | _ => .error .json

/-- Embeds `Json::getString(key, default)`. -/
def Json.getStringOr (j : Json) (key : String) (dflt : String) : Except StarError String := do
  let p ← j.ptr key
  match p with
  | some v => v.toString
  | none => pure dflt

/-- Embeds `Json::getObject(key, default)`. -/
def Json.getObject (j : Json) (key : String) (dflt : List (String × Json)) :
    Except StarError (List (String × Json)) := do
  let p ← j.ptr key
  match p with
  | some v => v.toObject
  | none => pure dflt

/-- Modelled from the spec: `Json::queryArray(path, default)` of the JSON
library, for the two-level path `categoryId.bindId` of source line 268: the
default when a level is absent, the array stored there otherwise. -/
def Json.queryArray (j : Json) (categoryId bindId : String) (dflt : List Json) :
    Except StarError (List Json) :=
  match j with
  | Json.obj kvs =>
    match Json.lookup categoryId kvs with
    | none => .ok dflt
    | some (Json.obj entryKvs) =>
      match Json.lookup bindId entryKvs with
      | none => .ok dflt
      | some v => v.toArray
    | some _ => .error .json
  | _ => .error .json

/-- Source lines 201-206 and 268-273: decode the records one by one and
append the binds to `binds`; a `JsonException` raised by a record is caught
(the record is logged and skipped), any other exception propagates. -/
def loadBinds (T : NameTables) : List Json → List Bind → Except StarError (List Bind)
  | [], binds => .ok binds
  | jBind :: rest, binds =>
    match bindFromJson T jBind with
    | .ok bind => loadBinds T rest (binds ++ [bind])
    | .error StarError.json => loadBinds T rest binds
    | .error e => .error e

/-- Source lines 196-207, the constructor of `BindEntry`. -/
def BindEntry.construct (T : NameTables) (entryId : String) (config : Json)
    (parentCategory : String) : Except StarError BindEntry := do
  let name ← config.getStringOr "name" entryId
  let jDefaults ← config.getArray "default" []
  let defaultBinds ← loadBinds T jDefaults []
  pure { category := parentCategory, id := entryId, name := name,
         defaultBinds := defaultBinds, customBinds := [] }

/-- Source lines 267-268: the user-override records of one entry, none when
the override store is not an object. -/
def userRecords (userBindings : Json) (categoryId bindId : String) :
    Except StarError (List Json) :=
  if userBindings.isObject then userBindings.queryArray categoryId bindId []
  else .ok []

/-- Source lines 260-277: the body of the loop over the `binds` object of a
category, for one pair.  `try_emplace` constructs the entry only when its id
is not yet mapped. -/
def loadEntry (T : NameTables) (categoryId : String) (userBindings : Json)
    (bindId : String) (bindConfig : Json) (entries : List (String × BindEntry)) :
    Except StarError (List (String × BindEntry)) :=
  if !bindConfig.isObject then
    .ok entries
  else do
    let (entries, entry) ←
      match mapPtr bindId entries with
      | some existing => (pure (entries, existing) : Except StarError _)
      | none => do
        let created ← BindEntry.construct T bindId bindConfig categoryId
        pure (entries ++ [(bindId, created)], created)
    let jUser ← userRecords userBindings categoryId bindId
    let customBinds ← loadBinds T jUser entry.customBinds
    let customBinds := if customBinds.isEmpty then entry.defaultBinds else customBinds
    pure (mapModify bindId (fun e => { e with customBinds := customBinds }) entries)

/-- Source lines 259-278: the loop over the `binds` object of a category. -/
def loadEntries (T : NameTables) (categoryId : String) (userBindings : Json) :
    List (String × Json) → List (String × BindEntry) →
      Except StarError (List (String × BindEntry))
  | [], entries => .ok entries
  | (bindId, bindConfig) :: rest, entries => do
    let entries ← loadEntry T categoryId userBindings bindId bindConfig entries
    loadEntries T categoryId userBindings rest entries

/-- Source lines 251-279, the constructor of `BindCategory`; `userBindings`
is the value of the override store at `modBindings`. -/
def BindCategory.construct (T : NameTables) (categoryId : String) (categoryConfig : Json)
    (userBindings : Json) : Except StarError BindCategory := do
  let name ← categoryConfig.getStringOr "name" categoryId
  let binds ← categoryConfig.getObject "binds" []
  let entries ← loadEntries T categoryId userBindings binds []
  pure { id := categoryId, name := name, config := categoryConfig, entries := entries }

/-- Source lines 471-478: the loop over the categories of one document. -/
def loadCategories (T : NameTables) (userBindings : Json) :
    List (String × Json) → List (String × BindCategory) →
      Except StarError (List (String × BindCategory))
  | [], cats => .ok cats
  | (categoryId, categoryConfig) :: rest, cats =>
    if !categoryConfig.isObject then
      loadCategories T userBindings rest cats
    else
      match mapPtr categoryId cats with
      | some _ => loadCategories T userBindings rest cats
      | none => do
        let category ← BindCategory.construct T categoryId categoryConfig userBindings
        loadCategories T userBindings rest (cats ++ [(categoryId, category)])

/-- Source lines 470-479: the loop over the `.binds` documents of the assets. -/
def loadDocuments (T : NameTables) (userBindings : Json) :
    List Json → List (String × BindCategory) → Except StarError (List (String × BindCategory))
  | [], cats => .ok cats
  | document :: rest, cats => do
    let pairs ← document.toObject
    let cats ← loadCategories T userBindings pairs cats
    loadDocuments T userBindings rest cats

/-- Source lines 465-488; `documents` are the `.binds` documents that the
asset collaborator returns. -/
def Input.reload (T : NameTables) (s : Input) (documents : List Json) :
    Except StarError Input := do
  let cats ← loadDocuments T s.userBindings documents []
  pure (Input.rebuildMappings { s with bindCategories := cats })

/-! ## State left behind by the rebinding calls -/

/-- Source lines 582-591 followed statement by statement: the state in which
`setBinds` leaves the object, and the exception it raised if any. -/
def Input.setBindsEffect (T : NameTables) (s : Input) (categoryId bindId : String)
    (jBinds : Json) : Input × Option StarError :=
  match bindEntry s.bindCategories categoryId bindId with
  | .error e => (s, some e)
  | .ok _ =>
    match jBinds.toArray with
    | .error e => (s, some e)
    | .ok records =>
      match bindsFromJson T records with
      | .error e => (s, some e)
      | .ok binds =>
        let s1 := { s with
          bindCategories := setCustomBinds s.bindCategories categoryId bindId binds }
        match bindsToJson T binds with
        | .error e => (s1, some e)
        | .ok array =>
          (Input.rebuildMappings
            { s1 with userBindings := storeBinds s1.userBindings categoryId bindId array },
            none)

/-- Source lines 559-564 followed statement by statement: the state in which
`resetBinds` leaves the object, and the exception it raised if any. -/
def Input.resetBindsEffect (T : NameTables) (s : Input) (categoryId bindId : String) :
    Input × Option StarError :=
  match bindEntry s.bindCategories categoryId bindId with
  | .error e => (s, some e)
  | .ok entry =>
    let s1 := { s with
      bindCategories :=
        setCustomBinds s.bindCategories categoryId bindId entry.defaultBinds }
    match bindsToJson T entry.defaultBinds with
    | .error e => (s1, some e)
    | .ok array =>
      (Input.rebuildMappings
        { s1 with userBindings := storeBinds s1.userBindings categoryId bindId array },
        none)

/-- Every entry of the registry has custom binds unless it has no default
binds either. -/
def RegistryInv (cats : List (String × BindCategory)) : Prop :=
  ∀ c ∈ cats, ∀ p ∈ c.2.entries, p.2.customBinds = [] → p.2.defaultBinds = []

/-- A registry whose entry `cat.jump` has one default bind, also installed as
its custom bind. -/
def sampleRegistryWithDefault : List (String × BindCategory) :=
  [("cat",
    { id := "cat", name := "cat", config := Json.null,
      entries :=
        [("jump",
          { category := "cat", id := "jump", name := "jump",
            defaultBinds := [Bind.key { key := Key.other 0, mods := 0, priority := 0 }],
            customBinds := [Bind.key { key := Key.other 0, mods := 0, priority := 0 }] })] })]

/-- A `.binds` document with one category `cat` and one entry `jump` whose
only default bind is the sample key record. -/
def sampleDocument : Json :=
  Json.obj [("cat", Json.obj [("binds", Json.obj [("jump",
    Json.obj [("default", Json.arr [Json.obj sampleKeyRecord])])])])]

/-- The registry that loading `sampleDocument` with no user override gives. -/
def sampleLoaded : List (String × BindCategory) :=
  [("cat",
    { id := "cat", name := "cat",
      config := Json.obj [("binds", Json.obj [("jump",
        Json.obj [("default", Json.arr [Json.obj sampleKeyRecord])])])],
      entries :=
        [("jump",
          { category := "cat", id := "jump", name := "jump",
            defaultBinds := [Bind.key { key := Key.other 0, mods := 65, priority := 2 }],
            customBinds := [Bind.key { key := Key.other 0, mods := 65, priority := 2 }] })] })]

/-- The `BindRef` that a custom bind of `entry` contributes under `input`. -/
def bindRefUnder (input : InputVariant) (entry : EntryId) (bind : Bind) : Option BindRef :=
  match bindRefOf entry bind with
  | some (v, ref) => if v = input then some ref else none
  | none => none

/-- The insertion sequence of `input`: one `BindRef` per custom bind on
`input`, in the iteration order of the registry (categories, then entries,
then custom binds). -/
def insertionSequence (cats : List (String × BindCategory)) (input : InputVariant) :
    List BindRef :=
  cats.flatMap (fun c =>
    c.2.entries.flatMap (fun p => p.2.customBinds.filterMap (bindRefUnder input (c.1, p.1))))

/-! ## Reachable states -/

/-- No key, button or bind is tracked, as right after construction. -/
def Input.Untracked (s : Input) : Prop :=
  (∀ k, s.keyStates k = none) ∧ (∀ b, s.mouseStates b = none) ∧
    (∀ b, s.controllerStates b = none) ∧ (∀ e, s.bindStates e = none)

/-- The states reachable from an untracked state through `handleInput`,
`reset`, `rebuildMappings` and `setTextInputActive`. -/
inductive Input.Reachable : Input → Prop where
  | initial (s : Input) : s.Untracked → Input.Reachable s
  | handleInput (s : Input) (input : InputEvent) (gameProcessed : Bool) :
      Input.Reachable s → Input.Reachable (s.handleInput input gameProcessed).1
  | reset (s : Input) : Input.Reachable s → Input.Reachable s.reset
  | rebuildMappings (s : Input) : Input.Reachable s → Input.Reachable s.rebuildMappings
  | setTextInputActive (s : Input) (active : Bool) :
      Input.Reachable s → Input.Reachable (s.setTextInputActive active)

/-- The states reachable from an untracked state whose mapping index is
`index` through the operations that leave the index alone: `handleInput`,
`reset` and `setTextInputActive`. -/
inductive Input.ReachableWith (index : BindMappings) : Input → Prop where
  | initial (s : Input) : s.Untracked → s.bindMappings = index → Input.ReachableWith index s
  | handleInput (s : Input) (input : InputEvent) (gameProcessed : Bool) :
      Input.ReachableWith index s → Input.ReachableWith index (s.handleInput input gameProcessed).1
  | reset (s : Input) : Input.ReachableWith index s → Input.ReachableWith index s.reset
  | setTextInputActive (s : Input) (active : Bool) :
      Input.ReachableWith index s → Input.ReachableWith index (s.setTextInputActive active)

/-- A tracked state is not idle: it is held or has a pending edge. -/
def InputState.Active (st : InputState) : Prop :=
  st.held = true ∨ st.presses ≠ 0 ∨ st.releases ≠ 0

/-- Every tracked state of the four maps is active. -/
def Input.AllActive (s : Input) : Prop :=
  (∀ k st, s.keyStates k = some st → st.toInputState.Active) ∧
    (∀ b st, s.mouseStates b = some st → st.toInputState.Active) ∧
    (∀ b st, s.controllerStates b = some st → st.Active) ∧
    (∀ e st, s.bindStates e = some st → st.Active)

/-- The raw state of the key or mouse button `input` is tracked and held; a
controller button never counts. -/
def Input.RawHeld (s : Input) : InputVariant → Prop
  | InputVariant.key k => ∃ st, s.keyStates k = some st ∧ st.held = true
  | InputVariant.mouse b => ∃ st, s.mouseStates b = some st ∧ st.held = true
  | InputVariant.controller _ => False

/-- Every held bind has a `BindRef` in the index under a held key or mouse
button. -/
def Input.HeldBindsBacked (s : Input) : Prop :=
  ∀ e st, s.bindStates e = some st → st.held = true →
    ∃ v binds ref, s.bindMappings v = some binds ∧ ref ∈ binds ∧ ref.entry = e ∧ s.RawHeld v

/-- The modifiers recorded in every key state are among the key's own
modifier bit under `KeysToMods` (none for a key that is not a modifier). -/
def Input.OwnModsOnly (s : Input) : Prop :=
  ∀ k st, s.keyStates k = some st →
    ∀ i, st.mods.testBit i = true → ((KeysToMods.rightPtr k).getD 0).testBit i = true

/-- The index rebuilt from the loaded sample registry: key `other 0` carries
the bind of `cat.jump`. -/
def sampleIndex : BindMappings := buildIndex sampleLoaded

/-- The state after pressing key `other 0` with left shift and left control
held, starting untracked with the sample index. -/
def samplePressed : Input :=
  (({ bindMappings := sampleIndex } : Input).handleInput
    (InputEvent.keyDown (Key.other 0) 65) false).1

/-! ## Bit-level lemmas -/

theorem testBit_KeyModOptional (i : Nat) :
    KeyModOptional.testBit i = decide (optionalBit i) := by
  have h : KeyModOptional = 2 ^ 12 ||| 2 ^ 13 ||| 2 ^ 15 := by decide
  rw [h]
  simp only [Nat.testBit_or, Nat.testBit_two_pow, optionalBit]
  by_cases h1 : i = 12 <;> by_cases h2 : i = 13 <;> by_cases h3 : i = 15 <;>
    simp [h1, h2, h3, eq_comm]

theorem testBit_keyModNot (a : KeyMod) (i : Nat) :
    (keyModNot a).testBit i = (decide (i < 16) && !a.testBit i) := by
  have h : (0xFFFF : Nat) = 2 ^ 16 - 1 := by decide
  have h2 : (0x10000 : Nat) = 2 ^ 16 := by decide
  unfold keyModNot
  rw [h, h2, Nat.testBit_xor, Nat.testBit_two_pow_sub_one, Nat.testBit_mod_two_pow]
  by_cases hi : i < 16 <;> simp [hi]

theorem compareKeyModLenient_iff (input test : KeyMod) :
    compareKeyModLenient input test = true ↔
      ∀ i, ¬ optionalBit i → test.testBit i = true → input.testBit i = true := by
  unfold compareKeyModLenient
  simp only [decide_eq_true_eq]
  constructor
  · intro h i hi ht
    have := congrArg (fun n => Nat.testBit n i) h
    simp only [Nat.testBit_and, Nat.testBit_or, testBit_KeyModOptional, hi, decide_False,
      Bool.or_false, ht, Bool.true_and] at this
    exact this
  · intro h
    apply Nat.eq_of_testBit_eq
    intro i
    simp only [Nat.testBit_and, Nat.testBit_or, testBit_KeyModOptional]
    by_cases hi : optionalBit i
    · simp [hi]
    · cases ht : test.testBit i
      · simp [hi]
      · simp [hi, h i hi ht]

theorem compareKeyMod_iff (input test : KeyMod) :
    compareKeyMod input test = true ↔
      ∀ i, (optionalBit i → test.testBit i = true → input.testBit i = true) ∧
           (¬ optionalBit i → input.testBit i = test.testBit i) := by
  unfold compareKeyMod
  simp only [decide_eq_true_eq]
  constructor
  · intro h i
    have := congrArg (fun n => Nat.testBit n i) h
    simp only [Nat.testBit_and, Nat.testBit_or, testBit_KeyModOptional, testBit_keyModNot] at this
    constructor
    · intro hi ht
      simpa [hi, ht] using this
    · intro hi
      simpa [hi] using this
  · intro h
    apply Nat.eq_of_testBit_eq
    intro i
    simp only [Nat.testBit_and, Nat.testBit_or, testBit_KeyModOptional, testBit_keyModNot]
    by_cases hi : optionalBit i
    · have h16 : i < 16 := by rcases hi with h | h | h <;> omega
      cases ht : test.testBit i
      · simp [hi, h16]
      · simp [hi, (h i).1 hi ht]
    · simp [hi, (h i).2 hi]

/-! ## Priority-tier selection -/

theorem filterBindEntriesLoop_tier (m : KeyMod) :
    ∀ (l : List BindRef) (p : Nat) (acc : List EntryId),
      l.Sorted (fun a b => a.priority ≥ b.priority) →
      (∀ x ∈ l, x.priority ≤ p) →
      filterBindEntriesLoop m l p acc =
        acc ++ (l.filter (fun c => compareKeyModLenient m c.mods && decide (c.priority = p))).map
          BindRef.entry := by
  intro l
  induction l with
  | nil => intro p acc _ _; simp [filterBindEntriesLoop]
  | cons b rest ih =>
    intro p acc hs hle
    have hs2 := List.sorted_cons.mp hs
    have hb : b.priority ≤ p := hle b (List.mem_cons_self _ _)
    have hrest : ∀ x ∈ rest, x.priority ≤ p := fun x hx => hle x (List.mem_cons_of_mem _ hx)
    unfold filterBindEntriesLoop
    by_cases hlt : b.priority < p
    · have hnone : (b :: rest).filter
          (fun c => compareKeyModLenient m c.mods && decide (c.priority = p)) = [] := by
        rw [List.filter_eq_nil_iff]
        intro x hx
        have hxb : x.priority ≤ b.priority := by
          rcases List.mem_cons.mp hx with h | h
          · rw [h]
          · exact hs2.1 x h
        have : x.priority ≠ p := by omega
        simp [this]
      simp [hlt, hnone]
    · have hbp : b.priority = p := by omega
      rw [if_neg hlt]
      by_cases hm : compareKeyModLenient m b.mods = true
      · rw [if_pos hm, hbp, ih p (acc ++ [b.entry]) hs2.2 hrest]
        simp [List.filter_cons, hm, hbp]
      · rw [if_neg hm, ih p acc hs2.2 hrest]
        simp [List.filter_cons, hm]

theorem filterBindEntries_eq_topTier (m : KeyMod) :
    ∀ (l : List BindRef), l.Sorted (fun a b => a.priority ≥ b.priority) →
      filterBindEntries l m = (l.filter (topTier m l)).map BindRef.entry := by
  intro l
  unfold filterBindEntries
  induction l with
  | nil => intro _; simp [filterBindEntriesLoop]
  | cons b rest ih =>
    intro hs
    have hs2 := List.sorted_cons.mp hs
    unfold filterBindEntriesLoop
    rw [if_neg (Nat.not_lt_zero _)]
    by_cases hm : compareKeyModLenient m b.mods = true
    · rw [if_pos hm, filterBindEntriesLoop_tier m rest b.priority ([] ++ [b.entry]) hs2.2
        (fun x hx => hs2.1 x hx)]
      have hb : topTier m (b :: rest) b = true := by
        unfold topTier
        simp only [hm, Bool.true_and, decide_eq_true_eq]
        intro d hd _
        rcases List.mem_cons.mp hd with h | h
        · rw [h]
        · exact hs2.1 d h
      have hcongr : rest.filter (topTier m (b :: rest)) =
          rest.filter (fun c => compareKeyModLenient m c.mods && decide (c.priority = b.priority)) := by
        apply List.filter_congr
        intro c hc
        unfold topTier
        cases hcm : compareKeyModLenient m c.mods
        · simp
        · simp only [Bool.true_and]
          have hcb : c.priority ≤ b.priority := hs2.1 c hc
          by_cases heq : c.priority = b.priority
          · simp only [heq, decide_True, decide_eq_true_eq]
            intro d hd _
            rcases List.mem_cons.mp hd with h | h
            · rw [h]
            · exact hs2.1 d h
          · simp only [heq, decide_False, decide_eq_false_iff_not]
            intro hall
            have := hall b (List.mem_cons_self _ _) hm
            omega
      simp [List.filter_cons, hb, hcongr]
    · rw [if_neg hm, ih hs2.2]
      have hb : topTier m (b :: rest) b = false := by
        unfold topTier
        simp [hm]
      have hcongr : rest.filter (topTier m (b :: rest)) = rest.filter (topTier m rest) := by
        apply List.filter_congr
        intro c _
        unfold topTier
        cases hcm : compareKeyModLenient m c.mods
        · simp
        · simp [hm]
      simp [List.filter_cons, hb, hcongr]

/-! ## Selection and matcher theorems -/

/-- C1: on a candidate list sorted by priority descending, `filterBindEntries`
returns, in list order, exactly the entries of the candidates that match the
modifier set leniently and whose priority is the greatest among all matching
candidates; the result is empty when none matches; with A (priority 1, no
modifiers) and B (priority 2, LCtrl) the result is `[B]` for LCtrl and `[A]`
for the empty set. -/
theorem filterBindEntries_spec (binds : List BindRef) (m : KeyMod)
    (hsorted : binds.Sorted (fun a b => a.priority ≥ b.priority)) :
    filterBindEntries binds m =
        (binds.filter (fun c => compareKeyModLenient m c.mods &&
          decide (∀ d ∈ binds, compareKeyModLenient m d.mods = true →
            d.priority ≤ c.priority))).map BindRef.entry ∧
      ((∀ c ∈ binds, compareKeyModLenient m c.mods = false) → filterBindEntries binds m = []) ∧
      (∀ a b : EntryId,
        filterBindEntries [⟨b, 2, KeyMod.LCtrl⟩, ⟨a, 1, KeyMod.NoMod⟩] KeyMod.LCtrl = [b] ∧
        filterBindEntries [⟨b, 2, KeyMod.LCtrl⟩, ⟨a, 1, KeyMod.NoMod⟩] KeyMod.NoMod = [a]) := by
  have h := filterBindEntries_eq_topTier m binds hsorted
  refine ⟨h, ?_, ?_⟩
  · intro hnone
    rw [h]
    have : binds.filter (topTier m binds) = [] := by
      rw [List.filter_eq_nil_iff]
      intro c hc
      simp [topTier, hnone c hc]
    simp [this]
  · intro a b
    have h1 : compareKeyModLenient KeyMod.LCtrl KeyMod.LCtrl = true := by decide
    have h2 : compareKeyModLenient KeyMod.LCtrl KeyMod.NoMod = true := by decide
    have h3 : compareKeyModLenient KeyMod.NoMod KeyMod.LCtrl = false := by decide
    have h4 : compareKeyModLenient KeyMod.NoMod KeyMod.NoMod = true := by decide
    constructor <;> simp [filterBindEntries, filterBindEntriesLoop, h1, h2, h3, h4]

/-- Witness of C1 on the list `[B, A]` of the spec with LCtrl held. -/
theorem filterBindEntries_spec_witness :
    List.Sorted (fun a b : BindRef => a.priority ≥ b.priority)
        [⟨("c", "B"), 2, KeyMod.LCtrl⟩, ⟨("c", "A"), 1, KeyMod.NoMod⟩] ∧
      filterBindEntries
          [⟨("c", "B"), 2, KeyMod.LCtrl⟩, ⟨("c", "A"), 1, KeyMod.NoMod⟩] KeyMod.LCtrl =
        ([⟨("c", "B"), 2, KeyMod.LCtrl⟩, ⟨("c", "A"), 1, KeyMod.NoMod⟩].filter
          (fun c : BindRef => compareKeyModLenient KeyMod.LCtrl c.mods &&
            decide (∀ d ∈ ([⟨("c", "B"), 2, KeyMod.LCtrl⟩, ⟨("c", "A"), 1, KeyMod.NoMod⟩] :
                List BindRef),
              compareKeyModLenient KeyMod.LCtrl d.mods = true → d.priority ≤ c.priority))).map
          BindRef.entry :=
  ⟨by decide, (filterBindEntries_spec
    [⟨("c", "B"), 2, KeyMod.LCtrl⟩, ⟨("c", "A"), 1, KeyMod.NoMod⟩] KeyMod.LCtrl
    (by decide)).1⟩

/-- C2: `compareKeyModLenient input test` holds exactly when every strict bit
(any bit other than Num, Caps, Scroll) set in `test` is set in `input`; the
optional bits of either operand never change the result; `{LCtrl}` is matched
by `{LCtrl, LAlt}` and `{LCtrl, LAlt}` is not matched by `{LCtrl}`. -/
theorem compareKeyModLenient_spec (input test : KeyMod) :
    (compareKeyModLenient input test = true ↔
      ∀ i, ¬ optionalBit i → test.testBit i = true → input.testBit i = true) ∧
    (∀ a b : KeyMod,
      compareKeyModLenient (input ^^^ (a &&& KeyModOptional)) (test ^^^ (b &&& KeyModOptional)) =
        compareKeyModLenient input test) ∧
    compareKeyModLenient (KeyMod.LCtrl ||| KeyMod.LAlt) KeyMod.LCtrl = true ∧
    compareKeyModLenient KeyMod.LCtrl (KeyMod.LCtrl ||| KeyMod.LAlt) = false := by
  refine ⟨compareKeyModLenient_iff input test, ?_, by decide, by decide⟩
  intro a b
  rw [Bool.eq_iff_iff, compareKeyModLenient_iff, compareKeyModLenient_iff]
  have hx : ∀ (x c : KeyMod) (i : Nat), ¬ optionalBit i →
      (x ^^^ (c &&& KeyModOptional)).testBit i = x.testBit i := by
    intro x c i hi
    simp [Nat.testBit_xor, Nat.testBit_and, testBit_KeyModOptional, hi]
  constructor
  · intro h i hi ht
    have := h i hi (by rw [hx test b i hi]; exact ht)
    rwa [hx input a i hi] at this
  · intro h i hi ht
    rw [hx input a i hi]
    exact h i hi (by rwa [hx test b i hi] at ht)

/-- C3 as stated fails: `{LShift}` and `{LShift, Caps}` are equal once the
optional bits are forced on in both, yet `compareKeyMod` rejects the pair,
because an optional bit set in `test` is required of `input`. -/
theorem compareKeyMod_optional_in_test_counterexample :
    (KeyMod.LShift ||| KeyModOptional = (KeyMod.LShift ||| KeyMod.Caps) ||| KeyModOptional) ∧
      compareKeyMod KeyMod.LShift (KeyMod.LShift ||| KeyMod.Caps) = false := by
  decide

/-- C3 (amended): `compareKeyMod input test` holds exactly when `input` and
`test` agree on every strict bit and every optional bit (Num, Caps, Scroll)
set in `test` is also set in `input`; optional bits set only in `input` are
ignored.  With `test = {LShift}` the inputs `{LShift, Caps}` and `{LShift}`
match and `{}` does not. -/
theorem compareKeyMod_spec (input test : KeyMod) :
    (compareKeyMod input test = true ↔
      (∀ i, ¬ optionalBit i → input.testBit i = test.testBit i) ∧
      (∀ i, optionalBit i → test.testBit i = true → input.testBit i = true)) ∧
    (∀ a : KeyMod,
      compareKeyMod (input ^^^ (a &&& (KeyModOptional &&& keyModNot test))) test =
        compareKeyMod input test) ∧
    compareKeyMod (KeyMod.LShift ||| KeyMod.Caps) KeyMod.LShift = true ∧
    compareKeyMod KeyMod.LShift KeyMod.LShift = true ∧
    compareKeyMod KeyMod.NoMod KeyMod.LShift = false := by
  refine ⟨?_, ?_, by decide, by decide, by decide⟩
  · rw [compareKeyMod_iff]
    constructor
    · intro h
      exact ⟨fun i hi => (h i).2 hi, fun i hi ht => (h i).1 hi ht⟩
    · intro h i
      exact ⟨h.2 i, h.1 i⟩
  · intro a
    have hx : ∀ (i : Nat), (¬ optionalBit i ∨ test.testBit i = true) →
        (input ^^^ (a &&& (KeyModOptional &&& keyModNot test))).testBit i = input.testBit i := by
      intro i hi
      rcases hi with hi | hi <;>
        simp [Nat.testBit_xor, Nat.testBit_and, testBit_KeyModOptional, testBit_keyModNot, hi]
    rw [Bool.eq_iff_iff, compareKeyMod_iff, compareKeyMod_iff]
    constructor
    · intro h i
      refine ⟨fun hi ht => ?_, fun hi => ?_⟩
      · rw [← hx i (Or.inr ht)]; exact (h i).1 hi ht
      · rw [← hx i (Or.inl hi)]; exact (h i).2 hi
    · intro h i
      refine ⟨fun hi ht => ?_, fun hi => ?_⟩
      · rw [hx i (Or.inr ht)]; exact (h i).1 hi ht
      · rw [hx i (Or.inl hi)]; exact (h i).2 hi

/-! ## Modifier-list decoding -/

theorem leftPtr_mem {L R : Type} [DecidableEq R] (m : BiMap L R) (r : R) (l : L)
    (h : m.leftPtr r = some l) : (l, r) ∈ m := by
  unfold BiMap.leftPtr at h
  cases hf : m.find? (fun p => decide (p.2 = r)) with
  | none => rw [hf] at h; simp at h
  | some p =>
    rw [hf] at h
    have hp := List.find?_some hf
    have hm := List.mem_of_find?_eq_some hf
    simp only [Option.map_some', Option.some.injEq] at h
    simp only [decide_eq_true_eq] at hp
    have : p = (l, r) := by rw [← h, ← hp]
    rw [← this]; exact hm

theorem rightPtr_mem {L R : Type} [DecidableEq L] (m : BiMap L R) (l : L) (r : R)
    (h : m.rightPtr l = some r) : (l, r) ∈ m := by
  unfold BiMap.rightPtr at h
  cases hf : m.find? (fun p => decide (p.1 = l)) with
  | none => rw [hf] at h; simp at h
  | some p =>
    rw [hf] at h
    have hp := List.find?_some hf
    have hm := List.mem_of_find?_eq_some hf
    simp only [Option.map_some', Option.some.injEq] at h
    simp only [decide_eq_true_eq] at hp
    have : p = (l, r) := by rw [← h, ← hp]
    rw [← this]; exact hm

theorem keyModNames_single_bit (k : KeyMod) (n : String) (h : (k, n) ∈ KeyModNames) :
    ∃ j, j < 16 ∧ k = 2 ^ j := by
  have hall : ∀ p ∈ KeyModNames, ∃ j, j < 16 ∧ p.1 = 2 ^ j := by decide
  exact hall (k, n) h

theorem keyModNames_name_inj (k : KeyMod) (n1 n2 : String)
    (h1 : (k, n1) ∈ KeyModNames) (h2 : (k, n2) ∈ KeyModNames) : n1 = n2 := by
  have hall : ∀ p ∈ KeyModNames, ∀ q ∈ KeyModNames, p.1 = q.1 → p.2 = q.2 := by decide
  exact hall (k, n1) h1 (k, n2) h2 rfl

theorem keyModNames_bit_inj (k1 k2 : KeyMod) (n : String)
    (h1 : (k1, n) ∈ KeyModNames) (h2 : (k2, n) ∈ KeyModNames) : k1 = k2 := by
  have hall : ∀ p ∈ KeyModNames, ∀ q ∈ KeyModNames, p.2 = q.2 → p.1 = q.1 := by decide
  exact hall (k1, n) h1 (k2, n) h2 rfl

theorem namedBits_or_of_mem (mod k : KeyMod) (n : String) (seen : Finset String)
    (hinv : NamedBits mod seen) (hk : KeyModNames.leftPtr n = some k) (hn : n ∈ seen) :
    mod ||| k = mod := by
  apply Nat.eq_of_testBit_eq
  intro i
  rw [Nat.testBit_or]
  cases hb : k.testBit i
  · simp
  · have : mod.testBit i = true := (hinv i).mpr ⟨n, hn, k, hk, hb⟩
    simp [this]

theorem namedBits_or_of_not_mem (mod k : KeyMod) (n : String) (seen : Finset String)
    (hinv : NamedBits mod seen) (hk : KeyModNames.leftPtr n = some k) (hn : n ∉ seen) :
    mod ≠ mod ||| k := by
  obtain ⟨j, _, hj⟩ := keyModNames_single_bit k n (leftPtr_mem _ _ _ hk)
  intro heq
  have hbit : mod.testBit j = true := by
    rw [heq, Nat.testBit_or, hj, Nat.testBit_two_pow_self]; simp
  obtain ⟨n2, hn2, k2, hk2, hb2⟩ := (hinv j).mp hbit
  obtain ⟨j2, _, hj2⟩ := keyModNames_single_bit k2 n2 (leftPtr_mem _ _ _ hk2)
  rw [hj2, Nat.testBit_two_pow] at hb2
  have hjj : j2 = j := by simpa using hb2
  have hkk : k2 = k := by rw [hj2, hj, hjj]
  have : n2 = n :=
    keyModNames_name_inj k n2 n (hkk ▸ leftPtr_mem _ _ _ hk2) (leftPtr_mem _ _ _ hk)
  exact hn (this ▸ hn2)

theorem namedBits_insert (mod k : KeyMod) (n : String) (seen : Finset String)
    (hinv : NamedBits mod seen) (hk : KeyModNames.leftPtr n = some k) :
    NamedBits (mod ||| k) (insert n seen) := by
  intro i
  rw [Nat.testBit_or, Bool.or_eq_true, hinv i]
  constructor
  · rintro (⟨n2, hn2, k2, hk2, hb2⟩ | hb)
    · exact ⟨n2, Finset.mem_insert_of_mem hn2, k2, hk2, hb2⟩
    · exact ⟨n, Finset.mem_insert_self _ _, k, hk, hb⟩
  · rintro ⟨n2, hn2, k2, hk2, hb2⟩
    rcases Finset.mem_insert.mp hn2 with h | h
    · right
      rw [h, hk] at hk2
      cases hk2
      exact hb2
    · left; exact ⟨n2, h, k2, hk2, hb2⟩

theorem keyModsFromJsonLoop_spec :
    ∀ (l : List String) (mod p : Nat) (seen : Finset String),
      (∀ n ∈ l, ∃ k, KeyModNames.leftPtr n = some k) →
      NamedBits mod seen →
      p + (l.toFinset \ seen).card < 256 →
      ∃ mod2, keyModsFromJsonLoop (l.map Json.str) mod p =
          .ok (mod2, p + (l.toFinset \ seen).card) ∧
        NamedBits mod2 (seen ∪ l.toFinset) := by
  intro l
  induction l with
  | nil =>
    intro mod p seen _ hinv _
    exact ⟨mod, by simp [keyModsFromJsonLoop], by simpa using hinv⟩
  | cons n rest ih =>
    intro mod p seen hknown hinv hlt
    obtain ⟨k, hk⟩ := hknown n (List.mem_cons_self _ _)
    have hrest : ∀ x ∈ rest, ∃ k, KeyModNames.leftPtr x = some k :=
      fun x hx => hknown x (List.mem_cons_of_mem _ hx)
    have hget : KeyModNames.getLeft n = .ok k := by simp [BiMap.getLeft, hk]
    simp only [List.map_cons, keyModsFromJsonLoop, Json.toString, bind, Except.bind, hget]
    by_cases hn : n ∈ seen
    · have hsame : mod ||| k = mod := namedBits_or_of_mem mod k n seen hinv hk hn
      have hsd : (n :: rest).toFinset \ seen = rest.toFinset \ seen := by
        rw [List.toFinset_cons, Finset.insert_sdiff_of_mem _ hn]
      have hun : seen ∪ (n :: rest).toFinset = seen ∪ rest.toFinset := by
        rw [List.toFinset_cons]
        ext x
        simp only [Finset.mem_union, Finset.mem_insert]
        constructor
        · rintro (h | h | h)
          · exact Or.inl h
          · exact Or.inl (h ▸ hn)
          · exact Or.inr h
        · rintro (h | h)
          · exact Or.inl h
          · exact Or.inr (Or.inr h)
      rw [hsd] at hlt ⊢
      rw [hun]
      simp only [hsame, ne_eq, not_true_eq_false, if_false]
      exact ih mod p seen hrest hinv hlt
    · have hne : mod ≠ mod ||| k := namedBits_or_of_not_mem mod k n seen hinv hk hn
      have hsd : ((n :: rest).toFinset \ seen).card =
          (rest.toFinset \ insert n seen).card + 1 := by
        rw [List.toFinset_cons, Finset.insert_sdiff_of_not_mem _ hn]
        have hins : insert n (rest.toFinset \ seen) =
            insert n (rest.toFinset \ insert n seen) := by
          ext x
          simp only [Finset.mem_sdiff, Finset.mem_insert, List.mem_toFinset]
          tauto
        rw [hins, Finset.card_insert_of_not_mem (by simp)]
      have hun : insert n seen ∪ rest.toFinset = seen ∪ (n :: rest).toFinset := by
        rw [List.toFinset_cons]
        ext x
        simp only [Finset.mem_union, Finset.mem_insert]
        tauto
      rw [hsd] at hlt ⊢
      have hp : (p + 1) % 256 = p + 1 := Nat.mod_eq_of_lt (by omega)
      simp only [ne_eq, hne, not_false_eq_true, if_true, hp]
      obtain ⟨mod2, h1, h2⟩ := ih (mod ||| k) (p + 1) (insert n seen) hrest
        (namedBits_insert mod k n seen hinv hk) (by omega)
      refine ⟨mod2, ?_, ?_⟩
      · rw [h1]
        congr 2
        omega
      · rw [← hun]; exact h2

theorem keyModNames_card_le (l : List String)
    (hknown : ∀ n ∈ l, ∃ k, KeyModNames.leftPtr n = some k) : l.toFinset.card ≤ 12 := by
  have hsub : l.toFinset ⊆ (KeyModNames.map Prod.snd).toFinset := by
    intro x hx
    obtain ⟨k, hk⟩ := hknown x (List.mem_toFinset.mp hx)
    exact List.mem_toFinset.mpr (List.mem_map.mpr ⟨(k, x), leftPtr_mem _ _ _ hk, rfl⟩)
  calc l.toFinset.card ≤ (KeyModNames.map Prod.snd).toFinset.card := Finset.card_le_card hsub
    _ ≤ (KeyModNames.map Prod.snd).length := List.toFinset_card_le _
    _ = 12 := by decide

theorem keyModsFromJson_names (l : List String) (p0 : Nat)
    (hknown : ∀ n ∈ l, ∃ k, KeyModNames.leftPtr n = some k) :
    ∃ mod, keyModsFromJson (Json.arr (l.map Json.str)) p0 = .ok (mod, l.toFinset.card) ∧
      NamedBits mod l.toFinset := by
  have hcard := keyModNames_card_le l hknown
  have hinv0 : NamedBits KeyMod.NoMod ∅ := by
    intro i
    simp [KeyMod.NoMod]
  obtain ⟨mod, h1, h2⟩ := keyModsFromJsonLoop_spec l KeyMod.NoMod 0 ∅ hknown hinv0
    (by simp only [Finset.sdiff_empty]; omega)
  refine ⟨mod, ?_, ?_⟩
  · simp only [keyModsFromJson, h1, Finset.sdiff_empty, Nat.zero_add]
  · simpa using h2

/-- C4: for a list of known modifier names `keyModsFromJson` returns the union
of the named bits and writes to the priority output the number of distinct
names of the list, whatever the repeats and the order (the spec example gives
priority 2); an input that is not an array gives the empty modifier set. -/
theorem keyModsFromJson_spec (names : List String) (p0 : Nat)
    (hnames : ∀ n ∈ names, (KeyModNames.leftPtr n).isSome = true) :
    (∃ mod, keyModsFromJson (Json.arr (names.map Json.str)) p0 =
        .ok (mod, names.toFinset.card) ∧
      (∀ i, mod.testBit i = true ↔
        ∃ n ∈ names, ∃ k, KeyModNames.leftPtr n = some k ∧ k.testBit i = true)) ∧
    (∀ names2 : List String, (∀ n, n ∈ names2 ↔ n ∈ names) →
      keyModsFromJson (Json.arr (names2.map Json.str)) p0 =
        keyModsFromJson (Json.arr (names.map Json.str)) p0) ∧
    keyModsFromJson (Json.arr [Json.str "LShift", Json.str "LShift", Json.str "LCtrl"]) p0 =
      .ok (KeyMod.LShift ||| KeyMod.LCtrl, 2) ∧
    (∀ j : Json, j.isArray = false → keyModsFromJson j p0 = .ok (KeyMod.NoMod, p0)) := by
  have hknown : ∀ n ∈ names, ∃ k, KeyModNames.leftPtr n = some k :=
    fun n hn => Option.isSome_iff_exists.mp (hnames n hn)
  obtain ⟨mod, h1, h2⟩ := keyModsFromJson_names names p0 hknown
  refine ⟨⟨mod, h1, ?_⟩, ?_, rfl, ?_⟩
  · intro i
    rw [h2 i]
    simp only [List.mem_toFinset]
  · intro names2 hsame
    have hset : names2.toFinset = names.toFinset := by
      ext x
      simp only [List.mem_toFinset]
      exact hsame x
    have hknown2 : ∀ n ∈ names2, ∃ k, KeyModNames.leftPtr n = some k :=
      fun n hn => hknown n ((hsame n).mp hn)
    obtain ⟨mod2, h3, h4⟩ := keyModsFromJson_names names2 p0 hknown2
    have hmod : mod2 = mod := by
      apply Nat.eq_of_testBit_eq
      intro i
      rw [Bool.eq_iff_iff, h4 i, h2 i, hset]
    rw [h1, h3, hmod, hset]
  · intro j hj
    cases j <;> simp_all [keyModsFromJson, Json.isArray]

/-- Witness of C4 on the list of the spec example. -/
theorem keyModsFromJson_spec_witness :
    ∃ mod, keyModsFromJson (Json.arr (["LShift", "LShift", "LCtrl"].map Json.str)) 0 =
        .ok (mod, ["LShift", "LShift", "LCtrl"].toFinset.card) ∧
      (∀ i, mod.testBit i = true ↔
        ∃ n ∈ ["LShift", "LShift", "LCtrl"],
          ∃ k, KeyModNames.leftPtr n = some k ∧ k.testBit i = true) :=
  (keyModsFromJson_spec ["LShift", "LShift", "LCtrl"] 0 (by decide)).1

/-! ## Bind codec round trip -/

theorem and_two_pow_ne_zero (mod j : Nat) : mod &&& 2 ^ j ≠ 0 ↔ mod.testBit j = true := by
  constructor
  · intro h
    by_contra hb
    apply h
    apply Nat.eq_of_testBit_eq
    intro i
    rw [Nat.testBit_and, Nat.testBit_two_pow, Nat.zero_testBit]
    by_cases hji : j = i
    · subst hji; simp [hb]
    · simp [hji]
  · intro hb h
    have := congrArg (fun n => Nat.testBit n j) h
    simp [Nat.testBit_and, hb] at this

theorem foldl_emplace_eq_filter {α β : Type} (c : α → Bool) (f : α → β) :
    ∀ (l : List α) (acc : List β),
      l.foldl (fun arr p => if c p = true then arr ++ [f p] else arr) acc =
        acc ++ (l.filter c).map f := by
  intro l
  induction l with
  | nil => intro acc; simp
  | cons a rest ih =>
    intro acc
    rw [List.foldl_cons, ih]
    cases hc : c a <;> simp [List.filter_cons, hc]

theorem keyModsToJsonNames_eq_filter (mod : KeyMod) :
    keyModsToJsonNames mod =
      (KeyModNames.filter (fun p => decide (mod &&& p.1 ≠ 0))).map Prod.snd := by
  have h := foldl_emplace_eq_filter (fun p : KeyMod × String => decide (mod &&& p.1 ≠ 0))
    Prod.snd KeyModNames []
  rw [List.nil_append] at h
  rw [← h]
  simp only [keyModsToJsonNames, KeyModNames, List.foldl_cons, List.foldl_nil,
    decide_eq_true_eq, List.nil_append]

theorem leftPtr_of_mem_keyModNames (k : KeyMod) (n : String) (h : (k, n) ∈ KeyModNames) :
    KeyModNames.leftPtr n = some k := by
  have hsome : (KeyModNames.find? (fun p => decide (p.2 = n))).isSome = true :=
    List.find?_isSome.mpr ⟨(k, n), h, by simp⟩
  cases hf : KeyModNames.leftPtr n with
  | none =>
    unfold BiMap.leftPtr at hf
    rw [Option.map_eq_none'] at hf
    rw [hf] at hsome
    simp at hsome
  | some k2 =>
    rw [keyModNames_bit_inj k2 k n (leftPtr_mem _ _ _ hf) h]

theorem keyModsToJsonNames_known (mod : KeyMod) :
    ∀ n ∈ keyModsToJsonNames mod, ∃ k, KeyModNames.leftPtr n = some k := by
  intro n hn
  rw [keyModsToJsonNames_eq_filter, List.mem_map] at hn
  obtain ⟨p, hp, hpn⟩ := hn
  have hmem := (List.mem_filter.mp hp).1
  exact ⟨p.1, leftPtr_of_mem_keyModNames p.1 n (by rw [← hpn]; exact hmem)⟩

theorem keyModsFromJson_keyModsToJsonNames (mod : KeyMod) (seen : Finset String) (p0 : Nat)
    (hinv : NamedBits mod seen) :
    ∃ p, keyModsFromJson (Json.arr ((keyModsToJsonNames mod).map Json.str)) p0 = .ok (mod, p) := by
  obtain ⟨mod2, h1, h2⟩ :=
    keyModsFromJson_names (keyModsToJsonNames mod) p0 (keyModsToJsonNames_known mod)
  have hmod : mod2 = mod := by
    apply Nat.eq_of_testBit_eq
    intro i
    rw [Bool.eq_iff_iff, h2 i]
    constructor
    · rintro ⟨n, hn, k, hk, hb⟩
      rw [List.mem_toFinset, keyModsToJsonNames_eq_filter, List.mem_map] at hn
      obtain ⟨q, hq, hqn⟩ := hn
      obtain ⟨hqm, hqc⟩ := List.mem_filter.mp hq
      have hkq : k = q.1 :=
        keyModNames_bit_inj k q.1 n (leftPtr_mem _ _ _ hk) (by rw [← hqn]; exact hqm)
      obtain ⟨j, _, hj⟩ := keyModNames_single_bit k n (leftPtr_mem _ _ _ hk)
      rw [hj, Nat.testBit_two_pow] at hb
      have hji : j = i := by simpa using hb
      rw [← hkq, hj, decide_eq_true_eq, and_two_pow_ne_zero, hji] at hqc
      exact hqc
    · intro hb
      obtain ⟨n, _, k, hk, hkb⟩ := (hinv i).mp hb
      have hmem := leftPtr_mem _ _ _ hk
      obtain ⟨j, _, hj⟩ := keyModNames_single_bit k n hmem
      have hji : j = i := by
        rw [hj, Nat.testBit_two_pow] at hkb
        simpa using hkb
      refine ⟨n, ?_, k, hk, hkb⟩
      rw [List.mem_toFinset, keyModsToJsonNames_eq_filter, List.mem_map]
      refine ⟨(k, n), List.mem_filter.mpr ⟨hmem, ?_⟩, rfl⟩
      rw [decide_eq_true_eq]
      show mod &&& k ≠ 0
      rw [hj, and_two_pow_ne_zero, hji]
      exact hb
  exact ⟨_, by rw [h1, hmod]⟩

theorem keyModsToJsonNames_nil_iff (mod : KeyMod) (seen : Finset String)
    (hinv : NamedBits mod seen) : keyModsToJsonNames mod = [] ↔ mod = KeyMod.NoMod := by
  constructor
  · intro h
    obtain ⟨p, hp⟩ := keyModsFromJson_keyModsToJsonNames mod seen 0 hinv
    rw [h] at hp
    simp only [List.map_nil, keyModsFromJson, keyModsFromJsonLoop, Except.ok.injEq,
      Prod.mk.injEq] at hp
    exact hp.1.symm
  · intro h
    rw [h]
    decide

theorem rightPtr_of_leftPtr {L R : Type} [DecidableEq L] [DecidableEq R] (m : BiMap L R)
    (hv : m.Valid) (l : L) (r : R) (h : m.leftPtr r = some l) : m.rightPtr l = some r := by
  have hmem := leftPtr_mem m r l h
  have hsome : (m.find? (fun p => decide (p.1 = l))).isSome = true :=
    List.find?_isSome.mpr ⟨(l, r), hmem, by simp⟩
  obtain ⟨q, hq⟩ := Option.isSome_iff_exists.mp hsome
  have hq1 : q.1 = l := by simpa using List.find?_some hq
  have hqm := List.mem_of_find?_eq_some hq
  have hqeq : q = (l, r) := List.inj_on_of_nodup_map hv.1 hqm hmem hq1
  unfold BiMap.rightPtr
  rw [hq, hqeq]
  rfl

theorem getArray_mods (kvs : List (String × Json)) (names : List String)
    (hmods : Json.lookup "mods" kvs = some (Json.arr (names.map Json.str)) ∨
      (Json.lookup "mods" kvs = none ∧ names = [])) :
    (Json.obj kvs).getArray "mods" [] = .ok (names.map Json.str) := by
  rcases hmods with h | ⟨h, hn⟩
  · simp [Json.getArray, Json.ptr, h, Json.toArray, bind, Except.bind]
  · simp [Json.getArray, Json.ptr, h, hn, bind, Except.bind, pure, Except.pure]

theorem lookup_append_single (key k2 : String) (v : Json) :
    ∀ base : List (String × Json),
      Json.lookup key (base ++ [(k2, v)]) =
        match Json.lookup key base with
        | some x => some x
        | none => if k2 = key then some v else none := by
  intro base
  induction base with
  | nil => simp [Json.lookup]
  | cons p rest ih =>
    obtain ⟨k, w⟩ := p
    by_cases hk : k = key
    · simp [Json.lookup, hk]
    · simp [Json.lookup, hk, ih]

theorem canonicalMods_eq (mods : KeyMod) :
    canonicalMods mods = (keyModsToJsonNames mods).map Json.str := by
  rw [keyModsToJsonNames_eq_filter, canonicalMods, List.map_map]
  rfl

theorem lookup_mods_keyModsToJson (mods : KeyMod) (seen : Finset String)
    (hinv : NamedBits mods seen) (base : List (String × Json))
    (hbase : Json.lookup "mods" base = none) :
    ∃ out, (match keyModsToJson mods with
        | Json.null => (pure (Json.obj base) : Except StarError Json)
        | j => pure (Json.obj (base ++ [("mods", j)]))) = .ok (Json.obj out) ∧
      (∀ key, key ≠ "mods" → Json.lookup key out = Json.lookup key base) ∧
      recordMods out = canonicalMods mods ∧
      (Json.lookup "mods" out = none ↔ mods = KeyMod.NoMod) := by
  have hnil := keyModsToJsonNames_nil_iff mods seen hinv
  rw [canonicalMods_eq]
  unfold keyModsToJson
  cases hnames : keyModsToJsonNames mods with
  | nil =>
    refine ⟨base, rfl, fun _ _ => rfl, ?_, ?_⟩
    · simp [recordMods, hbase]
    · rw [hnames] at hnil
      simp only [hbase, true_iff]
      exact hnil.mp rfl
  | cons n rest =>
    refine ⟨base ++ [("mods", Json.arr ((n :: rest).map Json.str))], rfl, ?_, ?_, ?_⟩
    · intro key hkey
      rw [lookup_append_single]
      cases Json.lookup key base with
      | none => simp [Ne.symm hkey]
      | some x => rfl
    · simp [recordMods, lookup_append_single, hbase]
    · rw [hnames] at hnil
      simp only [lookup_append_single, hbase]
      constructor
      · intro h
        exact absurd h (by simp)
      · intro h
        exact absurd (hnil.mpr h) (by simp)

theorem bindFromJson_key_roundtrip (T : NameTables) (hT : T.Valid)
    (kvs : List (String × Json)) (value : String) (names : List String) (k : Key)
    (htype : Json.lookup "type" kvs = some (Json.str "key"))
    (hvalue : Json.lookup "value" kvs = some (Json.str value))
    (hmods : Json.lookup "mods" kvs = some (Json.arr (names.map Json.str)) ∨
      (Json.lookup "mods" kvs = none ∧ names = []))
    (hnames : ∀ n ∈ names, ∃ m, KeyModNames.leftPtr n = some m)
    (hk : T.keyNames.leftPtr value = some k) :
    RoundTrip T kvs "key" value names := by
  obtain ⟨mods, hdec, hinv⟩ := keyModsFromJson_names names 0 hnames
  have hright := rightPtr_of_leftPtr T.keyNames hT.1 k value hk
  obtain ⟨out, hout, hlook, hrec, hnone⟩ := lookup_mods_keyModsToJson mods names.toFinset hinv
    [("type", Json.str "key"), ("value", Json.str value)] (by simp [Json.lookup])
  refine ⟨Bind.key { key := k, mods := mods, priority := names.toFinset.card }, out, mods,
    ?_, ?_, ?_, ?_, ⟨_, hdec⟩, ?_, hrec, hnone⟩
  · simp [bindFromJson, Json.isNull, Json.getString, Json.ptr, htype, Json.toString, Json.get,
      hvalue, bind, Except.bind, pure, Except.pure, BiMap.getLeft, hk, getArray_mods kvs names hmods,
      hdec]
  · simp only [bindToJson, BiMap.getRight, hright, bind, Except.bind]
    exact hout
  · rw [hlook "type" (by decide)]; simp [Json.lookup]
  · rw [hlook "value" (by decide)]; simp [Json.lookup]
  · rw [hrec, canonicalMods_eq]
    exact keyModsFromJson_keyModsToJsonNames mods names.toFinset 0 hinv
theorem bindFromJson_mouse_roundtrip (T : NameTables) (hT : T.Valid)
    (kvs : List (String × Json)) (value : String) (names : List String) (k : MouseButton)
    (htype : Json.lookup "type" kvs = some (Json.str "mouse"))
    (hvalue : Json.lookup "value" kvs = some (Json.str value))
    (hmods : Json.lookup "mods" kvs = some (Json.arr (names.map Json.str)) ∨
      (Json.lookup "mods" kvs = none ∧ names = []))
    (hnames : ∀ n ∈ names, ∃ m, KeyModNames.leftPtr n = some m)
    (hk : T.mouseButtonNames.leftPtr value = some k) :
    RoundTrip T kvs "mouse" value names := by
  obtain ⟨mods, hdec, hinv⟩ := keyModsFromJson_names names 0 hnames
  have hright := rightPtr_of_leftPtr T.mouseButtonNames hT.2.1 k value hk
  obtain ⟨out, hout, hlook, hrec, hnone⟩ := lookup_mods_keyModsToJson mods names.toFinset hinv
    [("type", Json.str "mouse"), ("value", Json.str value)] (by simp [Json.lookup])
  refine ⟨Bind.mouse { button := k, mods := mods, priority := names.toFinset.card }, out, mods,
    ?_, ?_, ?_, ?_, ⟨_, hdec⟩, ?_, hrec, hnone⟩
  · simp [bindFromJson, Json.isNull, Json.getString, Json.ptr, htype, Json.toString, Json.get,
      hvalue, bind, Except.bind, pure, Except.pure, BiMap.getLeft, hk, getArray_mods kvs names hmods,
      hdec]
  · simp only [bindToJson, BiMap.getRight, hright, bind, Except.bind]
    exact hout
  · rw [hlook "type" (by decide)]; simp [Json.lookup]
  · rw [hlook "value" (by decide)]; simp [Json.lookup]
  · rw [hrec, canonicalMods_eq]
    exact keyModsFromJson_keyModsToJsonNames mods names.toFinset 0 hinv

theorem bindFromJson_controller_roundtrip (T : NameTables) (hT : T.Valid)
    (kvs : List (String × Json)) (value : String) (k : ControllerButton)
    (htype : Json.lookup "type" kvs = some (Json.str "controller"))
    (hvalue : Json.lookup "value" kvs = some (Json.str value))
    (hctrl : Json.lookup "controller" kvs = none ∨
      ∃ n : Nat, Json.lookup "controller" kvs = some (Json.int n))
    (hk : T.controllerButtonNames.leftPtr value = some k) :
    ∃ b out, bindFromJson T (Json.obj kvs) = .ok b ∧
      bindToJson T b = .ok (Json.obj out) ∧
      Json.lookup "type" out = some (Json.str "controller") ∧
      Json.lookup "value" out = some (Json.str value) ∧
      Json.lookup "mods" out = none := by
  have hright := rightPtr_of_leftPtr T.controllerButtonNames hT.2.2 k value hk
  have hget : ∃ c, (Json.obj kvs).getUInt "controller" 0 = .ok c := by
    rcases hctrl with h | ⟨n, h⟩
    · exact ⟨0, by simp [Json.getUInt, Json.ptr, h, bind, Except.bind, pure, Except.pure]⟩
    · exact ⟨n, by simp [Json.getUInt, Json.ptr, h, bind, Except.bind, Json.toUInt]⟩
  obtain ⟨c, hc⟩ := hget
  refine ⟨Bind.controller { controller := c, button := k },
    [("type", Json.str "controller"), ("value", Json.str value)], ?_, ?_, ?_, ?_, ?_⟩
  · simp [bindFromJson, Json.isNull, Json.getString, Json.ptr, htype, Json.toString, Json.get,
      hvalue, bind, Except.bind, pure, Except.pure, BiMap.getLeft, hk, hc]
  · simp [bindToJson, BiMap.getRight, hright, bind, Except.bind, pure, Except.pure]
  · simp [Json.lookup]
  · simp [Json.lookup]
  · simp [Json.lookup]

/-- C5 as stated fails on a controller record that carries modifiers: the
record is well formed (known button name, known modifier name), its `mods`
list decodes to `{LShift}`, but the re-encoded record has no `mods` field and
so decodes to the empty set. -/
theorem bind_roundtrip_controller_mods_counterexample :
    (bindFromJson sampleTables (Json.obj sampleControllerRecord) >>= bindToJson sampleTables) =
        .ok (Json.obj [("type", Json.str "controller"), ("value", Json.str "A")]) ∧
      keyModsFromJson (Json.arr (recordMods sampleControllerRecord)) 0 =
        .ok (KeyMod.LShift, 1) ∧
      keyModsFromJson
          (Json.arr (recordMods [("type", Json.str "controller"), ("value", Json.str "A")])) 0 =
        .ok (KeyMod.NoMod, 0) ∧
      KeyMod.LShift ≠ KeyMod.NoMod ∧
      (sampleTables.controllerButtonNames.leftPtr "A").isSome = true ∧
      (KeyModNames.leftPtr "LShift").isSome = true :=
  ⟨rfl, rfl, rfl, by decide, by decide, by decide⟩

/-- C5 (amended): for a well-formed record of type "key" or "mouse" (a known
value name and an optional list of known modifier names) the encoding of its
decoding has the same type and value, a `mods` list holding each set modifier
once in canonical order that decodes to the same modifier set, and no `mods`
field exactly when that set is empty; for a well-formed record of type
"controller" (controller index absent or an unsigned integer) it has the same
type and value and never a `mods` field. -/
theorem bind_roundtrip_spec (T : NameTables) (hT : T.Valid)
    (kvs : List (String × Json)) (ty value : String) (names : List String)
    (htype : Json.lookup "type" kvs = some (Json.str ty))
    (hvalue : Json.lookup "value" kvs = some (Json.str value))
    (hmods : Json.lookup "mods" kvs = some (Json.arr (names.map Json.str)) ∨
      (Json.lookup "mods" kvs = none ∧ names = []))
    (hnames : ∀ n ∈ names, (KeyModNames.leftPtr n).isSome = true) :
    (ty = "key" → (T.keyNames.leftPtr value).isSome = true →
      RoundTrip T kvs "key" value names) ∧
    (ty = "mouse" → (T.mouseButtonNames.leftPtr value).isSome = true →
      RoundTrip T kvs "mouse" value names) ∧
    (ty = "controller" → (T.controllerButtonNames.leftPtr value).isSome = true →
      (Json.lookup "controller" kvs = none ∨
        ∃ n : Nat, Json.lookup "controller" kvs = some (Json.int n)) →
      ∃ b out, bindFromJson T (Json.obj kvs) = .ok b ∧
        bindToJson T b = .ok (Json.obj out) ∧
        Json.lookup "type" out = some (Json.str "controller") ∧
        Json.lookup "value" out = some (Json.str value) ∧
        Json.lookup "mods" out = none) := by
  have hknown : ∀ n ∈ names, ∃ m, KeyModNames.leftPtr n = some m :=
    fun n hn => Option.isSome_iff_exists.mp (hnames n hn)
  refine ⟨?_, ?_, ?_⟩
  · intro hty hv
    obtain ⟨k, hk⟩ := Option.isSome_iff_exists.mp hv
    exact bindFromJson_key_roundtrip T hT kvs value names k (hty ▸ htype) hvalue hmods hknown hk
  · intro hty hv
    obtain ⟨k, hk⟩ := Option.isSome_iff_exists.mp hv
    exact bindFromJson_mouse_roundtrip T hT kvs value names k (hty ▸ htype) hvalue hmods hknown hk
  · intro hty hv hctrl
    obtain ⟨k, hk⟩ := Option.isSome_iff_exists.mp hv
    exact bindFromJson_controller_roundtrip T hT kvs value k (hty ▸ htype) hvalue hctrl hk

/-- Witness of C5 on a key record with a repeated, unordered modifier list. -/
theorem bind_roundtrip_spec_witness :
    RoundTrip sampleTables sampleKeyRecord "key" "K" ["LCtrl", "LShift", "LCtrl"] :=
  (bind_roundtrip_spec sampleTables
    ⟨⟨by decide, by decide⟩, ⟨by decide, by decide⟩, ⟨by decide, by decide⟩⟩
    sampleKeyRecord "key" "K" ["LCtrl", "LShift", "LCtrl"] rfl rfl (Or.inl rfl)
    (by decide)).1 rfl (by decide)

/-! ## Frame reset and event routing -/

theorem eraseCond_isSome {κ σ : Type} (held : σ → Bool) (reset : σ → σ) (m : HashMap κ σ)
    (k : κ) :
    (eraseCond held reset m k).isSome = true ↔ ∃ st, m k = some st ∧ held st = true := by
  unfold eraseCond
  cases h : m k with
  | none => simp
  | some st =>
    cases hh : held st <;> simp [hh]

theorem eraseCond_some {κ σ : Type} (held : σ → Bool) (reset : σ → σ) (m : HashMap κ σ)
    (k : κ) (st2 : σ) (h : eraseCond held reset m k = some st2) :
    ∃ st, m k = some st ∧ held st = true ∧ st2 = reset st := by
  unfold eraseCond at h
  cases hm : m k with
  | none => rw [hm] at h; simp at h
  | some st =>
    rw [hm] at h
    cases hh : held st
    · simp [hh] at h
    · simp only [hh, if_true, Option.some.injEq] at h
      exact ⟨st, rfl, hh, h.symm⟩

theorem foldl_pressBind (l : List EntryId) :
    ∀ (m : HashMap EntryId InputState) (e : EntryId),
      (l.foldl pressBind m) e =
        if l.count e = 0 then m e
        else some { presses := ((m e).getD {}).presses + l.count e
                    releases := ((m e).getD {}).releases
                    held := true } := by
  induction l with
  | nil => intro m e; simp
  | cons a rest ih =>
    intro m e
    rw [List.foldl_cons, ih]
    by_cases hea : e = a
    · subst hea
      simp only [List.count_cons_self, pressBind, HashMap.set, if_true, Option.getD_some,
        InputState.press, Nat.add_one_ne_zero, if_false]
      by_cases hc : List.count e rest = 0
      · simp [hc]
      · simp only [hc, if_false, Option.some.injEq, InputState.mk.injEq, and_true]
        omega
    · have hne : a ≠ e := fun h => hea h.symm
      have hcount : List.count e (a :: rest) = List.count e rest := List.count_cons_of_ne hea rest
      simp only [hcount, pressBind, HashMap.set, hea, if_false]

theorem foldl_releaseBind (l : List BindRef) :
    ∀ (m : HashMap EntryId InputState) (e : EntryId),
      (l.foldl releaseBind m) e =
        match m e with
        | none => none
        | some st =>
          if l.countP (fun r => decide (r.entry = e)) = 0 then some st
          else some { presses := st.presses
                      releases := st.releases + l.countP (fun r => decide (r.entry = e))
                      held := false } := by
  induction l with
  | nil =>
    intro m e
    cases hm : m e <;> simp [hm]
  | cons a rest ih =>
    intro m e
    rw [List.foldl_cons, ih]
    by_cases hea : a.entry = e
    · subst hea
      cases hm : m a.entry with
      | none => simp [releaseBind, hm]
      | some st =>
        simp only [releaseBind, hm, HashMap.set, if_true, InputState.release,
          List.countP_cons_of_pos (p := fun r => decide (r.entry = a.entry)) rest
            (a := a) (by simp),
          Nat.add_one_ne_zero, if_false]
        by_cases hc : List.countP (fun r => decide (r.entry = a.entry)) rest = 0
        · simp [hc]
        · simp only [hc, if_false, Option.some.injEq, InputState.mk.injEq, true_and, and_true]
          omega
    · have hcp : List.countP (fun r => decide (r.entry = e)) (a :: rest) =
          List.countP (fun r => decide (r.entry = e)) rest :=
        List.countP_cons_of_neg (p := fun r => decide (r.entry = e)) rest (a := a) (by simp [hea])
      rw [hcp]
      have hsame : releaseBind m a e = m e := by
        unfold releaseBind
        cases hm : m a.entry with
        | none => rfl
        | some st =>
          have : e ≠ a.entry := fun h => hea h.symm
          simp [HashMap.set, this]
      rw [hsame]


theorem handleInput_keyDown_live (s : Input) (K : Key) (mods : KeyMod)
    (htext : s.textInputActive = false) :
    (s.handleInput (InputEvent.keyDown K mods) false).1 =
      { s with
        inputEvents := s.inputEvents ++ [(InputEvent.keyDown K mods, false)]
        pressedMods := s.pressedMods ||| (KeysToMods.rightPtr K).getD 0
        keyStates := s.keyStates.set K
          (KeyInputState.press
            { (s.keyStates K).getD {} with
              mods := ((s.keyStates K).getD {}).mods ||| (KeysToMods.rightPtr K).getD 0 })
        bindStates :=
          (filterBindEntries ((s.bindMappings (InputVariant.key K)).getD []) mods).foldl
            pressBind s.bindStates } := by
  cases hmod : KeysToMods.rightPtr K <;> cases hb : s.bindMappings (InputVariant.key K) <;>
    simp [Input.handleInput, hmod, hb, htext, filterBindEntries, filterBindEntriesLoop]

theorem handleInput_keyDown_blocked (s : Input) (K : Key) (mods : KeyMod) (consumed : Bool)
    (hblock : consumed = true ∨ s.textInputActive = true) :
    (s.handleInput (InputEvent.keyDown K mods) consumed).1 =
      { s with
        inputEvents := s.inputEvents ++ [(InputEvent.keyDown K mods, consumed)]
        pressedMods := s.pressedMods ||| (KeysToMods.rightPtr K).getD 0 } := by
  cases hmod : KeysToMods.rightPtr K <;> rcases hblock with h | h <;>
    simp [Input.handleInput, hmod, h]

theorem handleInput_keyUp (s : Input) (K : Key) (consumed : Bool) :
    (s.handleInput (InputEvent.keyUp K) consumed).1 =
      { s with
        inputEvents := s.inputEvents ++ [(InputEvent.keyUp K, consumed)]
        pressedMods := s.pressedMods &&& ((KeysToMods.rightPtr K).map keyModNot).getD
          (s.pressedMods)
        keyStates :=
          match s.keyStates K with
          | some state => s.keyStates.set K
            (KeyInputState.release
              { state with
                mods := state.mods &&& ((KeysToMods.rightPtr K).map keyModNot).getD state.mods })
          | none => s.keyStates
        bindStates :=
          ((s.bindMappings (InputVariant.key K)).getD []).foldl releaseBind s.bindStates } := by
  cases hmod : KeysToMods.rightPtr K <;> cases hb : s.bindMappings (InputVariant.key K) <;>
    cases hk : s.keyStates K <;>
    simp [Input.handleInput, hmod, hb, hk]

theorem handleInput_mouseDown_live (s : Input) (B : MouseButton) (pos : Int × Int) :
    (s.handleInput (InputEvent.mouseButtonDown B pos) false).1 =
      { s with
        inputEvents := s.inputEvents ++ [(InputEvent.mouseButtonDown B pos, false)]
        mouseStates := s.mouseStates.set B
          (MouseInputState.press
            { (s.mouseStates B).getD {} with
              pressPositions := ((s.mouseStates B).getD {}).pressPositions ++ [pos] })
        bindStates :=
          (filterBindEntries ((s.bindMappings (InputVariant.mouse B)).getD []) s.pressedMods).foldl
            pressBind s.bindStates } := by
  cases hb : s.bindMappings (InputVariant.mouse B) <;>
    simp [Input.handleInput, hb, filterBindEntries, filterBindEntriesLoop]


/-- C6: after `reset()` the event log is empty and each of the four
tracked-state maps holds exactly the identifiers whose state was held before,
each with held = true, presses = 0 and releases = 0; states that were not held
are absent.  After a key press and a reset the key has presses 0 and is held;
after its release and another reset it is no longer tracked. -/
theorem reset_spec (s : Input) :
    s.reset.inputEvents = [] ∧
    (∀ k, ((s.reset.keyStates k).isSome = true ↔
        ∃ st, s.keyStates k = some st ∧ st.held = true) ∧
      ∀ st2, s.reset.keyStates k = some st2 →
        st2.held = true ∧ st2.presses = 0 ∧ st2.releases = 0) ∧
    (∀ k, ((s.reset.mouseStates k).isSome = true ↔
        ∃ st, s.mouseStates k = some st ∧ st.held = true) ∧
      ∀ st2, s.reset.mouseStates k = some st2 →
        st2.held = true ∧ st2.presses = 0 ∧ st2.releases = 0) ∧
    (∀ k, ((s.reset.controllerStates k).isSome = true ↔
        ∃ st, s.controllerStates k = some st ∧ st.held = true) ∧
      ∀ st2, s.reset.controllerStates k = some st2 →
        st2.held = true ∧ st2.presses = 0 ∧ st2.releases = 0) ∧
    (∀ k, ((s.reset.bindStates k).isSome = true ↔
        ∃ st, s.bindStates k = some st ∧ st.held = true) ∧
      ∀ st2, s.reset.bindStates k = some st2 →
        st2.held = true ∧ st2.presses = 0 ∧ st2.releases = 0) ∧
    (∀ (K : Key) (mods : KeyMod) (consumed : Bool),
      (∃ st, ((s.setTextInputActive false).handleInput
          (InputEvent.keyDown K mods) false).1.keyStates K = some st ∧
        st.held = true ∧ 0 < st.presses) ∧
      (∃ st, ((s.setTextInputActive false).handleInput
          (InputEvent.keyDown K mods) false).1.reset.keyStates K = some st ∧
        st.presses = 0 ∧ st.held = true) ∧
      ((((s.setTextInputActive false).handleInput
          (InputEvent.keyDown K mods) false).1.reset.handleInput
            (InputEvent.keyUp K) consumed).1.reset.keyStates K = none)) := by
  refine ⟨rfl, ?_, ?_, ?_, ?_, ?_⟩
  · intro k
    refine ⟨eraseCond_isSome _ _ _ k, ?_⟩
    intro st2 h
    obtain ⟨st, _, hh, rfl⟩ := eraseCond_some _ _ _ k st2 h
    exact ⟨hh, rfl, rfl⟩
  · intro k
    refine ⟨eraseCond_isSome _ _ _ k, ?_⟩
    intro st2 h
    obtain ⟨st, _, hh, rfl⟩ := eraseCond_some _ _ _ k st2 h
    exact ⟨hh, rfl, rfl⟩
  · intro k
    refine ⟨eraseCond_isSome _ _ _ k, ?_⟩
    intro st2 h
    obtain ⟨st, _, hh, rfl⟩ := eraseCond_some _ _ _ k st2 h
    exact ⟨hh, rfl, rfl⟩
  · intro k
    refine ⟨eraseCond_isSome _ _ _ k, ?_⟩
    intro st2 h
    obtain ⟨st, _, hh, rfl⟩ := eraseCond_some _ _ _ k st2 h
    exact ⟨hh, rfl, rfl⟩
  · intro K mods consumed
    rw [handleInput_keyDown_live (s.setTextInputActive false) K mods rfl]
    refine ⟨?_, ?_, ?_⟩
    · simp [HashMap.set, KeyInputState.press, InputState.press]
    · simp [Input.reset, eraseCond, HashMap.set, KeyInputState.press, InputState.press,
        KeyInputState.reset, InputState.reset]
    · rw [handleInput_keyUp]
      simp [Input.reset, eraseCond, HashMap.set, KeyInputState.press, InputState.press,
        KeyInputState.reset, InputState.reset, KeyInputState.release, InputState.release]

/-- C7: after a key-up event for `K`, whatever the consumed flag and the
text-capture flag, a tracked raw state of `K` has held = false and one more
release; an untracked `K` stays untracked; and every bind entry that has a
`BindRef` under `K` in the mapping index and a tracked bind state has
held = false, whatever the priority and modifiers of the `BindRef`. -/
theorem handleInput_keyUp_spec (s : Input) (K : Key) (consumed : Bool) :
    (∀ st, s.keyStates K = some st →
      ∃ st2, (s.handleInput (InputEvent.keyUp K) consumed).1.keyStates K = some st2 ∧
        st2.held = false ∧ st2.releases = st.releases + 1 ∧ st2.presses = st.presses) ∧
    (s.keyStates K = none →
      (s.handleInput (InputEvent.keyUp K) consumed).1.keyStates = s.keyStates) ∧
    (∀ binds ref st, s.bindMappings (InputVariant.key K) = some binds → ref ∈ binds →
      s.bindStates ref.entry = some st →
      ∃ st2, (s.handleInput (InputEvent.keyUp K) consumed).1.bindStates ref.entry = some st2 ∧
        st2.held = false) := by
  rw [handleInput_keyUp]
  refine ⟨?_, ?_, ?_⟩
  · intro st hst
    simp [hst, HashMap.set, KeyInputState.release, InputState.release]
  · intro hnone
    simp [hnone]
  · intro binds ref st hb href hst
    have hpos : binds.countP (fun r => decide (r.entry = ref.entry)) ≠ 0 := by
      rw [Ne, List.countP_eq_zero]
      intro hall
      exact absurd (hall ref href) (by simp)
    simp only [hb, Option.getD_some, foldl_releaseBind, hst, hpos, if_false]
    exact ⟨_, rfl, rfl⟩

/-- C8: a key-down event handled with `consumedByHost = true` or while text
capture is active leaves the key, mouse, controller and bind states
unchanged; it only appends the event to the event log and, when the key is a
modifier key, sets its bit in the pressed-modifier accumulator. -/
theorem handleInput_keyDown_blocked_spec (s : Input) (K : Key) (mods : KeyMod)
    (consumed : Bool) (hblock : consumed = true ∨ s.textInputActive = true) :
    (s.handleInput (InputEvent.keyDown K mods) consumed).1.keyStates = s.keyStates ∧
    (s.handleInput (InputEvent.keyDown K mods) consumed).1.mouseStates = s.mouseStates ∧
    (s.handleInput (InputEvent.keyDown K mods) consumed).1.controllerStates =
      s.controllerStates ∧
    (s.handleInput (InputEvent.keyDown K mods) consumed).1.bindStates = s.bindStates ∧
    (s.handleInput (InputEvent.keyDown K mods) consumed).1.inputEvents =
      s.inputEvents ++ [(InputEvent.keyDown K mods, consumed)] ∧
    (∀ m, KeysToMods.rightPtr K = some m →
      (s.handleInput (InputEvent.keyDown K mods) consumed).1.pressedMods = s.pressedMods ||| m ∧
      ∀ i, (s.handleInput (InputEvent.keyDown K mods) consumed).1.pressedMods.testBit i =
        (s.pressedMods.testBit i || m.testBit i)) ∧
    (KeysToMods.rightPtr K = none →
      (s.handleInput (InputEvent.keyDown K mods) consumed).1.pressedMods = s.pressedMods) ∧
    (s.handleInput (InputEvent.keyDown K mods) consumed).1.bindMappings = s.bindMappings ∧
    (s.handleInput (InputEvent.keyDown K mods) consumed).1.bindCategories = s.bindCategories ∧
    (s.handleInput (InputEvent.keyDown K mods) consumed).1.textInputActive =
      s.textInputActive ∧
    (s.handleInput (InputEvent.keyDown K mods) consumed).1.userBindings = s.userBindings := by
  rw [handleInput_keyDown_blocked s K mods consumed hblock]
  refine ⟨rfl, rfl, rfl, rfl, rfl, ?_, ?_, rfl, rfl, rfl, rfl⟩
  · intro m hm
    simp [hm, Nat.testBit_or]
  · intro hm
    simp [hm]

/-- Witness of C8: a consumed key-down of left shift on the initial state. -/
theorem handleInput_keyDown_blocked_spec_witness :
    (({} : Input).handleInput (InputEvent.keyDown Key.LShift KeyMod.NoMod) true).1.bindStates =
        ({} : Input).bindStates ∧
      (({} : Input).handleInput (InputEvent.keyDown Key.LShift KeyMod.NoMod) true).1.pressedMods =
        KeyMod.LShift :=
  ⟨(handleInput_keyDown_blocked_spec {} Key.LShift KeyMod.NoMod true (Or.inl rfl)).2.2.2.1,
    ((handleInput_keyDown_blocked_spec {} Key.LShift KeyMod.NoMod true (Or.inl rfl)).2.2.2.2.2.1
      KeyMod.LShift rfl).1⟩


theorem pressed_bindStates (m : HashMap EntryId InputState) (sel : List EntryId) :
    (∀ e ∈ sel, ∃ st2, (sel.foldl pressBind m) e = some st2 ∧ st2.held = true ∧
      st2.presses = ((m e).getD {}).presses + sel.count e ∧
      st2.releases = ((m e).getD {}).releases) ∧
    (∀ e, e ∉ sel → (sel.foldl pressBind m) e = m e) := by
  constructor
  · intro e he
    have hc : sel.count e ≠ 0 := by
      rw [Ne, List.count_eq_zero]
      exact fun h => h he
    rw [foldl_pressBind, if_neg hc]
    exact ⟨_, rfl, rfl, rfl, rfl⟩
  · intro e he
    rw [foldl_pressBind, if_pos (List.count_eq_zero.mpr he)]

/-- C9: a key-down event that is neither consumed nor text-captured, and a
mouse-down event that is not consumed, press the raw state of the key or
button (created if untracked: presses + 1, held = true) and press exactly the
bind entries returned by the priority-tier selection over the index list of
that key or button, taken with the event's own modifiers for a key and with
the pressed-modifier accumulator for a mouse button; every bind state that is
not selected is unchanged. -/
theorem handleInput_down_spec (s : Input) :
    (∀ (K : Key) (mods : KeyMod), s.textInputActive = false →
      (∃ st2, (s.handleInput (InputEvent.keyDown K mods) false).1.keyStates K = some st2 ∧
        st2.presses = ((s.keyStates K).getD {}).presses + 1 ∧ st2.held = true ∧
        st2.releases = ((s.keyStates K).getD {}).releases) ∧
      (∀ k, k ≠ K →
        (s.handleInput (InputEvent.keyDown K mods) false).1.keyStates k = s.keyStates k) ∧
      (∀ e ∈ s.selected (InputVariant.key K) mods,
        ∃ st2, (s.handleInput (InputEvent.keyDown K mods) false).1.bindStates e = some st2 ∧
          st2.held = true ∧
          st2.presses = ((s.bindStates e).getD {}).presses +
            (s.selected (InputVariant.key K) mods).count e ∧
          st2.releases = ((s.bindStates e).getD {}).releases) ∧
      (∀ e, e ∉ s.selected (InputVariant.key K) mods →
        (s.handleInput (InputEvent.keyDown K mods) false).1.bindStates e = s.bindStates e)) ∧
    (∀ (B : MouseButton) (pos : Int × Int),
      (∃ st2, (s.handleInput (InputEvent.mouseButtonDown B pos) false).1.mouseStates B =
          some st2 ∧
        st2.presses = ((s.mouseStates B).getD {}).presses + 1 ∧ st2.held = true ∧
        st2.releases = ((s.mouseStates B).getD {}).releases ∧
        st2.pressPositions = ((s.mouseStates B).getD {}).pressPositions ++ [pos]) ∧
      (∀ b, b ≠ B →
        (s.handleInput (InputEvent.mouseButtonDown B pos) false).1.mouseStates b =
          s.mouseStates b) ∧
      (∀ e ∈ s.selected (InputVariant.mouse B) s.pressedMods,
        ∃ st2, (s.handleInput (InputEvent.mouseButtonDown B pos) false).1.bindStates e =
            some st2 ∧
          st2.held = true ∧
          st2.presses = ((s.bindStates e).getD {}).presses +
            (s.selected (InputVariant.mouse B) s.pressedMods).count e ∧
          st2.releases = ((s.bindStates e).getD {}).releases) ∧
      (∀ e, e ∉ s.selected (InputVariant.mouse B) s.pressedMods →
        (s.handleInput (InputEvent.mouseButtonDown B pos) false).1.bindStates e =
          s.bindStates e)) := by
  constructor
  · intro K mods htext
    rw [handleInput_keyDown_live s K mods htext]
    refine ⟨?_, ?_, ?_, ?_⟩
    · simp [HashMap.set, KeyInputState.press, InputState.press]
    · intro k hk
      simp [HashMap.set, hk]
    · exact (pressed_bindStates s.bindStates _).1
    · exact (pressed_bindStates s.bindStates _).2
  · intro B pos
    rw [handleInput_mouseDown_live s B pos]
    refine ⟨?_, ?_, ?_, ?_⟩
    · simp [HashMap.set, MouseInputState.press, InputState.press]
    · intro b hb
      simp [HashMap.set, hb]
    · exact (pressed_bindStates s.bindStates _).1
    · exact (pressed_bindStates s.bindStates _).2

/-! ## Rebinding -/

theorem rightPtr_isSome_of_leftPtr {L R : Type} [DecidableEq L] [DecidableEq R] (m : BiMap L R)
    (l : L) (r : R) (h : m.leftPtr r = some l) : (m.rightPtr l).isSome = true := by
  have hmem := leftPtr_mem m r l h
  unfold BiMap.rightPtr
  rw [Option.isSome_map']
  exact List.find?_isSome.mpr ⟨(l, r), hmem, by simp⟩

theorem getLeft_ok {L R : Type} [DecidableEq R] (m : BiMap L R) (r : R) (l : L)
    (h : m.getLeft r = .ok l) : m.leftPtr r = some l := by
  unfold BiMap.getLeft at h
  cases hp : m.leftPtr r with
  | none => rw [hp] at h; simp at h
  | some l2 =>
    rw [hp] at h
    simp only [Except.ok.injEq] at h
    rw [h]

theorem bindFromJson_known (T : NameTables) (json : Json) (b : Bind)
    (h : bindFromJson T json = .ok b) : BindKnown T b := by
  unfold bindFromJson at h
  split at h
  · simp only [Except.ok.injEq] at h
    rw [← h]; trivial
  · cases h1 : json.getString "type" with
    | error e => simp [h1, bind, Except.bind] at h
    | ok ty =>
      cases h2 : json.get "value" Json.null with
      | error e => simp [h1, h2, bind, Except.bind] at h
      | ok value =>
        simp only [h1, h2, bind, Except.bind] at h
        split at h
        · cases h3 : value.toString with
          | error e => simp [h3] at h
          | ok name =>
            cases h4 : T.keyNames.getLeft name with
            | error e => simp [h3, h4] at h
            | ok key =>
              cases h5 : json.getArray "mods" [] with
              | error e => simp [h3, h4, h5] at h
              | ok jMods =>
                cases h6 : keyModsFromJson (Json.arr jMods) 0 with
                | error e => simp [h3, h4, h5, h6] at h
                | ok res =>
                  simp only [h3, h4, h5, h6, pure, Except.pure, Except.ok.injEq] at h
                  rw [← h]
                  exact rightPtr_isSome_of_leftPtr _ _ _ (getLeft_ok _ _ _ h4)
        · split at h
          · cases h3 : value.toString with
            | error e => simp [h3] at h
            | ok name =>
              cases h4 : T.mouseButtonNames.getLeft name with
              | error e => simp [h3, h4] at h
              | ok key =>
                cases h5 : json.getArray "mods" [] with
                | error e => simp [h3, h4, h5] at h
                | ok jMods =>
                  cases h6 : keyModsFromJson (Json.arr jMods) 0 with
                  | error e => simp [h3, h4, h5, h6] at h
                  | ok res =>
                    simp only [h3, h4, h5, h6, pure, Except.pure, Except.ok.injEq] at h
                    rw [← h]
                    exact rightPtr_isSome_of_leftPtr _ _ _ (getLeft_ok _ _ _ h4)
          · split at h
            · cases h3 : value.toString with
              | error e => simp [h3] at h
              | ok name =>
                cases h4 : T.controllerButtonNames.getLeft name with
                | error e => simp [h3, h4] at h
                | ok key =>
                  cases h5 : json.getUInt "controller" 0 with
                  | error e => simp [h3, h4, h5] at h
                  | ok c =>
                    simp only [h3, h4, h5, pure, Except.pure, Except.ok.injEq] at h
                    rw [← h]
                    exact rightPtr_isSome_of_leftPtr _ _ _ (getLeft_ok _ _ _ h4)
            · simp only [pure, Except.pure, Except.ok.injEq] at h
              rw [← h]; trivial

theorem bindToJson_ok_of_known (T : NameTables) (b : Bind) (h : BindKnown T b) :
    ∃ j, bindToJson T b = .ok j := by
  cases b with
  | empty => exact ⟨_, rfl⟩
  | key kb =>
    obtain ⟨name, hn⟩ := Option.isSome_iff_exists.mp h
    simp only [bindToJson, BiMap.getRight, hn, bind, Except.bind]
    split <;> exact ⟨_, rfl⟩
  | mouse mb =>
    obtain ⟨name, hn⟩ := Option.isSome_iff_exists.mp h
    simp only [bindToJson, BiMap.getRight, hn, bind, Except.bind]
    split <;> exact ⟨_, rfl⟩
  | controller cb =>
    obtain ⟨name, hn⟩ := Option.isSome_iff_exists.mp h
    simp only [bindToJson, BiMap.getRight, hn, bind, Except.bind]
    exact ⟨_, rfl⟩

theorem bindsToJson_ok (T : NameTables) :
    ∀ binds : List Bind, (∀ b ∈ binds, BindKnown T b) → ∃ js, bindsToJson T binds = .ok js := by
  intro binds
  induction binds with
  | nil => intro _; exact ⟨[], rfl⟩
  | cons b rest ih =>
    intro h
    obtain ⟨j, hj⟩ := bindToJson_ok_of_known T b (h b (List.mem_cons_self _ _))
    obtain ⟨js, hjs⟩ := ih (fun x hx => h x (List.mem_cons_of_mem _ hx))
    exact ⟨j :: js, by simp [bindsToJson, hj, hjs, bind, Except.bind, pure, Except.pure]⟩

theorem bindsFromJson_of_forall₂ (T : NameTables) (records : List Json) (binds : List Bind)
    (h : List.Forall₂ (fun r b => bindFromJson T r = .ok b) records binds) :
    bindsFromJson T records = .ok binds ∧ ∀ b ∈ binds, BindKnown T b := by
  induction h with
  | nil => exact ⟨rfl, by simp⟩
  | cons hrb _ ih =>
    refine ⟨by simp [bindsFromJson, hrb, ih.1, bind, Except.bind, pure, Except.pure], ?_⟩
    intro x hx
    rcases List.mem_cons.mp hx with hx | hx
    · rw [hx]; exact bindFromJson_known T _ _ hrb
    · exact ih.2 x hx


theorem mem_emplaceBack (m : BindMappings) (input v : InputVariant) (ref r : BindRef) :
    r ∈ ((m.emplaceBack input ref) v).getD [] ↔
      r ∈ (m v).getD [] ∨ (v = input ∧ r = ref) := by
  unfold BindMappings.emplaceBack HashMap.set
  by_cases hv : v = input
  · subst hv
    simp
  · simp [hv]

theorem mem_insertBinds (entry : EntryId) (v : InputVariant) (r : BindRef) :
    ∀ (binds : List Bind) (m : BindMappings),
      r ∈ ((insertBinds entry binds m) v).getD [] ↔
        r ∈ (m v).getD [] ∨ ∃ b ∈ binds, bindRefOf entry b = some (v, r) := by
  intro binds
  induction binds with
  | nil => intro m; simp [insertBinds]
  | cons b rest ih =>
    intro m
    unfold insertBinds at ih ⊢
    rw [List.foldl_cons, ih]
    cases hb : bindRefOf entry b with
    | none =>
      simp [hb]
    | some p =>
      obtain ⟨input, ref⟩ := p
      simp only [mem_emplaceBack, hb, List.mem_cons, exists_eq_or_imp, Option.some.injEq,
        Prod.mk.injEq]
      constructor
      · rintro ((h | ⟨h1, h2⟩) | h)
        · exact Or.inl h
        · exact Or.inr (Or.inl ⟨h1.symm, h2.symm⟩)
        · exact Or.inr (Or.inr h)
      · rintro (h | ⟨h1, h2⟩ | h)
        · exact Or.inl (Or.inl h)
        · exact Or.inl (Or.inr ⟨h1.symm, h2.symm⟩)
        · exact Or.inr h

theorem mem_insertEntries (categoryId : String) (v : InputVariant) (r : BindRef) :
    ∀ (entries : List (String × BindEntry)) (m : BindMappings),
      r ∈ ((insertEntries categoryId entries m) v).getD [] ↔
        r ∈ (m v).getD [] ∨
          ∃ p ∈ entries, ∃ b ∈ p.2.customBinds, bindRefOf (categoryId, p.1) b = some (v, r) := by
  intro entries
  induction entries with
  | nil => intro m; simp [insertEntries]
  | cons p rest ih =>
    intro m
    unfold insertEntries at ih ⊢
    rw [List.foldl_cons, ih, mem_insertBinds]
    simp only [List.mem_cons, exists_eq_or_imp]
    exact or_assoc

theorem mem_insertCategories (v : InputVariant) (r : BindRef) :
    ∀ (cats : List (String × BindCategory)) (m : BindMappings),
      r ∈ ((insertCategories cats m) v).getD [] ↔
        r ∈ (m v).getD [] ∨
          ∃ c ∈ cats, ∃ p ∈ c.2.entries, ∃ b ∈ p.2.customBinds,
            bindRefOf (c.1, p.1) b = some (v, r) := by
  intro cats
  induction cats with
  | nil => intro m; simp [insertCategories]
  | cons c rest ih =>
    intro m
    unfold insertCategories at ih ⊢
    rw [List.foldl_cons, ih, mem_insertEntries]
    simp only [List.mem_cons, exists_eq_or_imp]
    exact or_assoc

theorem mem_buildIndex (cats : List (String × BindCategory)) (v : InputVariant) (r : BindRef) :
    r ∈ ((buildIndex cats) v).getD [] ↔
      ∃ c ∈ cats, ∃ p ∈ c.2.entries, ∃ b ∈ p.2.customBinds,
        bindRefOf (c.1, p.1) b = some (v, r) := by
  have h := mem_insertCategories v r cats HashMap.empty
  have he : (HashMap.empty : BindMappings) v = none := rfl
  simp only [he, Option.getD_none, List.not_mem_nil, false_or] at h
  rw [← h]
  unfold buildIndex
  cases hm : insertCategories cats HashMap.empty v with
  | none => simp
  | some l =>
    simp only [Option.map_some', Option.getD_some, sortByPriority]
    exact (List.perm_insertionSort _ l).mem_iff

theorem bindRefOf_entry (entry : EntryId) (b : Bind) (v : InputVariant) (r : BindRef)
    (h : bindRefOf entry b = some (v, r)) : r.entry = entry := by
  cases b <;> simp [bindRefOf] at h <;> rw [← h.2]

theorem mapPtr_mem {σ : Type} (key : String) (v : σ) :
    ∀ l : List (String × σ), mapPtr key l = some v → (key, v) ∈ l := by
  intro l
  induction l with
  | nil => intro h; simp [mapPtr] at h
  | cons p rest ih =>
    obtain ⟨k, w⟩ := p
    intro h
    by_cases hk : k = key
    · simp only [mapPtr, hk, if_true, Option.some.injEq] at h
      simp [hk, h]
    · simp only [mapPtr, hk, if_false] at h
      exact List.mem_cons_of_mem _ (ih h)

theorem mapPtr_mapModify {σ : Type} (key : String) (f : σ → σ) (k : String) :
    ∀ l : List (String × σ),
      mapPtr k (mapModify key f l) = if k = key then (mapPtr k l).map f else mapPtr k l := by
  intro l
  induction l with
  | nil => simp [mapPtr, mapModify]
  | cons p rest ih =>
    obtain ⟨k2, w⟩ := p
    by_cases h2 : k2 = key
    · by_cases hk : k = key
      · simp [mapModify, mapPtr, h2, hk]
      · have : ¬ key = k := fun h => hk h.symm
        simp [mapModify, mapPtr, h2, hk, this]
    · by_cases hk : k = key
      · subst hk
        simp only [mapModify, h2, if_false, mapPtr, ih, if_true]
      · simp only [mapModify, h2, if_false, mapPtr, ih, hk]

theorem mem_mapModify {σ : Type} (key : String) (f : σ → σ) (k : String) (w : σ) :
    ∀ l : List (String × σ), (l.map Prod.fst).Nodup → (k, w) ∈ mapModify key f l →
      (k ≠ key ∧ (k, w) ∈ l) ∨ (k = key ∧ ∃ v, (key, v) ∈ l ∧ w = f v) := by
  intro l
  induction l with
  | nil => intro _ h; simp [mapModify] at h
  | cons p rest ih =>
    obtain ⟨k2, v2⟩ := p
    intro hnd h
    rw [List.map_cons, List.nodup_cons] at hnd
    by_cases h2 : k2 = key
    · simp only [mapModify, h2, if_true, List.mem_cons, Prod.mk.injEq] at h
      rcases h with ⟨hk, hw⟩ | h
      · exact Or.inr ⟨hk, v2, by simp [h2], hw⟩
      · have hne : k ≠ key := by
          intro hk
          apply hnd.1
          rw [h2, ← hk]
          exact List.mem_map.mpr ⟨(k, w), h, rfl⟩
        exact Or.inl ⟨hne, List.mem_cons_of_mem _ h⟩
    · simp only [mapModify, h2, if_false, List.mem_cons, Prod.mk.injEq] at h
      rcases h with ⟨hk, hw⟩ | h
      · exact Or.inl ⟨by rw [hk]; exact h2, by simp [hk, hw]⟩
      · rcases ih hnd.2 h with ⟨h3, h4⟩ | ⟨h3, v, h4, h5⟩
        · exact Or.inl ⟨h3, List.mem_cons_of_mem _ h4⟩
        · exact Or.inr ⟨h3, v, List.mem_cons_of_mem _ h4, h5⟩


theorem setBinds_ok (T : NameTables) (s : Input) (categoryId bindId : String)
    (records : List Json) (binds : List Bind)
    (hentry : (bindEntryPtr s.bindCategories categoryId bindId).isSome = true)
    (hdec : List.Forall₂ (fun r b => bindFromJson T r = .ok b) records binds) :
    ∃ js, s.setBinds T categoryId bindId (Json.arr records) =
      .ok (Input.rebuildMappings
        { s with
          bindCategories := setCustomBinds s.bindCategories categoryId bindId binds
          userBindings := storeBinds s.userBindings categoryId bindId js }) := by
  obtain ⟨entry, he⟩ := Option.isSome_iff_exists.mp hentry
  obtain ⟨hbinds, hknown⟩ := bindsFromJson_of_forall₂ T records binds hdec
  obtain ⟨js, hjs⟩ := bindsToJson_ok T binds hknown
  refine ⟨js, ?_⟩
  simp [Input.setBinds, bindEntry, he, Json.toArray, hbinds, Input.updated, hjs, bind,
    Except.bind, pure, Except.pure]

theorem bindEntryPtr_setCustomBinds (cats : List (String × BindCategory))
    (categoryId bindId : String) (binds : List Bind) (entry : BindEntry)
    (he : bindEntryPtr cats categoryId bindId = some entry) :
    bindEntryPtr (setCustomBinds cats categoryId bindId binds) categoryId bindId =
      some { entry with customBinds := binds } := by
  unfold bindEntryPtr at he ⊢
  unfold setCustomBinds
  rw [mapPtr_mapModify, if_pos rfl]
  cases hc : mapPtr categoryId cats with
  | none => rw [hc] at he; simp at he
  | some category =>
    rw [hc] at he
    simp only [Option.map_some', mapPtr_mapModify, if_true] at he ⊢
    rw [he]
    rfl

theorem mem_setCustomBinds (cats : List (String × BindCategory))
    (categoryId bindId : String) (binds : List Bind) (hvalid : RegistryValid cats)
    (c : String × BindCategory) (p : String × BindEntry)
    (hc : c ∈ setCustomBinds cats categoryId bindId binds) (hp : p ∈ c.2.entries)
    (hid : (c.1, p.1) = (categoryId, bindId)) : p.2.customBinds = binds := by
  obtain ⟨c1, c2⟩ := c
  obtain ⟨p1, p2⟩ := p
  simp only [Prod.mk.injEq] at hid
  obtain ⟨hc1, hp1⟩ := hid
  subst hc1 hp1
  unfold setCustomBinds at hc
  rcases mem_mapModify _ _ _ _ cats hvalid.1 hc with ⟨hne, _⟩ | ⟨_, category, hmem, hcat⟩
  · exact absurd rfl hne
  · simp only at hp
    rw [hcat] at hp
    simp only at hp
    rcases mem_mapModify _ _ _ _ category.entries (hvalid.2 _ hmem) hp with
      ⟨hne, _⟩ | ⟨_, e, _, he⟩
    · exact absurd rfl hne
    · simp only [he]

/-- C10: for an existing entry `(cat, id)` and a list of records that all
decode, `setBinds` succeeds and, with no reload, the entry's custom binds are
the decodings of the records in order and the mapping index is the index
rebuilt from the updated registry; hence the `BindRef`s of the entry in the
index are exactly those of the new binds, and the selection of the next down
event runs over the rebuilt index. -/
theorem setBinds_spec (T : NameTables) (s : Input) (categoryId bindId : String)
    (records : List Json) (binds : List Bind)
    (hvalid : RegistryValid s.bindCategories)
    (hentry : (bindEntryPtr s.bindCategories categoryId bindId).isSome = true)
    (hdec : List.Forall₂ (fun r b => bindFromJson T r = .ok b) records binds) :
    ∃ s2, s.setBinds T categoryId bindId (Json.arr records) = .ok s2 ∧
      (∃ e, bindEntryPtr s2.bindCategories categoryId bindId = some e ∧
        e.customBinds = binds) ∧
      s2.bindMappings = buildIndex s2.bindCategories ∧
      (∀ v ref, ref.entry = (categoryId, bindId) →
        (ref ∈ (s2.bindMappings v).getD [] ↔
          ∃ b ∈ binds, bindRefOf (categoryId, bindId) b = some (v, ref))) ∧
      (∀ v mods, s2.selected v mods =
        filterBindEntries ((buildIndex s2.bindCategories v).getD []) mods) := by
  obtain ⟨js, hjs⟩ := setBinds_ok T s categoryId bindId records binds hentry hdec
  obtain ⟨entry, he⟩ := Option.isSome_iff_exists.mp hentry
  have hptr := bindEntryPtr_setCustomBinds s.bindCategories categoryId bindId binds entry he
  refine ⟨_, hjs, ⟨_, hptr, rfl⟩, rfl, ?_, fun _ _ => rfl⟩
  intro v ref href
  show ref ∈ ((buildIndex (setCustomBinds s.bindCategories categoryId bindId binds)) v).getD [] ↔ _
  rw [mem_buildIndex]
  constructor
  · rintro ⟨c, hc, p, hp, b, hb, hbr⟩
    have hid : (c.1, p.1) = (categoryId, bindId) := by
      rw [← bindRefOf_entry _ _ _ _ hbr, href]
    have hcb := mem_setCustomBinds s.bindCategories categoryId bindId binds hvalid c p hc hp hid
    rw [hid] at hbr
    exact ⟨b, hcb ▸ hb, hbr⟩
  · rintro ⟨b, hb, hbr⟩
    unfold bindEntryPtr at hptr
    cases hc : mapPtr categoryId (setCustomBinds s.bindCategories categoryId bindId binds) with
    | none => rw [hc] at hptr; simp at hptr
    | some category =>
      rw [hc] at hptr
      simp only at hptr
      exact ⟨(categoryId, category), mapPtr_mem _ _ _ hc,
        (bindId, { entry with customBinds := binds }), mapPtr_mem _ _ _ hptr, b, hb, hbr⟩

/-- Witness of C10: rebinding the entry `cat.jump` of the sample registry to
the sample key record. -/
theorem setBinds_spec_witness :
    ∃ s2, ({ bindCategories := sampleRegistry } : Input).setBinds sampleTables "cat" "jump"
        (Json.arr [Json.obj sampleKeyRecord]) = .ok s2 ∧
      (∃ e, bindEntryPtr s2.bindCategories "cat" "jump" = some e ∧
        e.customBinds =
          [Bind.key { key := Key.other 0, mods := KeyMod.LShift ||| KeyMod.LCtrl,
                      priority := 2 }]) ∧
      s2.bindMappings = buildIndex s2.bindCategories := by
  obtain ⟨s2, h1, h2, h3, _⟩ := setBinds_spec sampleTables
    ({ bindCategories := sampleRegistry } : Input) "cat" "jump"
    [Json.obj sampleKeyRecord]
    [Bind.key { key := Key.other 0, mods := KeyMod.LShift ||| KeyMod.LCtrl, priority := 2 }]
    ⟨by decide, by decide⟩ rfl (List.Forall₂.cons rfl List.Forall₂.nil)
  exact ⟨s2, h1, h2, h3⟩

/-! ## Registry invariant -/

theorem mapModify_append_of_none {σ : Type} (key : String) (f : σ → σ) (v : σ) :
    ∀ l : List (String × σ), mapPtr key l = none →
      mapModify key f (l ++ [(key, v)]) = l ++ [(key, f v)] := by
  intro l
  induction l with
  | nil => intro _; simp [mapModify]
  | cons p rest ih =>
    obtain ⟨k, w⟩ := p
    intro h
    by_cases hk : k = key
    · simp [mapPtr, hk] at h
    · simp only [mapPtr, hk, if_false] at h
      simp [mapModify, hk, ih h]

theorem mem_mapModify_of_mapPtr {σ : Type} (key : String) (f : σ → σ) (v0 : σ) (q : String × σ) :
    ∀ l : List (String × σ), mapPtr key l = some v0 → q ∈ mapModify key f l →
      q ∈ l ∨ q = (key, f v0) := by
  intro l
  induction l with
  | nil => intro h; simp [mapPtr] at h
  | cons p rest ih =>
    obtain ⟨k, w⟩ := p
    intro h hq
    by_cases hk : k = key
    · simp only [mapPtr, hk, if_true, Option.some.injEq] at h
      simp only [mapModify, hk, if_true, List.mem_cons] at hq
      rcases hq with hq | hq
      · right; rw [hq, h]
      · left; exact List.mem_cons_of_mem _ hq
    · simp only [mapPtr, hk, if_false] at h
      simp only [mapModify, hk, if_false, List.mem_cons] at hq
      rcases hq with hq | hq
      · left; rw [hq]; exact List.mem_cons_self _ _
      · rcases ih h hq with h2 | h2
        · left; exact List.mem_cons_of_mem _ h2
        · right; exact h2

theorem mapModify_of_none {σ : Type} (key : String) (f : σ → σ) :
    ∀ l : List (String × σ), mapPtr key l = none → mapModify key f l = l := by
  intro l
  induction l with
  | nil => intro _; rfl
  | cons p rest ih =>
    obtain ⟨k, w⟩ := p
    intro h
    by_cases hk : k = key
    · simp [mapPtr, hk] at h
    · simp only [mapPtr, hk, if_false] at h
      simp [mapModify, hk, ih h]

theorem registryInv_setCustomBinds (cats : List (String × BindCategory))
    (categoryId bindId : String) (binds : List Bind) (entry : BindEntry)
    (he : bindEntryPtr cats categoryId bindId = some entry)
    (hbinds : binds = [] → entry.defaultBinds = [])
    (hinv : RegistryInv cats) :
    RegistryInv (setCustomBinds cats categoryId bindId binds) := by
  unfold bindEntryPtr at he
  cases hc : mapPtr categoryId cats with
  | none => rw [hc] at he; simp at he
  | some category =>
    rw [hc] at he
    simp only at he
    intro c hcm p hp hcb
    unfold setCustomBinds at hcm
    rcases mem_mapModify_of_mapPtr _ _ category c cats hc hcm with h | h
    · exact hinv c h p hp hcb
    · rw [h] at hp
      simp only at hp
      rcases mem_mapModify_of_mapPtr _ _ entry p category.entries he hp with h2 | h2
      · exact hinv (categoryId, category) (mapPtr_mem _ _ _ hc) p h2 hcb
      · rw [h2] at hcb ⊢
        simp only at hcb ⊢
        exact hbinds hcb

theorem mapPtr_append_of_none {σ : Type} (key : String) (v : σ) :
    ∀ l : List (String × σ), mapPtr key l = none → mapPtr key (l ++ [(key, v)]) = some v := by
  intro l
  induction l with
  | nil => intro _; simp [mapPtr]
  | cons p rest ih =>
    obtain ⟨k, w⟩ := p
    intro h
    by_cases hk : k = key
    · simp [mapPtr, hk] at h
    · simp only [mapPtr, hk, if_false] at h
      simp [mapPtr, hk, ih h]

theorem loadEntry_shape (T : NameTables) (categoryId : String) (userBindings : Json)
    (bindId : String) (bindConfig : Json) (entries result : List (String × BindEntry))
    (h : loadEntry T categoryId userBindings bindId bindConfig entries = .ok result) :
    (bindConfig.isObject = false ∧ result = entries) ∨
    (bindConfig.isObject = true ∧
      ∃ entries1 entry jUser loaded,
        ((mapPtr bindId entries = some entry ∧ entries1 = entries) ∨
          (mapPtr bindId entries = none ∧
            BindEntry.construct T bindId bindConfig categoryId = .ok entry ∧
            entries1 = entries ++ [(bindId, entry)])) ∧
        userRecords userBindings categoryId bindId = .ok jUser ∧
        loadBinds T jUser entry.customBinds = .ok loaded ∧
        result = mapModify bindId
          (fun e => { e with
            customBinds := if loaded.isEmpty then entry.defaultBinds else loaded }) entries1) := by
  unfold loadEntry at h
  cases hobj : bindConfig.isObject with
  | false =>
    left
    simp only [hobj, Bool.not_false, if_true, Except.ok.injEq] at h
    exact ⟨rfl, h.symm⟩
  | true =>
    right
    refine ⟨rfl, ?_⟩
    simp only [hobj, Bool.not_true, Bool.false_eq_true, if_false] at h
    cases hm : mapPtr bindId entries with
    | some existing =>
      simp only [hm, bind, Except.bind, pure, Except.pure] at h
      cases hq : userRecords userBindings categoryId bindId with
      | error e => simp [hq] at h
      | ok jUser =>
        cases hl : loadBinds T jUser existing.customBinds with
        | error e => simp [hq, hl] at h
        | ok loaded =>
          simp only [hq, hl, Except.ok.injEq] at h
          exact ⟨entries, existing, jUser, loaded, Or.inl ⟨rfl, rfl⟩, rfl, hl, h.symm⟩
    | none =>
      cases hc : BindEntry.construct T bindId bindConfig categoryId with
      | error e2 => simp [hm, hc, bind, Except.bind] at h
      | ok created =>
        simp only [hm, hc, bind, Except.bind, pure, Except.pure] at h
        cases hq : userRecords userBindings categoryId bindId with
        | error e => simp [hq] at h
        | ok jUser =>
          cases hl : loadBinds T jUser created.customBinds with
          | error e => simp [hq, hl] at h
          | ok loaded =>
            simp only [hq, hl, Except.ok.injEq] at h
            exact ⟨entries ++ [(bindId, created)], created, jUser, loaded,
              Or.inr ⟨rfl, rfl, rfl⟩, rfl, hl, h.symm⟩

theorem loadEntry_inv (T : NameTables) (categoryId : String) (userBindings : Json)
    (bindId : String) (bindConfig : Json) (entries result : List (String × BindEntry))
    (hinv : ∀ p ∈ entries, p.2.customBinds = [] → p.2.defaultBinds = [])
    (h : loadEntry T categoryId userBindings bindId bindConfig entries = .ok result) :
    ∀ p ∈ result, p.2.customBinds = [] → p.2.defaultBinds = [] := by
  rcases loadEntry_shape T categoryId userBindings bindId bindConfig entries result h with
    ⟨_, hres⟩ | ⟨_, entries1, entry, jUser, loaded, hcase, _, _, hres⟩
  · rw [hres]; exact hinv
  · have hnew : ∀ e : BindEntry, e.defaultBinds = entry.defaultBinds →
        ({ e with customBinds := if loaded.isEmpty then entry.defaultBinds else loaded } :
          BindEntry).customBinds = [] →
        e.defaultBinds = [] := by
      intro e hd hc
      simp only at hc
      cases hl : loaded with
      | nil => rw [hl] at hc; simp at hc; rw [hd]; exact hc
      | cons a l => rw [hl] at hc; simp at hc
    intro p hp hcb
    rcases hcase with ⟨hm, he1⟩ | ⟨hm, _, he1⟩
    · rw [hres, he1] at hp
      rcases mem_mapModify_of_mapPtr _ _ entry p entries hm hp with h2 | h2
      · exact hinv p h2 hcb
      · rw [h2] at hcb ⊢
        exact hnew entry rfl hcb
    · rw [hres, he1, mapModify_append_of_none _ _ _ _ hm] at hp
      rcases List.mem_append.mp hp with h2 | h2
      · exact hinv p h2 hcb
      · rw [List.mem_singleton] at h2
        rw [h2] at hcb ⊢
        exact hnew entry rfl hcb

theorem loadEntries_inv (T : NameTables) (categoryId : String) (userBindings : Json) :
    ∀ (pairs : List (String × Json)) (entries result : List (String × BindEntry)),
      (∀ p ∈ entries, p.2.customBinds = [] → p.2.defaultBinds = []) →
      loadEntries T categoryId userBindings pairs entries = .ok result →
      ∀ p ∈ result, p.2.customBinds = [] → p.2.defaultBinds = [] := by
  intro pairs
  induction pairs with
  | nil =>
    intro entries result hinv h
    simp only [loadEntries, Except.ok.injEq] at h
    rw [← h]; exact hinv
  | cons pair rest ih =>
    obtain ⟨bindId, bindConfig⟩ := pair
    intro entries result hinv h
    simp only [loadEntries, bind, Except.bind] at h
    cases hs : loadEntry T categoryId userBindings bindId bindConfig entries with
    | error e => simp [hs] at h
    | ok entries2 =>
      simp only [hs] at h
      exact ih entries2 result (loadEntry_inv T _ _ _ _ _ _ hinv hs) h

theorem construct_category_inv (T : NameTables) (categoryId : String) (config userBindings : Json)
    (category : BindCategory)
    (h : BindCategory.construct T categoryId config userBindings = .ok category) :
    ∀ p ∈ category.entries, p.2.customBinds = [] → p.2.defaultBinds = [] := by
  simp only [BindCategory.construct, bind, Except.bind, pure, Except.pure] at h
  cases h1 : config.getStringOr "name" categoryId with
  | error e => simp [h1] at h
  | ok name =>
    cases h2 : config.getObject "binds" [] with
    | error e => simp [h1, h2] at h
    | ok binds =>
      cases h3 : loadEntries T categoryId userBindings binds [] with
      | error e => simp [h1, h2, h3] at h
      | ok entries =>
        simp only [h1, h2, h3, Except.ok.injEq] at h
        rw [← h]
        exact loadEntries_inv T categoryId userBindings binds [] entries (by simp) h3

theorem loadCategories_inv (T : NameTables) (userBindings : Json) :
    ∀ (pairs : List (String × Json)) (cats result : List (String × BindCategory)),
      RegistryInv cats → loadCategories T userBindings pairs cats = .ok result →
      RegistryInv result := by
  intro pairs
  induction pairs with
  | nil =>
    intro cats result hinv h
    simp only [loadCategories, Except.ok.injEq] at h
    rw [← h]; exact hinv
  | cons pair rest ih =>
    obtain ⟨categoryId, categoryConfig⟩ := pair
    intro cats result hinv h
    unfold loadCategories at h
    split at h
    · exact ih cats result hinv h
    · cases hm : mapPtr categoryId cats with
      | some existing =>
        simp only [hm] at h
        exact ih cats result hinv h
      | none =>
        simp only [hm, bind, Except.bind] at h
        cases hc : BindCategory.construct T categoryId categoryConfig userBindings with
        | error e => simp [hc] at h
        | ok category =>
          simp only [hc] at h
          refine ih _ result ?_ h
          intro c hcm
          rcases List.mem_append.mp hcm with h2 | h2
          · exact hinv c h2
          · rw [List.mem_singleton] at h2
            rw [h2]
            exact construct_category_inv T categoryId categoryConfig userBindings category hc

theorem loadDocuments_inv (T : NameTables) (userBindings : Json) :
    ∀ (documents : List Json) (cats result : List (String × BindCategory)),
      RegistryInv cats → loadDocuments T userBindings documents cats = .ok result →
      RegistryInv result := by
  intro documents
  induction documents with
  | nil =>
    intro cats result hinv h
    simp only [loadDocuments, Except.ok.injEq] at h
    rw [← h]; exact hinv
  | cons document rest ih =>
    intro cats result hinv h
    simp only [loadDocuments, bind, Except.bind] at h
    cases h1 : document.toObject with
    | error e => simp [h1] at h
    | ok pairs =>
      cases h2 : loadCategories T userBindings pairs cats with
      | error e => simp [h1, h2] at h
      | ok cats2 =>
        simp only [h1, h2] at h
        exact ih cats2 result (loadCategories_inv T userBindings pairs cats cats2 hinv h2) h


theorem bindsFromJson_length (T : NameTables) :
    ∀ (records : List Json) (binds : List Bind),
      bindsFromJson T records = .ok binds → binds.length = records.length := by
  intro records
  induction records with
  | nil =>
    intro binds h
    simp only [bindsFromJson, Except.ok.injEq] at h
    subst h
    rfl
  | cons r rest ih =>
    intro binds h
    simp only [bindsFromJson, bind, Except.bind, pure, Except.pure] at h
    cases h1 : bindFromJson T r with
    | error e => simp [h1] at h
    | ok b =>
      cases h2 : bindsFromJson T rest with
      | error e => simp [h1, h2] at h
      | ok bs =>
        simp only [h1, h2, Except.ok.injEq] at h
        rw [← h, List.length_cons, List.length_cons, ih bs h2]

theorem setBinds_inv (T : NameTables) (s s2 : Input) (categoryId bindId : String) (jBinds : Json)
    (h : s.setBinds T categoryId bindId jBinds = .ok s2) :
    ∃ entry records binds, bindEntryPtr s.bindCategories categoryId bindId = some entry ∧
      jBinds = Json.arr records ∧ bindsFromJson T records = .ok binds ∧
      s2.bindCategories = setCustomBinds s.bindCategories categoryId bindId binds ∧
      s2.bindMappings = buildIndex s2.bindCategories := by
  simp only [Input.setBinds, bind, Except.bind] at h
  cases h1 : bindEntryPtr s.bindCategories categoryId bindId with
  | none => simp [bindEntry, h1] at h
  | some entry =>
    cases jBinds with
    | arr records =>
      cases h3 : bindsFromJson T records with
      | error e => simp [bindEntry, h1, Json.toArray, h3] at h
      | ok binds =>
        cases h4 : bindsToJson T binds with
        | error e =>
          simp [bindEntry, h1, Json.toArray, h3, Input.updated, h4, bind, Except.bind] at h
        | ok js =>
          simp only [bindEntry, h1, Json.toArray, h3, Input.updated, h4, bind, Except.bind, pure,
            Except.pure, Except.ok.injEq] at h
          rw [← h]
          exact ⟨entry, records, binds, rfl, rfl, h3, rfl, rfl⟩
    | null => simp [bindEntry, h1, Json.toArray] at h
    | bool b => simp [bindEntry, h1, Json.toArray] at h
    | int n => simp [bindEntry, h1, Json.toArray] at h
    | str v => simp [bindEntry, h1, Json.toArray] at h
    | obj kvs => simp [bindEntry, h1, Json.toArray] at h

theorem resetBinds_inv (T : NameTables) (s s2 : Input) (categoryId bindId : String)
    (h : s.resetBinds T categoryId bindId = .ok s2) :
    ∃ entry, bindEntryPtr s.bindCategories categoryId bindId = some entry ∧
      s2.bindCategories = setCustomBinds s.bindCategories categoryId bindId entry.defaultBinds ∧
      s2.bindMappings = buildIndex s2.bindCategories := by
  simp only [Input.resetBinds, bind, Except.bind] at h
  cases h1 : bindEntryPtr s.bindCategories categoryId bindId with
  | none => simp [bindEntry, h1] at h
  | some entry =>
    cases h4 : bindsToJson T entry.defaultBinds with
    | error e =>
      simp [bindEntry, h1, Input.updated, h4, bind, Except.bind] at h
    | ok js =>
      simp only [bindEntry, h1, Input.updated, h4, bind, Except.bind, pure,
        Except.pure, Except.ok.injEq] at h
      rw [← h]
      exact ⟨entry, rfl, rfl, rfl⟩

theorem reload_inv (T : NameTables) (s s2 : Input) (documents : List Json)
    (h : s.reload T documents = .ok s2) :
    ∃ cats, loadDocuments T s.userBindings documents [] = .ok cats ∧ s2.bindCategories = cats ∧
      s2.bindMappings = buildIndex cats := by
  simp only [Input.reload, bind, Except.bind, pure, Except.pure] at h
  cases h1 : loadDocuments T s.userBindings documents [] with
  | error e => simp [h1] at h
  | ok cats =>
    simp only [h1, Except.ok.injEq] at h
    rw [← h]
    exact ⟨cats, rfl, rfl, rfl⟩

/-- C11 as stated fails: on an entry with a default bind, `setBinds` with an
empty list succeeds and leaves the custom binds empty although the default
binds are not. -/
theorem setBinds_empty_list_counterexample :
    RegistryInv sampleRegistryWithDefault ∧
      ∃ s2 e, ({ bindCategories := sampleRegistryWithDefault } : Input).setBinds sampleTables
          "cat" "jump" (Json.arr []) = .ok s2 ∧
        bindEntryPtr s2.bindCategories "cat" "jump" = some e ∧
        e.customBinds = [] ∧ e.defaultBinds ≠ [] := by
  constructor
  · intro c hc p hp hcb
    simp only [sampleRegistryWithDefault, List.mem_singleton] at hc
    rw [hc] at hp
    simp only [List.mem_singleton] at hp
    rw [hp] at hcb
    simp at hcb
  · obtain ⟨js, hjs⟩ := setBinds_ok sampleTables
      ({ bindCategories := sampleRegistryWithDefault } : Input) "cat" "jump" [] [] rfl
      List.Forall₂.nil
    exact ⟨_, _, hjs, rfl, rfl, by simp⟩

/-- C11 (amended): after loading, and after every successful `resetBinds`
call and every successful `setBinds` call with a non-empty list on a registry
that had the property, every entry's custom binds are empty only if its
default binds are empty; `setBinds` with an empty list leaves the entry's
custom binds empty whatever its default binds are. -/
theorem registry_invariant_spec (T : NameTables) (s s2 : Input) (documents : List Json)
    (hload : s.reload T documents = .ok s2) :
    RegistryInv s2.bindCategories ∧
    (∀ (t t2 : Input) (categoryId bindId : String), RegistryInv t.bindCategories →
      t.resetBinds T categoryId bindId = .ok t2 → RegistryInv t2.bindCategories) ∧
    (∀ (t t2 : Input) (categoryId bindId : String) (records : List Json),
      RegistryInv t.bindCategories → records ≠ [] →
      t.setBinds T categoryId bindId (Json.arr records) = .ok t2 →
      RegistryInv t2.bindCategories) ∧
    (∀ (t t2 : Input) (categoryId bindId : String),
      t.setBinds T categoryId bindId (Json.arr []) = .ok t2 →
      ∃ e, bindEntryPtr t2.bindCategories categoryId bindId = some e ∧ e.customBinds = []) := by
  refine ⟨?_, ?_, ?_, ?_⟩
  · obtain ⟨cats, h1, h2, _⟩ := reload_inv T s s2 documents hload
    rw [h2]
    exact loadDocuments_inv T s.userBindings documents [] cats (by intro c hc; simp at hc) h1
  · intro t t2 categoryId bindId hinv h
    obtain ⟨entry, he, hc, _⟩ := resetBinds_inv T t t2 categoryId bindId h
    rw [hc]
    exact registryInv_setCustomBinds _ _ _ _ entry he (fun h => h) hinv
  · intro t t2 categoryId bindId records hinv hne h
    obtain ⟨entry, records2, binds, he, hj, hb, hc, _⟩ := setBinds_inv T t t2 categoryId bindId _ h
    simp only [Json.arr.injEq] at hj
    rw [hc]
    refine registryInv_setCustomBinds _ _ _ _ entry he ?_ hinv
    intro hnil
    have hlen := bindsFromJson_length T records2 binds hb
    rw [hnil, ← hj] at hlen
    exact absurd (List.length_eq_zero.mp hlen.symm) hne
  · intro t t2 categoryId bindId h
    obtain ⟨entry, records2, binds, he, hj, hb, hc, _⟩ := setBinds_inv T t t2 categoryId bindId _ h
    simp only [Json.arr.injEq] at hj
    rw [← hj] at hb
    simp only [bindsFromJson, Except.ok.injEq] at hb
    rw [hc, ← hb]
    exact ⟨_, bindEntryPtr_setCustomBinds _ _ _ _ entry he, rfl⟩

/-- Witness of C11: loading the sample document with an empty override store. -/
theorem registry_invariant_spec_witness :
    ({} : Input).reload sampleTables [sampleDocument] =
        .ok (Input.rebuildMappings { bindCategories := sampleLoaded }) ∧
      RegistryInv sampleLoaded :=
  ⟨rfl, (registry_invariant_spec sampleTables {}
    (Input.rebuildMappings { bindCategories := sampleLoaded }) [sampleDocument] rfl).1⟩

/-! ## Lookup failures -/

theorem setBinds_eq_effect (T : NameTables) (s : Input) (categoryId bindId : String)
    (jBinds : Json) :
    s.setBinds T categoryId bindId jBinds =
      match s.setBindsEffect T categoryId bindId jBinds with
      | (s2, none) => .ok s2
      | (_, some e) => .error e := by
  cases h1 : bindEntry s.bindCategories categoryId bindId with
  | error e => simp [Input.setBinds, Input.setBindsEffect, h1, bind, Except.bind]
  | ok entry =>
    cases h2 : jBinds.toArray with
    | error e => simp [Input.setBinds, Input.setBindsEffect, h1, h2, bind, Except.bind]
    | ok records =>
      cases h3 : bindsFromJson T records with
      | error e => simp [Input.setBinds, Input.setBindsEffect, h1, h2, h3, bind, Except.bind]
      | ok binds =>
        cases h4 : bindsToJson T binds with
        | error e =>
          simp [Input.setBinds, Input.setBindsEffect, h1, h2, h3, h4, bind, Except.bind,
            Input.updated]
        | ok js =>
          simp [Input.setBinds, Input.setBindsEffect, h1, h2, h3, h4, bind, Except.bind,
            Input.updated, pure, Except.pure]

theorem resetBinds_eq_effect (T : NameTables) (s : Input) (categoryId bindId : String) :
    s.resetBinds T categoryId bindId =
      match s.resetBindsEffect T categoryId bindId with
      | (s2, none) => .ok s2
      | (_, some e) => .error e := by
  cases h1 : bindEntry s.bindCategories categoryId bindId with
  | error e => simp [Input.resetBinds, Input.resetBindsEffect, h1, bind, Except.bind]
  | ok entry =>
    cases h4 : bindsToJson T entry.defaultBinds with
    | error e =>
      simp [Input.resetBinds, Input.resetBindsEffect, h1, h4, bind, Except.bind, Input.updated]
    | ok js =>
      simp [Input.resetBinds, Input.resetBindsEffect, h1, h4, bind, Except.bind, Input.updated,
        pure, Except.pure]

/-- C12: `bindEntry` raises the NotFound condition (`InputException`) exactly
when the category is absent or the entry is absent from that category, and
otherwise returns that entry; `setBinds` and `resetBinds` called with such an
unknown pair raise the same condition and leave the whole state (registry,
mapping index, tracked states, override store) as it was. -/
theorem bindEntry_notFound_spec (T : NameTables) (s : Input) (categoryId bindId : String) :
    (bindEntry s.bindCategories categoryId bindId = .error StarError.input ↔
      (mapPtr categoryId s.bindCategories = none ∨
        ∃ c, mapPtr categoryId s.bindCategories = some c ∧ mapPtr bindId c.entries = none)) ∧
    (∀ e, bindEntry s.bindCategories categoryId bindId ≠ .error e ∨ e = StarError.input) ∧
    (∀ c e, mapPtr categoryId s.bindCategories = some c → mapPtr bindId c.entries = some e →
      bindEntry s.bindCategories categoryId bindId = .ok e) ∧
    (bindEntry s.bindCategories categoryId bindId = .error StarError.input →
      (∀ jBinds, s.setBinds T categoryId bindId jBinds = .error StarError.input ∧
        s.setBindsEffect T categoryId bindId jBinds = (s, some StarError.input)) ∧
      s.resetBinds T categoryId bindId = .error StarError.input ∧
      s.resetBindsEffect T categoryId bindId = (s, some StarError.input)) ∧
    (∀ jBinds, s.setBinds T categoryId bindId jBinds =
      match s.setBindsEffect T categoryId bindId jBinds with
      | (s2, none) => .ok s2
      | (_, some e) => .error e) ∧
    (s.resetBinds T categoryId bindId =
      match s.resetBindsEffect T categoryId bindId with
      | (s2, none) => .ok s2
      | (_, some e) => .error e) := by
  refine ⟨?_, ?_, ?_, ?_, fun j => setBinds_eq_effect T s categoryId bindId j,
    resetBinds_eq_effect T s categoryId bindId⟩
  · unfold bindEntry bindEntryPtr
    cases hc : mapPtr categoryId s.bindCategories with
    | none => simp
    | some c =>
      cases he : mapPtr bindId c.entries with
      | none => simp [he]
      | some e => simp [he]
  · intro e
    unfold bindEntry
    cases bindEntryPtr s.bindCategories categoryId bindId with
    | none =>
      cases e
      · left; simp
      · left; simp
      · right; rfl
    | some entry => left; simp
  · intro c e hc he
    simp [bindEntry, bindEntryPtr, hc, he]
  · intro h
    refine ⟨fun jBinds => ⟨?_, ?_⟩, ?_, ?_⟩
    · simp [Input.setBinds, h, bind, Except.bind]
    · simp [Input.setBindsEffect, h]
    · simp [Input.resetBinds, h, bind, Except.bind]
    · simp [Input.resetBindsEffect, h]

/-! ## Decode errors -/

theorem loadBinds_skip (T : NameTables) (r : Json) (rest : List Json) (binds : List Bind)
    (h : bindFromJson T r = .error StarError.json) :
    loadBinds T (r :: rest) binds = loadBinds T rest binds := by
  simp [loadBinds, h]

/-- C13 as stated fails: a record without a `type` field, and a record whose
`type` is not a string, make `bindFromJson` raise `JsonException` instead of
returning the empty bind. -/
theorem bindFromJson_malformed_type_counterexample :
    bindFromJson sampleTables (Json.obj [("value", Json.str "K")]) = .error StarError.json ∧
      bindFromJson sampleTables (Json.obj [("type", Json.int 1), ("value", Json.str "K")]) =
        .error StarError.json :=
  ⟨rfl, rfl⟩

/-- C13 (amended): `bindFromJson` returns the empty, no-op bind for a null
record and for a record whose `type` is a string other than "key", "mouse"
and "controller"; for a record whose `type` field is missing or is not a
string it raises `JsonException`, which the loading loops catch, skipping
that record. -/
theorem bindFromJson_type_spec (T : NameTables) (kvs : List (String × Json)) :
    bindFromJson T Json.null = .ok Bind.empty ∧
    (∀ ty, Json.lookup "type" kvs = some (Json.str ty) →
      ty ≠ "key" → ty ≠ "mouse" → ty ≠ "controller" →
      bindFromJson T (Json.obj kvs) = .ok Bind.empty) ∧
    (Json.lookup "type" kvs = none →
      bindFromJson T (Json.obj kvs) = .error StarError.json) ∧
    (∀ v, Json.lookup "type" kvs = some v → (∀ ty, v ≠ Json.str ty) →
      bindFromJson T (Json.obj kvs) = .error StarError.json) ∧
    (bindFromJson T (Json.obj kvs) = .error StarError.json →
      ∀ rest binds, loadBinds T (Json.obj kvs :: rest) binds = loadBinds T rest binds) := by
  refine ⟨rfl, ?_, ?_, ?_, fun h rest binds => loadBinds_skip T _ rest binds h⟩
  · intro ty hty h1 h2 h3
    simp [bindFromJson, Json.isNull, Json.getString, Json.ptr, hty, Json.toString, Json.get,
      bind, Except.bind, pure, Except.pure, h1, h2, h3]
  · intro hnone
    simp [bindFromJson, Json.isNull, Json.getString, Json.ptr, hnone, bind, Except.bind]
  · intro v hv hns
    cases v with
    | str ty => exact absurd rfl (hns ty)
    | null =>
      simp [bindFromJson, Json.isNull, Json.getString, Json.ptr, hv, Json.toString, bind,
        Except.bind]
    | bool b =>
      simp [bindFromJson, Json.isNull, Json.getString, Json.ptr, hv, Json.toString, bind,
        Except.bind]
    | int n =>
      simp [bindFromJson, Json.isNull, Json.getString, Json.ptr, hv, Json.toString, bind,
        Except.bind]
    | arr xs =>
      simp [bindFromJson, Json.isNull, Json.getString, Json.ptr, hv, Json.toString, bind,
        Except.bind]
    | obj o =>
      simp [bindFromJson, Json.isNull, Json.getString, Json.ptr, hv, Json.toString, bind,
        Except.bind]


theorem loadBinds_abort (T : NameTables) (r : Json) (rest : List Json) (e : StarError)
    (hr : bindFromJson T r = .error e) (hne : e ≠ StarError.json) :
    ∀ (pre : List Json) (binds : List Bind),
      (∀ x ∈ pre, ∀ e2, bindFromJson T x = .error e2 → e2 = StarError.json) →
      loadBinds T (pre ++ r :: rest) binds = .error e := by
  intro pre
  induction pre with
  | nil =>
    intro binds _
    cases e with
    | json => exact absurd rfl hne
    | map => simp [loadBinds, hr]
    | input => simp [loadBinds, hr]
  | cons x xs ih =>
    intro binds h
    have hxs : ∀ y ∈ xs, ∀ e2, bindFromJson T y = .error e2 → e2 = StarError.json :=
      fun y hy => h y (List.mem_cons_of_mem _ hy)
    cases hx : bindFromJson T x with
    | ok b =>
      rw [List.cons_append]
      simp only [loadBinds, hx]
      exact ih _ hxs
    | error e2 =>
      have he := h x (List.mem_cons_self _ _) e2 hx
      subst he
      rw [List.cons_append]
      simp only [loadBinds, hx]
      exact ih _ hxs

theorem handleInput_controllerStates (s : Input) (input : InputEvent) (consumed : Bool) :
    (s.handleInput input consumed).1.controllerStates = s.controllerStates := by
  cases input with
  | keyDown K mods =>
    by_cases hb : consumed = true ∨ s.textInputActive = true
    · rw [handleInput_keyDown_blocked s K mods consumed hb]
    · have hc : consumed = false := by
        cases consumed
        · rfl
        · exact absurd (Or.inl rfl) hb
      have ht : s.textInputActive = false := by
        cases h : s.textInputActive
        · rfl
        · exact absurd (Or.inr h) hb
      rw [hc, handleInput_keyDown_live s K mods ht]
  | keyUp K => rw [handleInput_keyUp]
  | mouseButtonDown B pos =>
    cases consumed
    · rw [handleInput_mouseDown_live]
    · simp [Input.handleInput]
  | mouseButtonUp B pos =>
    cases hm : s.mouseStates B <;> cases hb : s.bindMappings (InputVariant.mouse B) <;>
      simp [Input.handleInput, hm, hb]
  | mouseWheel w pos => rfl
  | mouseMove m pos => rfl
  | controllerButtonDown c b => rfl
  | controllerButtonUp c b => rfl

/-- C15 as stated fails: a controller-button-down event that is not consumed,
handled in the initial state, leaves the controller button untracked. -/
theorem handleInput_controller_down_counterexample :
    (({} : Input).handleInput (InputEvent.controllerButtonDown 0 ⟨0⟩) false).1.controllerStates
      ⟨0⟩ = none :=
  rfl

/-- C15 (amended): `handleInput` has no branch for controller button events:
a controller-button-down or controller-button-up event is only appended to
the event log, whatever the consumed flag and the text-capture flag, and no
key, mouse, controller or bind state changes; no event at all changes the
controller states, which only `reset` touches. -/
theorem handleInput_controller_spec (s : Input) (controller : Nat) (button : ControllerButton)
    (consumed : Bool) :
    (s.handleInput (InputEvent.controllerButtonDown controller button) consumed).1 =
      { s with inputEvents :=
          s.inputEvents ++ [(InputEvent.controllerButtonDown controller button, consumed)] } ∧
    (s.handleInput (InputEvent.controllerButtonUp controller button) consumed).1 =
      { s with inputEvents :=
          s.inputEvents ++ [(InputEvent.controllerButtonUp controller button, consumed)] } ∧
    (s.handleInput (InputEvent.controllerButtonDown controller button) consumed).1.controllerStates
      = s.controllerStates ∧
    (s.handleInput (InputEvent.controllerButtonUp controller button) consumed).1.controllerStates
      = s.controllerStates ∧
    (∀ input flag, (s.handleInput input flag).1.controllerStates = s.controllerStates) :=
  ⟨rfl, rfl, rfl, rfl, fun input flag => handleInput_controllerStates s input flag⟩

/-! ## Shape of the rebuilt index -/

theorem emplaceBack_getD (m : BindMappings) (input v : InputVariant) (ref : BindRef) :
    ((m.emplaceBack input ref) v).getD [] =
      (m v).getD [] ++ (if v = input then [ref] else []) := by
  unfold BindMappings.emplaceBack HashMap.set
  by_cases hv : v = input
  · subst hv; simp
  · simp [hv]

theorem insertBinds_getD (entry : EntryId) (v : InputVariant) :
    ∀ (binds : List Bind) (m : BindMappings),
      ((insertBinds entry binds m) v).getD [] =
        (m v).getD [] ++ binds.filterMap (bindRefUnder v entry) := by
  intro binds
  induction binds with
  | nil => intro m; simp [insertBinds]
  | cons b rest ih =>
    intro m
    unfold insertBinds at ih ⊢
    rw [List.foldl_cons, ih]
    cases hb : bindRefOf entry b with
    | none => simp [bindRefUnder, hb]
    | some p =>
      obtain ⟨input, ref⟩ := p
      simp only [emplaceBack_getD, List.filterMap_cons, bindRefUnder, hb]
      by_cases hv : v = input
      · subst hv
        simp
      · have hv2 : ¬ input = v := fun h => hv h.symm
        simp [hv, hv2]

theorem insertEntries_getD (categoryId : String) (v : InputVariant) :
    ∀ (entries : List (String × BindEntry)) (m : BindMappings),
      ((insertEntries categoryId entries m) v).getD [] =
        (m v).getD [] ++
          entries.flatMap (fun p => p.2.customBinds.filterMap (bindRefUnder v (categoryId, p.1))) := by
  intro entries
  induction entries with
  | nil => intro m; simp [insertEntries]
  | cons p rest ih =>
    intro m
    unfold insertEntries at ih ⊢
    rw [List.foldl_cons, ih, insertBinds_getD, List.flatMap_cons, List.append_assoc]

theorem insertCategories_getD (v : InputVariant) :
    ∀ (cats : List (String × BindCategory)) (m : BindMappings),
      ((insertCategories cats m) v).getD [] = (m v).getD [] ++ insertionSequence cats v := by
  intro cats
  induction cats with
  | nil => intro m; simp [insertCategories, insertionSequence]
  | cons c rest ih =>
    intro m
    unfold insertCategories at ih ⊢
    unfold insertionSequence at ih ⊢
    rw [List.foldl_cons, ih, insertEntries_getD, List.flatMap_cons, List.append_assoc]

theorem buildIndex_getD (cats : List (String × BindCategory)) (v : InputVariant) :
    ((buildIndex cats) v).getD [] = sortByPriority (insertionSequence cats v) := by
  have h := insertCategories_getD v cats HashMap.empty
  have he : (HashMap.empty : BindMappings) v = none := rfl
  rw [he, Option.getD_none, List.nil_append] at h
  unfold buildIndex
  cases hm : insertCategories cats HashMap.empty v with
  | none =>
    rw [hm] at h
    simp only [Option.getD_none] at h
    rw [← h]
    simp [sortByPriority]
  | some l =>
    rw [hm] at h
    simp only [Option.getD_some] at h
    simp [h]

theorem filter_orderedInsert (p : Nat) (a : BindRef) :
    ∀ l : List BindRef,
      (List.orderedInsert (fun a b : BindRef => a.priority ≥ b.priority) a l).filter
          (fun r => decide (r.priority = p)) =
        (a :: l).filter (fun r => decide (r.priority = p)) := by
  intro l
  induction l with
  | nil => simp
  | cons b rest ih =>
    rw [List.orderedInsert]
    by_cases hab : a.priority ≥ b.priority
    · rw [if_pos hab]
    · rw [if_neg hab, List.filter_cons, ih]
      by_cases hbp : b.priority = p
      · have hap : a.priority ≠ p := by omega
        simp [List.filter_cons, hbp, hap]
      · simp [List.filter_cons, hbp]

theorem filter_sortByPriority (p : Nat) :
    ∀ l : List BindRef,
      (sortByPriority l).filter (fun r => decide (r.priority = p)) =
        l.filter (fun r => decide (r.priority = p)) := by
  intro l
  induction l with
  | nil => simp [sortByPriority]
  | cons a rest ih =>
    unfold sortByPriority at ih ⊢
    rw [List.insertionSort, filter_orderedInsert, List.filter_cons, List.filter_cons, ih]

theorem sorted_sortByPriority (l : List BindRef) :
    (sortByPriority l).Sorted (fun a b => a.priority ≥ b.priority) := by
  haveI : IsTotal BindRef (fun a b => a.priority ≥ b.priority) :=
    ⟨fun a b => Nat.le_total b.priority a.priority⟩
  haveI : IsTrans BindRef (fun a b => a.priority ≥ b.priority) :=
    ⟨fun a b c hab hbc => Nat.le_trans hbc hab⟩
  exact List.sorted_insertionSort _ l


theorem insertBinds_isSome (entry : EntryId) (v : InputVariant) :
    ∀ (binds : List Bind) (m : BindMappings),
      ((insertBinds entry binds m) v).isSome = true ↔
        ((m v).isSome = true ∨ binds.filterMap (bindRefUnder v entry) ≠ []) := by
  intro binds
  induction binds with
  | nil => intro m; simp [insertBinds]
  | cons b rest ih =>
    intro m
    unfold insertBinds at ih ⊢
    rw [List.foldl_cons, ih]
    cases hb : bindRefOf entry b with
    | none => simp [bindRefUnder, hb]
    | some p =>
      obtain ⟨input, ref⟩ := p
      by_cases hv : v = input
      · subst hv
        simp [BindMappings.emplaceBack, HashMap.set, bindRefUnder, hb]
      · have hv2 : ¬ input = v := fun h => hv h.symm
        simp [BindMappings.emplaceBack, HashMap.set, bindRefUnder, hb, hv, hv2]

theorem insertEntries_isSome (categoryId : String) (v : InputVariant) :
    ∀ (entries : List (String × BindEntry)) (m : BindMappings),
      ((insertEntries categoryId entries m) v).isSome = true ↔
        ((m v).isSome = true ∨
          entries.flatMap
            (fun p => p.2.customBinds.filterMap (bindRefUnder v (categoryId, p.1))) ≠ []) := by
  intro entries
  induction entries with
  | nil => intro m; simp [insertEntries]
  | cons p rest ih =>
    intro m
    unfold insertEntries at ih ⊢
    rw [List.foldl_cons, ih, insertBinds_isSome, List.flatMap_cons]
    simp only [ne_eq, List.append_eq_nil, not_and_or]
    exact or_assoc

theorem insertCategories_isSome (v : InputVariant) :
    ∀ (cats : List (String × BindCategory)) (m : BindMappings),
      ((insertCategories cats m) v).isSome = true ↔
        ((m v).isSome = true ∨ insertionSequence cats v ≠ []) := by
  intro cats
  induction cats with
  | nil => intro m; simp [insertCategories, insertionSequence]
  | cons c rest ih =>
    intro m
    unfold insertCategories at ih ⊢
    unfold insertionSequence at ih ⊢
    rw [List.foldl_cons, ih, insertEntries_isSome, List.flatMap_cons]
    simp only [ne_eq, List.append_eq_nil, not_and_or]
    exact or_assoc

theorem buildIndex_eq_none (cats : List (String × BindCategory)) (v : InputVariant) :
    (buildIndex cats) v = none ↔ insertionSequence cats v = [] := by
  have h := insertCategories_isSome v cats HashMap.empty
  have he : (HashMap.empty : BindMappings) v = none := rfl
  simp only [he, Option.isSome_none, Bool.false_eq_true, false_or] at h
  unfold buildIndex
  rw [Option.map_eq_none']
  constructor
  · intro hn
    by_contra hne
    have := h.mpr hne
    rw [hn] at this
    simp at this
  · intro hnil
    cases hm : insertCategories cats HashMap.empty v with
    | none => rfl
    | some l =>
      have := h.mp (by rw [hm]; rfl)
      exact absurd hnil this

/-- C16: after `rebuildMappings()`, the candidate list of every physical input
is sorted by priority in non-increasing order and is a permutation of the
insertion sequence of the registry iteration in which candidates of equal
priority keep their insertion order. -/
theorem rebuildMappings_sorted_spec (s : Input) (input : InputVariant) :
    ((s.rebuildMappings.bindMappings input).getD []).Sorted
        (fun a b => a.priority ≥ b.priority) ∧
      ((s.rebuildMappings.bindMappings input).getD []).Perm
        (insertionSequence s.bindCategories input) ∧
      (∀ p, ((s.rebuildMappings.bindMappings input).getD []).filter
          (fun r => decide (r.priority = p)) =
        (insertionSequence s.bindCategories input).filter (fun r => decide (r.priority = p))) := by
  have h : (s.rebuildMappings.bindMappings input).getD [] =
      sortByPriority (insertionSequence s.bindCategories input) :=
    buildIndex_getD s.bindCategories input
  rw [h]
  exact ⟨sorted_sortByPriority _, List.perm_insertionSort _ _,
    fun p => filter_sortByPriority p _⟩

/-- C17: after `rebuildMappings()`, whatever the index held before, the list
under each physical input is a permutation of the `BindRef`s that the custom
binds of all entries of all categories contribute under that input, one per
bind, and an input with no such bind has no list; a key or mouse bind
contributes a `BindRef` to its entry under its key or button with the bind's
priority and modifiers, a controller bind one under its controller button
with priority 0 and no modifiers, and an empty bind contributes none. -/
theorem rebuildMappings_content_spec (s : Input) (input : InputVariant) :
    ((s.rebuildMappings.bindMappings input).getD []).Perm
        (insertionSequence s.bindCategories input) ∧
      (s.rebuildMappings.bindMappings input = none ↔
        insertionSequence s.bindCategories input = []) ∧
      (∀ ref, ref ∈ (s.rebuildMappings.bindMappings input).getD [] ↔
        ∃ c ∈ s.bindCategories, ∃ p ∈ c.2.entries, ∃ b ∈ p.2.customBinds,
          bindRefOf (c.1, p.1) b = some (input, ref)) ∧
      (∀ t : Input, t.bindCategories = s.bindCategories →
        t.rebuildMappings.bindMappings = s.rebuildMappings.bindMappings) ∧
      (∀ (e : EntryId) (b : KeyBind), bindRefOf e (Bind.key b) =
        some (InputVariant.key b.key, { entry := e, priority := b.priority, mods := b.mods })) ∧
      (∀ (e : EntryId) (b : MouseBind), bindRefOf e (Bind.mouse b) =
        some (InputVariant.mouse b.button,
          { entry := e, priority := b.priority, mods := b.mods })) ∧
      (∀ (e : EntryId) (b : ControllerBind), bindRefOf e (Bind.controller b) =
        some (InputVariant.controller b.button,
          { entry := e, priority := 0, mods := KeyMod.NoMod })) ∧
      (∀ e : EntryId, bindRefOf e Bind.empty = none) := by
  have h : (s.rebuildMappings.bindMappings input).getD [] =
      sortByPriority (insertionSequence s.bindCategories input) :=
    buildIndex_getD s.bindCategories input
  refine ⟨?_, buildIndex_eq_none s.bindCategories input, ?_, ?_,
    fun _ _ => rfl, fun _ _ => rfl, fun _ _ => rfl, fun _ => rfl⟩
  · rw [h]; exact List.perm_insertionSort _ _
  · intro ref
    exact mem_buildIndex s.bindCategories input ref
  · intro t ht
    show buildIndex t.bindCategories = buildIndex s.bindCategories
    rw [ht]

/-! ## Invariants of the reachable states -/

theorem handleInput_mouseDown_consumed (s : Input) (B : MouseButton) (pos : Int × Int) :
    (s.handleInput (InputEvent.mouseButtonDown B pos) true).1 =
      { s with inputEvents := s.inputEvents ++ [(InputEvent.mouseButtonDown B pos, true)] } := by
  simp [Input.handleInput]

theorem handleInput_mouseUp (s : Input) (B : MouseButton) (pos : Int × Int) (consumed : Bool) :
    (s.handleInput (InputEvent.mouseButtonUp B pos) consumed).1 =
      { s with
        inputEvents := s.inputEvents ++ [(InputEvent.mouseButtonUp B pos, consumed)]
        mouseStates :=
          match s.mouseStates B with
          | some state => s.mouseStates.set B
            (MouseInputState.release
              { state with releasePositions := state.releasePositions ++ [pos] })
          | none => s.mouseStates
        bindStates :=
          ((s.bindMappings (InputVariant.mouse B)).getD []).foldl releaseBind s.bindStates } := by
  cases hb : s.bindMappings (InputVariant.mouse B) <;> cases hk : s.mouseStates B <;>
    simp [Input.handleInput, hb, hk]

theorem keyDown_blocked_or_live (s : Input) (consumed : Bool) :
    (consumed = true ∨ s.textInputActive = true) ∨
      (consumed = false ∧ s.textInputActive = false) := by
  cases consumed <;> cases h : s.textInputActive <;> simp

theorem active_foldl_pressBind (m : HashMap EntryId InputState) (sel : List EntryId)
    (hm : ∀ e st, m e = some st → st.Active) :
    ∀ e st, (sel.foldl pressBind m) e = some st → st.Active := by
  intro e st h
  rw [foldl_pressBind] at h
  by_cases hc : sel.count e = 0
  · rw [if_pos hc] at h
    exact hm e st h
  · rw [if_neg hc] at h
    simp only [Option.some.injEq] at h
    rw [← h]
    exact Or.inl rfl

theorem active_foldl_releaseBind (m : HashMap EntryId InputState) (binds : List BindRef)
    (hm : ∀ e st, m e = some st → st.Active) :
    ∀ e st, (binds.foldl releaseBind m) e = some st → st.Active := by
  intro e st h
  rw [foldl_releaseBind] at h
  cases hme : m e with
  | none => rw [hme] at h; simp at h
  | some st0 =>
    rw [hme] at h
    simp only at h
    by_cases hc : binds.countP (fun r => decide (r.entry = e)) = 0
    · rw [if_pos hc] at h
      simp only [Option.some.injEq] at h
      rw [← h]
      exact hm e st0 hme
    · rw [if_neg hc] at h
      simp only [Option.some.injEq] at h
      rw [← h]
      right; right
      show st0.releases + _ ≠ 0
      omega

theorem allActive_handleInput (s : Input) (input : InputEvent) (consumed : Bool)
    (h : s.AllActive) : (s.handleInput input consumed).1.AllActive := by
  obtain ⟨hk, hm, hc, hb⟩ := h
  cases input with
  | keyDown K mods =>
    rcases keyDown_blocked_or_live s consumed with hblock | ⟨hc0, ht⟩
    · rw [handleInput_keyDown_blocked s K mods consumed hblock]
      exact ⟨hk, hm, hc, hb⟩
    · rw [hc0, handleInput_keyDown_live s K mods ht]
      refine ⟨?_, hm, hc, active_foldl_pressBind _ _ hb⟩
      intro k st hst
      simp only [HashMap.set] at hst
      by_cases hkK : k = K
      · simp only [hkK, if_true, Option.some.injEq] at hst
        rw [← hst]
        exact Or.inl rfl
      · simp only [hkK, if_false] at hst
        exact hk k st hst
  | keyUp K =>
    rw [handleInput_keyUp]
    refine ⟨?_, hm, hc, active_foldl_releaseBind _ _ hb⟩
    intro k st hst
    simp only at hst
    cases hK : s.keyStates K with
    | none =>
      rw [hK] at hst
      exact hk k st hst
    | some st0 =>
      rw [hK] at hst
      simp only [HashMap.set] at hst
      by_cases hkK : k = K
      · simp only [hkK, if_true, Option.some.injEq] at hst
        rw [← hst]
        right; right
        show st0.releases + 1 ≠ 0
        omega
      · simp only [hkK, if_false] at hst
        exact hk k st hst
  | mouseButtonDown B pos =>
    cases consumed with
    | true =>
      rw [handleInput_mouseDown_consumed]
      exact ⟨hk, hm, hc, hb⟩
    | false =>
      rw [handleInput_mouseDown_live]
      refine ⟨hk, ?_, hc, active_foldl_pressBind _ _ hb⟩
      intro b st hst
      simp only [HashMap.set] at hst
      by_cases hbB : b = B
      · simp only [hbB, if_true, Option.some.injEq] at hst
        rw [← hst]
        exact Or.inl rfl
      · simp only [hbB, if_false] at hst
        exact hm b st hst
  | mouseButtonUp B pos =>
    rw [handleInput_mouseUp]
    refine ⟨hk, ?_, hc, active_foldl_releaseBind _ _ hb⟩
    intro b st hst
    simp only at hst
    cases hB : s.mouseStates B with
    | none =>
      rw [hB] at hst
      exact hm b st hst
    | some st0 =>
      rw [hB] at hst
      simp only [HashMap.set] at hst
      by_cases hbB : b = B
      · simp only [hbB, if_true, Option.some.injEq] at hst
        rw [← hst]
        right; right
        show st0.releases + 1 ≠ 0
        omega
      · simp only [hbB, if_false] at hst
        exact hm b st hst
  | mouseWheel w pos => exact ⟨hk, hm, hc, hb⟩
  | mouseMove m pos => exact ⟨hk, hm, hc, hb⟩
  | controllerButtonDown c b => exact ⟨hk, hm, hc, hb⟩
  | controllerButtonUp c b => exact ⟨hk, hm, hc, hb⟩

theorem allActive_reset (s : Input) : s.reset.AllActive := by
  refine ⟨?_, ?_, ?_, ?_⟩
  · intro k st h
    obtain ⟨st0, _, hh, rfl⟩ := eraseCond_some _ _ _ k st h
    exact Or.inl hh
  · intro k st h
    obtain ⟨st0, _, hh, rfl⟩ := eraseCond_some _ _ _ k st h
    exact Or.inl hh
  · intro k st h
    obtain ⟨st0, _, hh, rfl⟩ := eraseCond_some _ _ _ k st h
    exact Or.inl hh
  · intro k st h
    obtain ⟨st0, _, hh, rfl⟩ := eraseCond_some _ _ _ k st h
    exact Or.inl hh

theorem allActive_of_reachable (s : Input) (h : s.Reachable) : s.AllActive := by
  induction h with
  | initial s hu =>
    obtain ⟨h1, h2, h3, h4⟩ := hu
    refine ⟨?_, ?_, ?_, ?_⟩
    · intro k st hst; rw [h1 k] at hst; simp at hst
    · intro k st hst; rw [h2 k] at hst; simp at hst
    · intro k st hst; rw [h3 k] at hst; simp at hst
    · intro k st hst; rw [h4 k] at hst; simp at hst
  | handleInput s input gp _ ih => exact allActive_handleInput s input gp ih
  | reset s _ _ => exact allActive_reset s
  | rebuildMappings s _ _ => exact allActive_reset s
  | setTextInputActive s a _ ih => exact ih


theorem handleInput_creates_pressed (s : Input) (input : InputEvent) (consumed : Bool) :
    (∀ k st, s.keyStates k = none → (s.handleInput input consumed).1.keyStates k = some st →
      st.held = true ∧ 0 < st.presses) ∧
    (∀ b st, s.mouseStates b = none → (s.handleInput input consumed).1.mouseStates b = some st →
      st.held = true ∧ 0 < st.presses) ∧
    (∀ e st, s.bindStates e = none → (s.handleInput input consumed).1.bindStates e = some st →
      st.held = true ∧ 0 < st.presses) := by
  have hpress : ∀ (sel : List EntryId) (e : EntryId) (st : InputState), s.bindStates e = none →
      (sel.foldl pressBind s.bindStates) e = some st → st.held = true ∧ 0 < st.presses := by
    intro sel e st hn h
    rw [foldl_pressBind] at h
    by_cases hc : sel.count e = 0
    · rw [if_pos hc, hn] at h; simp at h
    · rw [if_neg hc] at h
      simp only [Option.some.injEq] at h
      rw [← h]
      exact ⟨rfl, by show 0 < _ + sel.count e; omega⟩
  have hrel : ∀ (binds : List BindRef) (e : EntryId) (st : InputState), s.bindStates e = none →
      (binds.foldl releaseBind s.bindStates) e = some st → st.held = true ∧ 0 < st.presses := by
    intro binds e st hn h
    rw [foldl_releaseBind, hn] at h
    simp at h
  have hsame : ∀ {κ σ : Type} (m : HashMap κ σ) (k : κ) (st : σ) (P : Prop),
      m k = none → m k = some st → P := by
    intro κ σ m k st P h1 h2
    rw [h1] at h2; simp at h2
  cases input with
  | keyDown K mods =>
    rcases keyDown_blocked_or_live s consumed with hblock | ⟨hc0, ht⟩
    · rw [handleInput_keyDown_blocked s K mods consumed hblock]
      exact ⟨fun k st => hsame _ k st _, fun k st => hsame _ k st _, fun k st => hsame _ k st _⟩
    · rw [hc0, handleInput_keyDown_live s K mods ht]
      refine ⟨?_, fun k st => hsame _ k st _, fun e st => hpress _ e st⟩
      intro k st hn hst
      simp only [HashMap.set] at hst
      by_cases hkK : k = K
      · simp only [hkK, if_true, Option.some.injEq] at hst
        rw [← hst]
        exact ⟨rfl, Nat.succ_pos _⟩
      · simp only [hkK, if_false] at hst
        exact hsame _ k st _ hn hst
  | keyUp K =>
    rw [handleInput_keyUp]
    refine ⟨?_, fun k st => hsame _ k st _, fun e st => hrel _ e st⟩
    intro k st hn hst
    simp only at hst
    cases hK : s.keyStates K with
    | none =>
      rw [hK] at hst
      exact hsame _ k st _ hn hst
    | some st0 =>
      rw [hK] at hst
      simp only [HashMap.set] at hst
      by_cases hkK : k = K
      · rw [hkK, hK] at hn; simp at hn
      · simp only [hkK, if_false] at hst
        exact hsame _ k st _ hn hst
  | mouseButtonDown B pos =>
    cases consumed with
    | true =>
      rw [handleInput_mouseDown_consumed]
      exact ⟨fun k st => hsame _ k st _, fun k st => hsame _ k st _, fun k st => hsame _ k st _⟩
    | false =>
      rw [handleInput_mouseDown_live]
      refine ⟨fun k st => hsame _ k st _, ?_, fun e st => hpress _ e st⟩
      intro b st hn hst
      simp only [HashMap.set] at hst
      by_cases hbB : b = B
      · simp only [hbB, if_true, Option.some.injEq] at hst
        rw [← hst]
        exact ⟨rfl, Nat.succ_pos _⟩
      · simp only [hbB, if_false] at hst
        exact hsame _ b st _ hn hst
  | mouseButtonUp B pos =>
    rw [handleInput_mouseUp]
    refine ⟨fun k st => hsame _ k st _, ?_, fun e st => hrel _ e st⟩
    intro b st hn hst
    simp only at hst
    cases hB : s.mouseStates B with
    | none =>
      rw [hB] at hst
      exact hsame _ b st _ hn hst
    | some st0 =>
      rw [hB] at hst
      simp only [HashMap.set] at hst
      by_cases hbB : b = B
      · rw [hbB, hB] at hn; simp at hn
      · simp only [hbB, if_false] at hst
        exact hsame _ b st _ hn hst
  | mouseWheel w pos =>
    exact ⟨fun k st => hsame _ k st _, fun k st => hsame _ k st _, fun k st => hsame _ k st _⟩
  | mouseMove m pos =>
    exact ⟨fun k st => hsame _ k st _, fun k st => hsame _ k st _, fun k st => hsame _ k st _⟩
  | controllerButtonDown c b =>
    exact ⟨fun k st => hsame _ k st _, fun k st => hsame _ k st _, fun k st => hsame _ k st _⟩
  | controllerButtonUp c b =>
    exact ⟨fun k st => hsame _ k st _, fun k st => hsame _ k st _, fun k st => hsame _ k st _⟩

/-- C18: in every state reachable from an untracked state through
`handleInput`, `reset`, `rebuildMappings` and `setTextInputActive`, every
tracked key, mouse-button, controller-button and bind state is held or has a
non-zero press or release counter; and whenever `handleInput` starts tracking
a key, mouse button or bind, the new state is held with at least one press
(it never tracks a controller button). -/
theorem tracked_states_active_spec (s : Input) (h : s.Reachable) :
    ((∀ k st, s.keyStates k = some st →
        st.held = true ∨ st.presses ≠ 0 ∨ st.releases ≠ 0) ∧
      (∀ b st, s.mouseStates b = some st →
        st.held = true ∨ st.presses ≠ 0 ∨ st.releases ≠ 0) ∧
      (∀ b st, s.controllerStates b = some st →
        st.held = true ∨ st.presses ≠ 0 ∨ st.releases ≠ 0) ∧
      (∀ e st, s.bindStates e = some st →
        st.held = true ∨ st.presses ≠ 0 ∨ st.releases ≠ 0)) ∧
    (∀ input consumed,
      (∀ k st, s.keyStates k = none → (s.handleInput input consumed).1.keyStates k = some st →
        st.held = true ∧ 0 < st.presses) ∧
      (∀ b st, s.mouseStates b = none →
        (s.handleInput input consumed).1.mouseStates b = some st →
        st.held = true ∧ 0 < st.presses) ∧
      (∀ e st, s.bindStates e = none → (s.handleInput input consumed).1.bindStates e = some st →
        st.held = true ∧ 0 < st.presses) ∧
      (s.handleInput input consumed).1.controllerStates = s.controllerStates) := by
  refine ⟨allActive_of_reachable s h, ?_⟩
  intro input consumed
  obtain ⟨h1, h2, h3⟩ := handleInput_creates_pressed s input consumed
  exact ⟨h1, h2, h3, handleInput_controllerStates s input consumed⟩

/-- Witness of C18: the state after one key press and its release. -/
theorem tracked_states_active_spec_witness :
    Input.AllActive
      ((({} : Input).handleInput (InputEvent.keyDown (Key.other 0) 0) false).1.handleInput
        (InputEvent.keyUp (Key.other 0)) false).1 :=
  (tracked_states_active_spec _
    (Input.Reachable.handleInput _ _ _
      (Input.Reachable.handleInput _ _ _
        (Input.Reachable.initial {}
          ⟨fun _ => rfl, fun _ => rfl, fun _ => rfl, fun _ => rfl⟩)))).1

theorem filterBindEntriesLoop_mem (mods : KeyMod) (e : EntryId) :
    ∀ (l : List BindRef) (p : Nat) (acc : List EntryId),
      e ∈ filterBindEntriesLoop mods l p acc → e ∈ acc ∨ ∃ ref ∈ l, ref.entry = e := by
  intro l
  induction l with
  | nil => intro p acc h; exact Or.inl (by simpa [filterBindEntriesLoop] using h)
  | cons b rest ih =>
    intro p acc h
    unfold filterBindEntriesLoop at h
    split at h
    · exact Or.inl h
    · split at h
      · rcases ih _ _ h with h2 | ⟨ref, hr, hre⟩
        · rcases List.mem_append.mp h2 with h3 | h3
          · exact Or.inl h3
          · rw [List.mem_singleton] at h3
            exact Or.inr ⟨b, List.mem_cons_self _ _, h3.symm⟩
        · exact Or.inr ⟨ref, List.mem_cons_of_mem _ hr, hre⟩
      · rcases ih _ _ h with h2 | ⟨ref, hr, hre⟩
        · exact Or.inl h2
        · exact Or.inr ⟨ref, List.mem_cons_of_mem _ hr, hre⟩

theorem filterBindEntries_mem (binds : List BindRef) (mods : KeyMod) (e : EntryId)
    (h : e ∈ filterBindEntries binds mods) : ∃ ref ∈ binds, ref.entry = e := by
  rcases filterBindEntriesLoop_mem mods e binds 0 [] h with h2 | h2
  · simp at h2
  · exact h2

theorem getD_nil_mem {α : Type} (o : Option (List α)) (x : α) (h : x ∈ o.getD []) :
    ∃ l, o = some l ∧ x ∈ l := by
  cases o with
  | none => simp at h
  | some l => exact ⟨l, rfl, h⟩

theorem handleInput_bindMappings (s : Input) (input : InputEvent) (consumed : Bool) :
    (s.handleInput input consumed).1.bindMappings = s.bindMappings := by
  cases input with
  | keyDown K mods =>
    rcases keyDown_blocked_or_live s consumed with hblock | ⟨hc0, ht⟩
    · rw [handleInput_keyDown_blocked s K mods consumed hblock]
    · rw [hc0, handleInput_keyDown_live s K mods ht]
  | keyUp K => rw [handleInput_keyUp]
  | mouseButtonDown B pos =>
    cases consumed
    · rw [handleInput_mouseDown_live]
    · rw [handleInput_mouseDown_consumed]
  | mouseButtonUp B pos => rw [handleInput_mouseUp]
  | mouseWheel w pos => rfl
  | mouseMove m pos => rfl
  | controllerButtonDown c b => rfl
  | controllerButtonUp c b => rfl

theorem rawHeld_mono (s t : Input) (v : InputVariant)
    (hk : ∀ k st, s.keyStates k = some st → st.held = true →
      ∃ st2, t.keyStates k = some st2 ∧ st2.held = true)
    (hm : ∀ b st, s.mouseStates b = some st → st.held = true →
      ∃ st2, t.mouseStates b = some st2 ∧ st2.held = true)
    (h : s.RawHeld v) : t.RawHeld v := by
  cases v with
  | key k =>
    obtain ⟨st, h1, h2⟩ := h
    exact hk k st h1 h2
  | mouse b =>
    obtain ⟨st, h1, h2⟩ := h
    exact hm b st h1 h2
  | controller b => exact h

theorem backed_press (s t : Input) (v : InputVariant) (mods : KeyMod)
    (hinv : s.HeldBindsBacked)
    (hidx : t.bindMappings = s.bindMappings)
    (hbind : t.bindStates =
      (filterBindEntries ((s.bindMappings v).getD []) mods).foldl pressBind s.bindStates)
    (hv : t.RawHeld v)
    (hmono : ∀ w, s.RawHeld w → t.RawHeld w) : t.HeldBindsBacked := by
  intro e st hst hheld
  rw [hbind, foldl_pressBind] at hst
  by_cases hc : (filterBindEntries ((s.bindMappings v).getD []) mods).count e = 0
  · rw [if_pos hc] at hst
    obtain ⟨w, binds, ref, h1, h2, h3, h4⟩ := hinv e st hst hheld
    exact ⟨w, binds, ref, by rw [hidx]; exact h1, h2, h3, hmono w h4⟩
  · have hmem : e ∈ filterBindEntries ((s.bindMappings v).getD []) mods := by
      by_contra hn
      exact hc (List.count_eq_zero.mpr hn)
    obtain ⟨ref, hr, hre⟩ := filterBindEntries_mem _ _ _ hmem
    obtain ⟨binds, hb, hrb⟩ := getD_nil_mem _ _ hr
    exact ⟨v, binds, ref, by rw [hidx]; exact hb, hrb, hre, hv⟩

theorem backed_release (s t : Input) (v : InputVariant)
    (hinv : s.HeldBindsBacked)
    (hidx : t.bindMappings = s.bindMappings)
    (hbind : t.bindStates = ((s.bindMappings v).getD []).foldl releaseBind s.bindStates)
    (hmono : ∀ w, w ≠ v → s.RawHeld w → t.RawHeld w) : t.HeldBindsBacked := by
  intro e st hst hheld
  rw [hbind, foldl_releaseBind] at hst
  cases hme : s.bindStates e with
  | none => rw [hme] at hst; simp at hst
  | some st0 =>
    rw [hme] at hst
    simp only at hst
    by_cases hc : ((s.bindMappings v).getD []).countP (fun r => decide (r.entry = e)) = 0
    · rw [if_pos hc] at hst
      simp only [Option.some.injEq] at hst
      rw [← hst] at hheld
      obtain ⟨w, binds, ref, h1, h2, h3, h4⟩ := hinv e st0 hme hheld
      have hwv : w ≠ v := by
        intro hwv
        rw [hwv] at h1
        rw [List.countP_eq_zero] at hc
        have := hc ref (by rw [h1]; exact h2)
        simp [h3] at this
      exact ⟨w, binds, ref, by rw [hidx]; exact h1, h2, h3, hmono w hwv h4⟩
    · rw [if_neg hc] at hst
      simp only [Option.some.injEq] at hst
      rw [← hst] at hheld
      simp at hheld

theorem backed_same (s t : Input) (hinv : s.HeldBindsBacked)
    (hidx : t.bindMappings = s.bindMappings) (hbind : t.bindStates = s.bindStates)
    (hk : t.keyStates = s.keyStates) (hm : t.mouseStates = s.mouseStates) :
    t.HeldBindsBacked := by
  intro e st hst hheld
  rw [hbind] at hst
  obtain ⟨w, binds, ref, h1, h2, h3, h4⟩ := hinv e st hst hheld
  refine ⟨w, binds, ref, by rw [hidx]; exact h1, h2, h3, ?_⟩
  exact rawHeld_mono s t w (fun k st0 a b => ⟨st0, by rw [hk]; exact a, b⟩)
    (fun k st0 a b => ⟨st0, by rw [hm]; exact a, b⟩) h4


theorem backed_handleInput (s : Input) (input : InputEvent) (consumed : Bool)
    (hinv : s.HeldBindsBacked) : (s.handleInput input consumed).1.HeldBindsBacked := by
  cases input with
  | keyDown K mods =>
    rcases keyDown_blocked_or_live s consumed with hblock | ⟨hc0, ht⟩
    · rw [handleInput_keyDown_blocked s K mods consumed hblock]
      exact backed_same s _ hinv rfl rfl rfl rfl
    · rw [hc0, handleInput_keyDown_live s K mods ht]
      refine backed_press s _ (InputVariant.key K) mods hinv rfl rfl ?_ ?_
      · exact ⟨_, if_pos rfl, rfl⟩
      · intro w hw
        refine rawHeld_mono s _ w ?_ (fun b st a c => ⟨st, a, c⟩) hw
        intro k st hst hheld
        by_cases hkK : k = K
        · subst hkK
          exact ⟨_, if_pos rfl, rfl⟩
        · exact ⟨st, by simp [HashMap.set, hkK, hst], hheld⟩
  | keyUp K =>
    rw [handleInput_keyUp]
    refine backed_release s _ (InputVariant.key K) hinv rfl rfl ?_
    intro w hw hraw
    cases w with
    | key k =>
      have hkK : k ≠ K := fun h => hw (by rw [h])
      obtain ⟨st, hst, hheld⟩ := hraw
      refine ⟨st, ?_, hheld⟩
      simp only
      cases hK : s.keyStates K with
      | none => exact hst
      | some st0 => simp [HashMap.set, hkK, hst]
    | mouse b => exact hraw
    | controller b => exact hraw
  | mouseButtonDown B pos =>
    cases consumed with
    | true =>
      rw [handleInput_mouseDown_consumed]
      exact backed_same s _ hinv rfl rfl rfl rfl
    | false =>
      rw [handleInput_mouseDown_live]
      refine backed_press s _ (InputVariant.mouse B) s.pressedMods hinv rfl rfl ?_ ?_
      · exact ⟨_, if_pos rfl, rfl⟩
      · intro w hw
        refine rawHeld_mono s _ w (fun b st a c => ⟨st, a, c⟩) ?_ hw
        intro b st hst hheld
        by_cases hbB : b = B
        · subst hbB
          exact ⟨_, if_pos rfl, rfl⟩
        · exact ⟨st, by simp [HashMap.set, hbB, hst], hheld⟩
  | mouseButtonUp B pos =>
    rw [handleInput_mouseUp]
    refine backed_release s _ (InputVariant.mouse B) hinv rfl rfl ?_
    intro w hw hraw
    cases w with
    | key k => exact hraw
    | mouse b =>
      have hbB : b ≠ B := fun h => hw (by rw [h])
      obtain ⟨st, hst, hheld⟩ := hraw
      refine ⟨st, ?_, hheld⟩
      simp only
      cases hK : s.mouseStates B with
      | none => exact hst
      | some st0 => simp [HashMap.set, hbB, hst]
    | controller b => exact hraw
  | mouseWheel w pos => exact backed_same s _ hinv rfl rfl rfl rfl
  | mouseMove m pos => exact backed_same s _ hinv rfl rfl rfl rfl
  | controllerButtonDown c b => exact backed_same s _ hinv rfl rfl rfl rfl
  | controllerButtonUp c b => exact backed_same s _ hinv rfl rfl rfl rfl

theorem backed_reset (s : Input) (hinv : s.HeldBindsBacked) : s.reset.HeldBindsBacked := by
  intro e st hst hheld
  obtain ⟨st0, h0, hh0, _⟩ := eraseCond_some _ _ _ e st hst
  obtain ⟨w, binds, ref, h1, h2, h3, h4⟩ := hinv e st0 h0 hh0
  refine ⟨w, binds, ref, h1, h2, h3, ?_⟩
  refine rawHeld_mono s _ w ?_ ?_ h4
  · intro k stk hk hheldk
    exact ⟨stk.reset, by simp [Input.reset, eraseCond, hk, hheldk], hheldk⟩
  · intro b stb hb hheldb
    exact ⟨stb.reset, by simp [Input.reset, eraseCond, hb, hheldb], hheldb⟩

theorem backed_of_reachableWith (index : BindMappings) (s : Input)
    (h : Input.ReachableWith index s) : s.HeldBindsBacked ∧ s.bindMappings = index := by
  induction h with
  | initial s hu hi =>
    refine ⟨?_, hi⟩
    intro e st hst
    rw [hu.2.2.2 e] at hst
    simp at hst
  | handleInput s input gp _ ih =>
    exact ⟨backed_handleInput s input gp ih.1, by rw [handleInput_bindMappings]; exact ih.2⟩
  | reset s _ ih => exact ⟨backed_reset s ih.1, ih.2⟩
  | setTextInputActive s a _ ih => exact ⟨backed_same s _ ih.1 rfl rfl rfl rfl, ih.2⟩

/-- C19: with the mapping index fixed, in every state reachable from an
untracked state through `handleInput` and `reset` (and `setTextInputActive`),
every bind entry whose state is held has a `BindRef` in the index under a key
or mouse button whose raw state is held; hence when no tracked key and no
tracked mouse button is held, no bind is held. -/
theorem held_binds_backed_spec (index : BindMappings) (s : Input)
    (h : Input.ReachableWith index s) :
    s.bindMappings = index ∧
    (∀ e st, s.bindStates e = some st → st.held = true →
      ∃ v binds ref, index v = some binds ∧ ref ∈ binds ∧ ref.entry = e ∧
        ((∃ k stk, v = InputVariant.key k ∧ s.keyStates k = some stk ∧ stk.held = true) ∨
          (∃ b stb, v = InputVariant.mouse b ∧ s.mouseStates b = some stb ∧
            stb.held = true))) ∧
    ((∀ k stk, s.keyStates k = some stk → stk.held = false) →
      (∀ b stb, s.mouseStates b = some stb → stb.held = false) →
      ∀ e st, s.bindStates e = some st → st.held = false) := by
  obtain ⟨hb, hi⟩ := backed_of_reachableWith index s h
  have hmain : ∀ e st, s.bindStates e = some st → st.held = true →
      ∃ v binds ref, index v = some binds ∧ ref ∈ binds ∧ ref.entry = e ∧
        ((∃ k stk, v = InputVariant.key k ∧ s.keyStates k = some stk ∧ stk.held = true) ∨
          (∃ b stb, v = InputVariant.mouse b ∧ s.mouseStates b = some stb ∧
            stb.held = true)) := by
    intro e st hst hheld
    obtain ⟨v, binds, ref, h1, h2, h3, h4⟩ := hb e st hst hheld
    refine ⟨v, binds, ref, by rw [← hi]; exact h1, h2, h3, ?_⟩
    cases v with
    | key k =>
      obtain ⟨stk, a, b⟩ := h4
      exact Or.inl ⟨k, stk, rfl, a, b⟩
    | mouse b =>
      obtain ⟨stb, a, c⟩ := h4
      exact Or.inr ⟨b, stb, rfl, a, c⟩
    | controller b => exact absurd h4 (by simp [Input.RawHeld])
  refine ⟨hi, hmain, ?_⟩
  intro hk hm e st hst
  cases hheld : st.held with
  | false => rfl
  | true =>
    exfalso
    obtain ⟨v, binds, ref, _, _, _, hv⟩ := hmain e st hst hheld
    rcases hv with ⟨k, stk, _, a, b⟩ | ⟨b, stb, _, a, c⟩
    · rw [hk k stk a] at b; simp at b
    · rw [hm b stb a] at c; simp at c


/-- Witness of C19: the sample key pressed with its modifiers on the sample
index. -/
theorem held_binds_backed_spec_witness :
    samplePressed.bindMappings = sampleIndex ∧
      ((∀ k stk, samplePressed.keyStates k = some stk → stk.held = false) →
        (∀ b stb, samplePressed.mouseStates b = some stb → stb.held = false) →
        ∀ e st, samplePressed.bindStates e = some st → st.held = false) :=
  ⟨(held_binds_backed_spec sampleIndex samplePressed
      (Input.ReachableWith.handleInput _ _ _
        (Input.ReachableWith.initial _
          ⟨fun _ => rfl, fun _ => rfl, fun _ => rfl, fun _ => rfl⟩ rfl))).1,
    (held_binds_backed_spec sampleIndex samplePressed
      (Input.ReachableWith.handleInput _ _ _
        (Input.ReachableWith.initial _
          ⟨fun _ => rfl, fun _ => rfl, fun _ => rfl, fun _ => rfl⟩ rfl))).2.2⟩

theorem ownMods_handleInput (s : Input) (input : InputEvent) (consumed : Bool)
    (hinv : s.OwnModsOnly) : (s.handleInput input consumed).1.OwnModsOnly := by
  cases input with
  | keyDown K mods =>
    rcases keyDown_blocked_or_live s consumed with hblock | ⟨hc0, ht⟩
    · rw [handleInput_keyDown_blocked s K mods consumed hblock]
      exact hinv
    · rw [hc0, handleInput_keyDown_live s K mods ht]
      intro k st hst i hi
      simp only [HashMap.set] at hst
      by_cases hkK : k = K
      · subst hkK
        simp only [if_true, Option.some.injEq] at hst
        rw [← hst] at hi
        simp only [KeyInputState.press, Nat.testBit_or, Bool.or_eq_true] at hi
        rcases hi with hi | hi
        · cases hk : s.keyStates k with
          | none => rw [hk] at hi; simp [KeyMod.NoMod] at hi
          | some st0 =>
            rw [hk] at hi
            exact hinv k st0 hk i hi
        · exact hi
      · simp only [hkK, if_false] at hst
        exact hinv k st hst i hi
  | keyUp K =>
    rw [handleInput_keyUp]
    intro k st hst i hi
    simp only at hst
    cases hK : s.keyStates K with
    | none =>
      rw [hK] at hst
      exact hinv k st hst i hi
    | some st0 =>
      rw [hK] at hst
      simp only [HashMap.set] at hst
      by_cases hkK : k = K
      · subst hkK
        simp only [if_true, Option.some.injEq] at hst
        rw [← hst] at hi
        simp only [KeyInputState.release, Nat.testBit_and, Bool.and_eq_true] at hi
        exact hinv k st0 hK i hi.1
      · simp only [hkK, if_false] at hst
        exact hinv k st hst i hi
  | mouseButtonDown B pos =>
    cases consumed
    · rw [handleInput_mouseDown_live]; exact hinv
    · rw [handleInput_mouseDown_consumed]; exact hinv
  | mouseButtonUp B pos => rw [handleInput_mouseUp]; exact hinv
  | mouseWheel w pos => exact hinv
  | mouseMove m pos => exact hinv
  | controllerButtonDown c b => exact hinv
  | controllerButtonUp c b => exact hinv

theorem ownMods_reset (s : Input) (hinv : s.OwnModsOnly) : s.reset.OwnModsOnly := by
  intro k st hst i hi
  obtain ⟨st0, h0, _, hst0⟩ := eraseCond_some _ _ _ k st hst
  rw [hst0] at hi
  exact hinv k st0 h0 i hi

theorem ownMods_of_reachable (s : Input) (h : s.Reachable) : s.OwnModsOnly := by
  induction h with
  | initial s hu =>
    intro k st hst
    rw [hu.1 k] at hst
    simp at hst
  | handleInput s input gp _ ih => exact ownMods_handleInput s input gp ih
  | reset s _ ih => exact ownMods_reset s ih
  | rebuildMappings s _ ih => exact ownMods_reset s ih
  | setTextInputActive s a _ ih => exact ih

/-- C20: in every reachable state the modifier set recorded in the state of a
key `K` has no bit other than the modifier bit of `K` under `KeysToMods`, and
is empty when `K` is not a modifier key; so for a key that is not a modifier
key and an explicit modifier set with at least one strict bit, `keyDown` is
absent, whatever was held when the key was pressed. -/
theorem key_mods_own_bit_spec (s : Input) (h : s.Reachable) :
    (∀ k st, s.keyStates k = some st → ∀ i, st.mods.testBit i = true →
      ∃ m, KeysToMods.rightPtr k = some m ∧ m.testBit i = true) ∧
    (∀ k st, s.keyStates k = some st → KeysToMods.rightPtr k = none →
      st.mods = KeyMod.NoMod) ∧
    (∀ k m, KeysToMods.rightPtr k = none → (∃ i, ¬ optionalBit i ∧ m.testBit i = true) →
      s.keyDown k (some m) = none) := by
  have hinv := ownMods_of_reachable s h
  have hnone : ∀ k st, s.keyStates k = some st → KeysToMods.rightPtr k = none →
      st.mods = KeyMod.NoMod := by
    intro k st hst hk
    apply Nat.eq_of_testBit_eq
    intro i
    cases hb : st.mods.testBit i with
    | false => simp [KeyMod.NoMod]
    | true =>
      have := hinv k st hst i hb
      rw [hk] at this
      simp at this
  refine ⟨?_, hnone, ?_⟩
  · intro k st hst i hi
    have := hinv k st hst i hi
    cases hk : KeysToMods.rightPtr k with
    | none => rw [hk] at this; simp at this
    | some m => rw [hk] at this; exact ⟨m, rfl, this⟩
  · intro k m hk hstrict
    obtain ⟨i, hi, hmi⟩ := hstrict
    unfold Input.keyDown
    cases hst : s.keyStates k with
    | none => rfl
    | some st =>
      have hmods := hnone k st hst hk
      have hcmp : compareKeyMod m st.mods = false := by
        cases hc : compareKeyMod m st.mods with
        | false => rfl
        | true =>
          have := ((compareKeyMod_iff m st.mods).mp hc i).2 hi
          rw [hmi, hmods] at this
          simp [KeyMod.NoMod] at this
      simp [hcmp]

/-- Witness of C20: the sample key pressed while left shift and left control
are reported held. -/
theorem key_mods_own_bit_spec_witness :
    samplePressed.keyDown (Key.other 0) (some KeyMod.LShift) = none :=
  (key_mods_own_bit_spec samplePressed
    (Input.Reachable.handleInput _ _ _
      (Input.Reachable.initial _
        ⟨fun _ => rfl, fun _ => rfl, fun _ => rfl, fun _ => rfl⟩))).2.2
    (Key.other 0) KeyMod.LShift rfl ⟨0, by decide, by decide⟩

end Star
